import Mathlib

/-!
# Heap-file layer (heapfile.C): shallow embedding

The embedding follows `src/CS564p4/CS564p4/heapfile.C`.  The classes the file is
written against (`Page`, `BufMgr`, `DB`, `File`, `Error`) and the headers that
declare `Status`, `RID`, `Record`, `Datatype`, `Operator`, `PAGESIZE` and
`DPFIXED` are not part of the repository sources; they are modelled from the
interface description in the specification (section 6) and marked as such.

Conventions.
* A pointer to a buffer frame (`curPage`, `headerPage`) is the number of the
  page whose frame it addresses; `none` is the null pointer.  Dereferencing a
  null pointer, or a frame that does not hold the expected kind of page, is
  undefined behaviour in the C++ program and is the value `none` of the
  operation.
* `int` fields are `Int`; the places where 32-bit wrap-around matters
  (`offset + length - 1` and `iattr - ifltr` in `matchRec`) reduce modulo `2^32`
  explicitly.
* Loops carry a fuel argument; running out of fuel is `none`.
-/

namespace HeapFileModel

/-! ## Declarations taken from the missing headers -/

/-- Status codes.  `OK`, `FILEEOF`, `BADSCANPARM`, `INVALIDRECLEN`, `NOSPACE`,
`ENDOFPAGE`, `NORECORDS` and `FILEEXISTS` occur in heapfile.C; the others are the
failures the collaborators can report. -/
inductive Status
  | OK | FILEEOF | BADSCANPARM | INVALIDRECLEN | NOSPACE | ENDOFPAGE | NORECORDS
  | FILEEXISTS | INVALIDSLOTNO | PAGENOTPINNED | HASHNOTFOUND | BADPAGENO
  | BADFILE | FILENOTOPEN | UNIXERR | BUFFEREXCEEDED
  deriving DecidableEq, Repr

/-- Attribute types of a scan predicate; `invalid` stands for any value of the
C enumeration outside its three enumerators. -/
inductive Datatype
  | STRING | INTEGER | FLOAT | invalid
  deriving DecidableEq, Repr

/-- Comparison operators of a scan predicate; `invalid` stands for any value of
the C enumeration outside its six enumerators. -/
inductive Operator
  | LT | LTE | EQ | GTE | GT | NE | invalid
  deriving DecidableEq, Repr

abbrev Byte := Fin 256

/-- Record identifier: page number and slot number. -/
structure RID where
  pageNo : Int
  slotNo : Int
  deriving DecidableEq, Repr

def NULLRID : RID := ⟨-1, -1⟩

/-- A record is a byte buffer; its `length` field is the size of the buffer. -/
structure Record where
  data : List Byte
  deriving DecidableEq, Repr

def Record.length (r : Record) : Int := r.data.length

/-- The value of `sizeof(int)` on the target. -/
def sizeofInt : Int := 4

/-- The value of `sizeof(float)` on the target. -/
def sizeofFloat : Int := 4

/-! ## The page collaborator -/

/-- Modelled from the spec: the `Page` class (page.h, page.C) is missing.  A page
is "a fixed-size container of variable-length records" with a next-page chain
pointer.  `curPage` is the page's own number (set by `init`), `slots` holds the
record of every slot, `none` for a slot whose record was deleted. -/
structure Page where
  curPage : Int
  nextPage : Int
  slots : List (Option (List Byte))
  deriving DecidableEq, Repr

/-- Modelled from the spec: the constants `PAGESIZE` and `DPFIXED` and the space
accounting of `Page::insertRecord` are missing; they are parameters.
`hasSpace p rec` is false exactly when the page reports `NOSPACE` for `rec`. -/
structure PageLayout where
  PAGESIZE : Nat
  DPFIXED : Nat
  fixed_le : DPFIXED ≤ PAGESIZE
  hasSpace : Page → Record → Bool

/-- Modelled from the spec: `init(pageId)`, an empty page with no successor. -/
def Page.init (pageNo : Int) : Page :=
  { curPage := pageNo, nextPage := -1, slots := [] }

def Page.getNextPage (p : Page) : Int := p.nextPage

def Page.setNextPage (p : Page) (pageNo : Int) : Page := { p with nextPage := pageNo }

/-- The record stored in slot `n`, if the slot exists and is in use. -/
def Page.slot? (p : Page) (n : Int) : Option (List Byte) :=
  if 0 ≤ n then (p.slots.get? n.toNat).join else none

/-- Number of the first used slot in `slots`, whose head is slot `base`. -/
def firstLive : List (Option (List Byte)) → Nat → Option Nat
  | [], _ => none
  | some _ :: _, base => some base
  | none :: rest, base => firstLive rest (base + 1)

/-- Modelled from the spec: `nextRecord(RID) → RID | EndOfPage`.  The result is
the RID of the first used slot after `curRid.slotNo`; `none` is the status
`ENDOFPAGE`.  From `NULLRID` (slot -1) the search starts at slot 0. -/
def Page.nextRecord (p : Page) (curRid : RID) : Option RID :=
  let i := (curRid.slotNo + 1).toNat
  match firstLive (p.slots.drop i) i with
  | some j => some ⟨p.curPage, j⟩
  | none => none

/-- Modelled from the spec: `getRecord(RID) → bytes`, failing for a slot that
holds no record. -/
def Page.getRecord (p : Page) (rid : RID) : Status × Option Record :=
  match p.slot? rid.slotNo with
  | some d => (Status.OK, some ⟨d⟩)
  | none => (Status.INVALIDSLOTNO, none)

/-- Modelled from the spec: `insertRecord(bytes) → RID | NoSpace`.  The record is
stored in a new slot after the existing ones. -/
def Page.insertRecord (L : PageLayout) (p : Page) (rec : Record) :
    Status × Option RID × Page :=
  if L.hasSpace p rec then
    (Status.OK, some ⟨p.curPage, p.slots.length⟩, { p with slots := p.slots ++ [some rec.data] })
  else (Status.NOSPACE, none, p)

/-- Modelled from the spec: `deleteRecord(RID) → status`. -/
def Page.deleteRecord (p : Page) (rid : RID) : Status × Page :=
  match p.slot? rid.slotNo with
  | some _ => (Status.OK, { p with slots := p.slots.set rid.slotNo.toNat none })
  | none => (Status.INVALIDSLOTNO, p)

/-! ## The header page -/

/-- The header page of a heap file (`FileHdrPage`, declared in heapfile.h). -/
structure FileHdrPage where
  fileName : String
  firstPage : Int
  lastPage : Int
  pageCnt : Int
  recCnt : Int
  deriving DecidableEq, Repr

/-! ## Buffer pool and file layer -/

/-- Contents of a buffer frame: a header page, a data page, or the unspecified
bytes of a page that was allocated and not written yet. -/
inductive PageImage
  | raw
  | header (h : FileHdrPage)
  | data (p : Page)
  deriving DecidableEq, Repr

/-- Modelled from the spec: the buffer pool's frame for one page of a file, with
its pin count and dirty bit. -/
structure Frame where
  img : PageImage
  pinCnt : Nat
  dirty : Bool
  deriving DecidableEq, Repr

/-- Modelled from the spec: a file of the database layer; page `k` of the file
is `frames[k]`, and `openCnt` counts the handles that hold the file open. -/
structure File where
  frames : List Frame
  openCnt : Nat
  deriving DecidableEq, Repr

/-- Modelled from the spec: the state shared by the collaborators `db` and
`bufMgr`.  `faults` lists the outcomes the environment imposes on the next
fallible collaborator calls, one entry per call: `OK` (or no entry) lets the
call run, any other status makes it fail with that status and no effect. -/
structure World where
  files : String → Option File
  faults : List Status

def File.frame? (f : File) (k : Int) : Option Frame :=
  if 0 ≤ k then f.frames.get? k.toNat else none

def File.setFrame (f : File) (k : Int) (fr : Frame) : File :=
  if 0 ≤ k then { f with frames := f.frames.set k.toNat fr } else f

def World.frame? (w : World) (file : String) (k : Int) : Option Frame :=
  (w.files file).bind fun f => f.frame? k

def World.setFile (w : World) (file : String) (f : File) : World :=
  { w with files := Function.update w.files file (some f) }

def World.setFrame (w : World) (file : String) (k : Int) (fr : Frame) : World :=
  match w.files file with
  | some f => w.setFile file (f.setFrame k fr)
  | none => w

/-- The data page an image holds, if it is a data page. -/
def PageImage.page? : PageImage → Option Page
  | PageImage.data p => some p
  | _ => none

/-- The header page an image holds, if it is a header page. -/
def PageImage.hdr? : PageImage → Option FileHdrPage
  | PageImage.header h => some h
  | _ => none

/-- The contents of frame `k`. -/
def World.img? (w : World) (file : String) (k : Int) : Option PageImage :=
  (w.frame? file k).map fun fr => fr.img

/-- The data page held in frame `k`, if the frame holds one. -/
def World.page? (w : World) (file : String) (k : Int) : Option Page :=
  (w.img? file k).bind PageImage.page?

/-- The header page held in frame `k`, if the frame holds one. -/
def World.hdr? (w : World) (file : String) (k : Int) : Option FileHdrPage :=
  (w.img? file k).bind PageImage.hdr?

/-- A write through a page pointer: replaces the contents of frame `k`. -/
def World.setImg (w : World) (file : String) (k : Int) (img : PageImage) : World :=
  match w.frame? file k with
  | some fr => w.setFrame file k { fr with img := img }
  | none => w

/-- The outcome imposed on the next collaborator call. -/
def World.nextFault (w : World) : Status × World :=
  match w.faults with
  | [] => (Status.OK, w)
  | st :: rest => (st, { w with faults := rest })

namespace db

/-- Modelled from the spec: `openFile(name) → handle | NotFound`.  The handle is
the file's name. -/
def openFile (w : World) (fileName : String) : Status × World :=
  let (flt, w1) := w.nextFault
  if flt ≠ Status.OK then (flt, w1)
  else match w1.files fileName with
    | none => (Status.UNIXERR, w1)
    | some f => (Status.OK, w1.setFile fileName { f with openCnt := f.openCnt + 1 })

/-- Modelled from the spec: `createFile(name) → status`. -/
def createFile (w : World) (fileName : String) : Status × World :=
  let (flt, w1) := w.nextFault
  if flt ≠ Status.OK then (flt, w1)
  else match w1.files fileName with
    | some _ => (Status.FILEEXISTS, w1)
    | none => (Status.OK, w1.setFile fileName { frames := [], openCnt := 0 })

/-- Modelled from the spec: `closeFile(handle) → status`. -/
def closeFile (w : World) (file : String) : Status × World :=
  let (flt, w1) := w.nextFault
  if flt ≠ Status.OK then (flt, w1)
  else match w1.files file with
    | none => (Status.BADFILE, w1)
    | some f =>
      if f.openCnt = 0 then (Status.FILENOTOPEN, w1)
      else (Status.OK, w1.setFile file { f with openCnt := f.openCnt - 1 })

/-- Modelled from the spec: `destroyFile(name) → status`. -/
def destroyFile (w : World) (fileName : String) : Status × World :=
  let (flt, w1) := w.nextFault
  if flt ≠ Status.OK then (flt, w1)
  else match w1.files fileName with
    | none => (Status.UNIXERR, w1)
    | some _ => (Status.OK, { w1 with files := Function.update w1.files fileName none })

/-- Modelled from the spec: the file-handle operation `getFirstPageId()`. -/
def getFirstPage (w : World) (file : String) : Status × Int × World :=
  let (flt, w1) := w.nextFault
  if flt ≠ Status.OK then (flt, 0, w1)
  else match w1.files file with
    | none => (Status.BADFILE, 0, w1)
    | some f => if f.frames = [] then (Status.BADPAGENO, 0, w1) else (Status.OK, 0, w1)

end db

namespace bufMgr

/-- Modelled from the spec: `allocatePage(file) → (pageId, pageHandle)`.  The new
page is the next page of the file; it is pinned once and its bytes are
unspecified.  The results are the status, the page number and the page
pointer. -/
def allocPage (w : World) (file : String) : Status × Int × Option Int × World :=
  let (flt, w1) := w.nextFault
  if flt ≠ Status.OK then (flt, 0, none, w1)
  else match w1.files file with
    | none => (Status.BADFILE, 0, none, w1)
    | some f =>
      let pageNo : Int := f.frames.length
      (Status.OK, pageNo, some pageNo,
        w1.setFile file { f with frames := f.frames ++ [⟨PageImage.raw, 1, false⟩] })

/-- Modelled from the spec: `readPage(file, pageId) → pageHandle`.  On success
the page is pinned once more and the page pointer addresses its frame; on
failure the pointer `page` passed by reference keeps its value. -/
def readPage (w : World) (file : String) (pageNo : Int) (page : Option Int) :
    Status × Option Int × World :=
  let (flt, w1) := w.nextFault
  if flt ≠ Status.OK then (flt, page, w1)
  else match w1.frame? file pageNo with
    | none => (Status.BADPAGENO, page, w1)
    | some fr => (Status.OK, some pageNo, w1.setFrame file pageNo { fr with pinCnt := fr.pinCnt + 1 })

/-- Modelled from the spec: `unpinPage(file, pageId, isDirty) → status`. -/
def unPinPage (w : World) (file : String) (pageNo : Int) (dirty : Bool) : Status × World :=
  let (flt, w1) := w.nextFault
  if flt ≠ Status.OK then (flt, w1)
  else match w1.frame? file pageNo with
    | none => (Status.HASHNOTFOUND, w1)
    | some fr =>
      if fr.pinCnt = 0 then (Status.PAGENOTPINNED, w1)
      else (Status.OK,
        w1.setFrame file pageNo { fr with pinCnt := fr.pinCnt - 1, dirty := fr.dirty || dirty })

end bufMgr

/-- The header fields read through a `FileHdrPage*` cast of a frame.  A frame
that was allocated and not written yet has unspecified bytes; they read as a
header whose fields are all zero. -/
def PageImage.asHdr : PageImage → FileHdrPage
  | PageImage.header h => h
  | _ => ⟨"", 0, 0, 0, 0⟩

/-- A write to header fields through a `FileHdrPage*` cast of frame `k`. -/
def World.writeHdr (w : World) (file : String) (k : Int) (f : FileHdrPage → FileHdrPage) :
    World :=
  match w.frame? file k with
  | some fr => w.setImg file k (PageImage.header (f fr.img.asHdr))
  | none => w

/-! ## heapfile.C: free functions -/

/-- The characters of the array `hdrPage->fileName` after
`fileName.copy(hdrPage->fileName, fileName.size(), 0)` (line 43), for a name
that fits in the array.  A `String` stands for the characters of a
`std::string` or of a `char` array up to its first zero.  The copy writes the
`size()` characters of the name to the start of the array and no terminating
zero: the array elements behind them keep the value `old` had there. -/
def copyName (old fileName : String) : String :=
  ⟨fileName.data ++ old.data.drop fileName.length⟩

/-- The function `createHeapFile` (heapfile.C, lines 8-74).  Every `o`, `c`,
`a`, `u` below is the result of one collaborator call: its first component is
the value assigned to `status`, its last component the world after the call.

Modelled from the spec: heapfile.h, which declares `FileHdrPage`, is missing;
the header's `fileName` is a "bounded-length string", an array of `MAXNAMESIZE`
characters, and the constant is a parameter.  Line 43 copies `fileName.size()`
characters into the array without a bound check: for a name longer than the
array the copy writes past the end of the array, which is undefined behaviour
(`none`). -/
def createHeapFile (MAXNAMESIZE : Nat) (w : World) (fileName : String) :
    Option (Status × World) :=
  -- try to open the file. This should return an error
  let o1 := db.openFile w fileName
  if o1.1 ≠ Status.OK then
    let c := db.createFile o1.2 fileName
    if c.1 ≠ Status.OK then some (c.1, c.2) else
    let o2 := db.openFile c.2 fileName
    if o2.1 ≠ Status.OK then some (o2.1, o2.2) else
    let a1 := bufMgr.allocPage o2.2 fileName
    if a1.1 ≠ Status.OK then some (a1.1, a1.2.2.2) else
    let hdrPageNo := a1.2.1
    -- initialize values of the header page
    if MAXNAMESIZE < fileName.length then none else
    let w5 := a1.2.2.2.writeHdr fileName hdrPageNo
      fun h => { h with fileName := copyName h.fileName fileName, pageCnt := 1, recCnt := 0 }
    let a2 := bufMgr.allocPage w5 fileName
    if a2.1 ≠ Status.OK then some (a2.1, a2.2.2.2) else
    let newPageNo := a2.2.1
    let w7 := a2.2.2.2.setImg fileName newPageNo (PageImage.data (Page.init newPageNo))
    let w8 := w7.writeHdr fileName hdrPageNo
      fun h => { h with firstPage := newPageNo, lastPage := newPageNo }
    let u1 := bufMgr.unPinPage w8 fileName hdrPageNo true
    if u1.1 ≠ Status.OK then some (u1.1, u1.2) else
    let u2 := bufMgr.unPinPage u1.2 fileName newPageNo true
    if u2.1 ≠ Status.OK then some (u2.1, u2.2) else
    let cl := db.closeFile u2.2 fileName
    if cl.1 ≠ Status.OK then some (cl.1, cl.2) else
    some (cl.1, cl.2)
  else some (Status.FILEEXISTS, o1.2)

/-- The function `destroyHeapFile` (heapfile.C, lines 77-80). -/
def destroyHeapFile (w : World) (fileName : String) : Status × World :=
  db.destroyFile w fileName

/-! ## heapfile.C: class HeapFile -/

/-- The data members of `HeapFile`.  `filePtr` is the open file's handle;
`headerPage` always addresses the frame of page `headerPageNo` and is not kept
as a separate field; `curPage` is the pointer to the pinned data page. -/
structure HeapFile where
  filePtr : String
  headerPageNo : Int
  hdrDirtyFlag : Bool
  curPage : Option Int
  curPageNo : Int
  curDirtyFlag : Bool
  curRec : RID
  deriving DecidableEq, Repr

/-- Dereference of `curPage`. -/
def HeapFile.curPageData (s : HeapFile) (w : World) : Option Page :=
  match s.curPage with
  | some k => w.page? s.filePtr k
  | none => none

/-- Dereference of `headerPage`. -/
def HeapFile.headerPage (s : HeapFile) (w : World) : Option FileHdrPage :=
  w.hdr? s.filePtr s.headerPageNo

/-- The constructor `HeapFile::HeapFile` (lines 84-126).  The session is
returned when the status is `OK`; after a failure the object's members are
partly unset and it must not be used. -/
def HeapFile.ctor (w : World) (fileName : String) : Option (Status × Option HeapFile × World) :=
  let o := db.openFile w fileName
  if o.1 = Status.OK then
    let g := db.getFirstPage o.2 fileName
    let headerPageNo := g.2.1
    if g.1 = Status.OK then
      let r1 := bufMgr.readPage g.2.2 fileName headerPageNo none
      if r1.1 = Status.OK then
        match r1.2.2.hdr? fileName headerPageNo with
        | none => none
        | some headerPage =>
          let curPageNo := headerPage.firstPage
          let r2 := bufMgr.readPage r1.2.2 fileName curPageNo none
          if r2.1 = Status.OK then
            some (r2.1, some ⟨fileName, headerPageNo, false, r2.2.1, curPageNo, false, NULLRID⟩,
              r2.2.2)
          else some (r2.1, none, r2.2.2)
      else some (r1.1, none, r1.2.2)
    else some (g.1, none, g.2.2)
  else some (o.1, none, o.2)

/-- The method `HeapFile::getRecCnt` (lines 162-165). -/
def HeapFile.getRecCnt (s : HeapFile) (w : World) : Option Int :=
  (s.headerPage w).map fun h => h.recCnt

/-- The method `HeapFile::getRecord` (lines 173-202). -/
def HeapFile.getRecord (s : HeapFile) (w : World) (rid : RID) :
    Option (Status × Option Record × HeapFile × World) :=
  if rid.pageNo = s.curPageNo then
    match s.curPageData w with
    | none => none
    | some p => some ((p.getRecord rid).1, (p.getRecord rid).2, s, w)
  else
    let u := bufMgr.unPinPage w s.filePtr s.curPageNo s.curDirtyFlag
    if u.1 = Status.OK then
      let r := bufMgr.readPage u.2 s.filePtr rid.pageNo s.curPage
      if r.1 = Status.OK then
        let s1 := { s with curPage := r.2.1, curPageNo := rid.pageNo, curDirtyFlag := false }
        match s1.curPageData r.2.2 with
        | none => none
        | some p => some ((p.getRecord rid).1, (p.getRecord rid).2, s1, r.2.2)
      else some (r.1, none, { s with curPage := r.2.1 }, r.2.2)
    else some (u.1, none, s, u.2)

/-! ## heapfile.C: class HeapFileScan -/

/-- The data members `HeapFileScan` adds to `HeapFile`; `filter` is a pointer
to the caller's filter bytes, `none` when null. -/
structure HeapFileScan extends HeapFile where
  offset : Int
  length : Int
  type : Datatype
  filter : Option (List Byte)
  op : Operator
  markedPageNo : Int
  markedRec : RID
  deriving DecidableEq, Repr

/-- The constructor `HeapFileScan::HeapFileScan` (lines 204-208): the base
constructor, then `filter = NULL`.  The members the constructor leaves unset
read as zero. -/
def HeapFileScan.ctor (w : World) (name : String) :
    Option (Status × Option HeapFileScan × World) :=
  match HeapFile.ctor w name with
  | none => none
  | some (status, s, w1) =>
    some (status, s.map fun h => ⟨h, 0, 0, Datatype.STRING, none, Operator.LT, 0, ⟨0, 0⟩⟩, w1)

/-- The method `HeapFileScan::startScan` (lines 210-237). -/
def HeapFileScan.startScan (s : HeapFileScan) (offset_ length_ : Int) (type_ : Datatype)
    (filter_ : Option (List Byte)) (op_ : Operator) : Status × HeapFileScan :=
  match filter_ with
  | none => (Status.OK, { s with filter := none })
  | some flt =>
    if (offset_ < 0 ∨ length_ < 1) ∨
       (type_ ≠ Datatype.STRING ∧ type_ ≠ Datatype.INTEGER ∧ type_ ≠ Datatype.FLOAT) ∨
       (type_ = Datatype.INTEGER ∧ length_ ≠ sizeofInt
         ∨ type_ = Datatype.FLOAT ∧ length_ ≠ sizeofFloat) ∨
       (op_ ≠ Operator.LT ∧ op_ ≠ Operator.LTE ∧ op_ ≠ Operator.EQ ∧ op_ ≠ Operator.GTE
         ∧ op_ ≠ Operator.GT ∧ op_ ≠ Operator.NE)
    then (Status.BADSCANPARM, s)
    else (Status.OK,
      { s with offset := offset_, length := length_, type := type_, filter := some flt, op := op_ })

/-- The method `HeapFileScan::endScan` (lines 240-253). -/
def HeapFileScan.endScan (s : HeapFileScan) (w : World) : Status × HeapFileScan × World :=
  if s.curPage ≠ none then
    let u := bufMgr.unPinPage w s.filePtr s.curPageNo s.curDirtyFlag
    (u.1, { s with curPage := none, curPageNo := 0, curDirtyFlag := false }, u.2)
  else (Status.OK, s, w)

/-- The method `HeapFileScan::markScan` (lines 260-266); it always returns `OK`. -/
def HeapFileScan.markScan (s : HeapFileScan) : HeapFileScan :=
  { s with markedPageNo := s.curPageNo, markedRec := s.curRec }

/-- The method `HeapFileScan::resetScan` (lines 268-288). -/
def HeapFileScan.resetScan (s : HeapFileScan) (w : World) : Status × HeapFileScan × World :=
  if s.markedPageNo ≠ s.curPageNo then
    let u :=
      if s.curPage ≠ none then bufMgr.unPinPage w s.filePtr s.curPageNo s.curDirtyFlag
      else (Status.OK, w)
    if u.1 ≠ Status.OK then (u.1, s, u.2) else
    -- restore curPageNo and curRec values
    let s1 : HeapFileScan := { s with curPageNo := s.markedPageNo, curRec := s.markedRec }
    -- then read the page
    let r := bufMgr.readPage u.2 s1.filePtr s1.curPageNo s1.curPage
    if r.1 ≠ Status.OK then (r.1, { s1 with curPage := r.2.1 }, r.2.2) else
    (Status.OK, { s1 with curPage := r.2.1, curDirtyFlag := false }, r.2.2)
  else (Status.OK, { s with curRec := s.markedRec }, w)

/-! ### The scan predicate -/

/-- The comparison class of the `float` variable `diff` of `matchRec`.  The
variable is only ever compared with `0.0`, so the model keeps its class
instead of its value: negative, zero, positive, or not-a-number. -/
inductive Diff
  | neg | zero | pos | nan
  deriving DecidableEq, Repr

/-- The class of an `int` converted to `float`: the conversion rounds, and it
maps no non-zero `int` to zero and changes no sign. -/
def Diff.ofInt (i : Int) : Diff :=
  if i < 0 then Diff.neg else if i = 0 then Diff.zero else Diff.pos

/-- Reduction of an integer to the range of a 32-bit two's complement `int`. -/
def toInt32 (n : Int) : Int :=
  let m := n % 4294967296
  if m < 2147483648 then m else m - 4294967296

/-- The unsigned value of a little-endian byte sequence. -/
def leNat : List Byte → Nat
  | [] => 0
  | b :: bs => b.val + 256 * leNat bs

/-- The `int` that `memcpy` of four bytes produces (little-endian target). -/
def intOfBytes (bs : List Byte) : Int := toInt32 (leNat bs)

/-- An IEEE-754 single: not-a-number, an infinity, or a finite value kept as
the integer `value * 2^149`. -/
inductive FloatVal
  | nan
  | inf (negative : Bool)
  | fin (scaled : Int)
  deriving DecidableEq, Repr

/-- The `float` that `memcpy` of four bytes produces (little-endian target). -/
def floatOfBytes (bs : List Byte) : FloatVal :=
  let bits := leNat bs % 4294967296
  let negative := decide (2147483648 ≤ bits)
  let e := (bits / 8388608) % 256
  let m := bits % 8388608
  if e = 255 then (if m = 0 then FloatVal.inf negative else FloatVal.nan)
  else
    let mag : Int := if e = 0 then (m : Int) else ((8388608 + m) * 2 ^ (e - 1) : Nat)
    FloatVal.fin (if negative then -mag else mag)

/-- The class of the `float` difference `a - b`: the rounded difference of two
finite values has the sign of the exact difference and is zero only when they
are equal. -/
def floatSub : FloatVal → FloatVal → Diff
  | FloatVal.nan, _ => Diff.nan
  | _, FloatVal.nan => Diff.nan
  | FloatVal.inf a, FloatVal.inf b => if a = b then Diff.nan else if a then Diff.neg else Diff.pos
  | FloatVal.inf a, FloatVal.fin _ => if a then Diff.neg else Diff.pos
  | FloatVal.fin _, FloatVal.inf b => if b then Diff.pos else Diff.neg
  | FloatVal.fin x, FloatVal.fin y => Diff.ofInt (x - y)

/-- The bytes `[off, off + len)` of a buffer; `none` when the range leaves the
buffer (a read outside the buffer is undefined in the C++ program). -/
def bytesAt (buf : List Byte) (off len : Int) : Option (List Byte) :=
  if 0 ≤ off ∧ 0 ≤ len ∧ off + len ≤ buf.length then
    some ((buf.drop off.toNat).take len.toNat)
  else none

/-- The C library function `strncmp` on byte strings: compares at most `n`
characters as `unsigned char`, stops at the first difference and after a
terminating zero byte.  `none` when a string would be read beyond its buffer. -/
def strncmp : List Byte → List Byte → Nat → Option Int
  | _, _, 0 => some 0
  | a :: as, b :: bs, n + 1 =>
    if a ≠ b then some ((a.val : Int) - (b.val : Int))
    else if a = 0 then some 0
    else strncmp as bs n
  | _, _, _ + 1 => none

/-- The evaluation of the operator on `diff` (the second `switch` of
`matchRec`). -/
def evalOp (op : Operator) (diff : Diff) : Bool :=
  match op with
  | Operator.LT => decide (diff = Diff.neg)
  | Operator.LTE => decide (diff = Diff.neg ∨ diff = Diff.zero)
  | Operator.EQ => decide (diff = Diff.zero)
  | Operator.GTE => decide (diff = Diff.pos ∨ diff = Diff.zero)
  | Operator.GT => decide (diff = Diff.pos)
  | Operator.NE => decide (diff ≠ Diff.zero)
  | Operator.invalid => false

/-- The value of the `int` expression `offset + length - 1` in the guard of
`matchRec` (line 391).  The two members are stored by `startScan` only, with
`0 ≤ offset` and `1 ≤ length`, so the exact value is not negative and the
32-bit arithmetic can leave the range of `int` only upwards, where it wraps
around. -/
def HeapFileScan.fieldEnd (s : HeapFileScan) : Int :=
  if 0 ≤ s.offset + s.length - 1 then toInt32 (s.offset + s.length - 1)
  else s.offset + s.length - 1

/-- The method `HeapFileScan::matchRec` (lines 384-436).  `none` is undefined
behaviour: `memcpy` into an `int` or `float` of a length other than its size,
or a read outside the record or the filter buffer. -/
def HeapFileScan.matchRec (s : HeapFileScan) (rec : Record) : Option Bool :=
  match s.filter with
  | none => some true
  | some filter =>
    if s.fieldEnd ≥ rec.length then some false
    else
      let diff : Option Diff :=
        match s.type with
        | Datatype.INTEGER =>
          if s.length ≠ sizeofInt then none else
          match bytesAt rec.data s.offset s.length, bytesAt filter 0 s.length with
          | some a, some f => some (Diff.ofInt (toInt32 (intOfBytes a - intOfBytes f)))
          | _, _ => none
        | Datatype.FLOAT =>
          if s.length ≠ sizeofFloat then none else
          match bytesAt rec.data s.offset s.length, bytesAt filter 0 s.length with
          | some a, some f => some (floatSub (floatOfBytes a) (floatOfBytes f))
          | _, _ => none
        | Datatype.STRING =>
          if s.offset < 0 then none else
          (strncmp (rec.data.drop s.offset.toNat) filter s.length.toNat).map Diff.ofInt
        | Datatype.invalid => some Diff.zero
      diff.map (evalOp s.op)

/-! ### Scanning -/

/-- The loop of `HeapFileScan::scanNext` (lines 306-348); `tmpRid` is the loop's
record cursor.  The local `status` is `OK` whenever the loop body runs, so the
test `status != NORECORDS` of line 322 compares `OK` with `NORECORDS`.  The
status of `curPage->getRecord` (line 335) is dropped; if that call failed, `rec`
would be read unset, which is `none`.  The result carries the returned status
and the value assigned to `outRid`, if any. -/
def HeapFileScan.scanLoop :
    Nat → HeapFileScan → World → RID → Option (Status × Option RID × HeapFileScan × World)
  | 0, _, _, _ => none
  | fuel + 1, s, w, tmpRid =>
    match s.curPageData w with
    | none => none
    | some p =>
      match p.nextRecord tmpRid with
      | none =>
        -- ENDOFPAGE: check for the end of the file
        let nextPageNo := p.getNextPage
        if nextPageNo = -1 then some (Status.FILEEOF, none, s, w)
        else
          -- the statuses of unPinPage and readPage are dropped
          let w1 := (bufMgr.unPinPage w s.filePtr s.curPageNo s.curDirtyFlag).2
          let r := bufMgr.readPage w1 s.filePtr nextPageNo s.curPage
          let s1 : HeapFileScan := { s with curPage := r.2.1 }
          if Status.OK ≠ Status.NORECORDS then
            scanLoop fuel
              { s1 with curPageNo := nextPageNo, curDirtyFlag := false, curRec := NULLRID }
              r.2.2 NULLRID
          else some (Status.OK, none, s1, r.2.2)
      | some nextRid =>
        match (p.getRecord nextRid).2 with
        | none => none
        | some rec =>
          match s.matchRec rec with
          | none => none
          | some true =>
            some (Status.OK, some nextRid, ({ s with curRec := nextRid } : HeapFileScan).markScan, w)
          | some false => scanLoop fuel s w nextRid

/-- The method `HeapFileScan::scanNext` (lines 293-350): `markScan()`, then the
loop started at `markedRec`. -/
def HeapFileScan.scanNext (fuel : Nat) (s : HeapFileScan) (w : World) :
    Option (Status × Option RID × HeapFileScan × World) :=
  let s1 := s.markScan
  HeapFileScan.scanLoop fuel s1 w s1.markedRec

/-- The method `HeapFileScan::getRecord` (lines 356-359). -/
def HeapFileScan.getRecord (s : HeapFileScan) (w : World) : Option (Status × Option Record) :=
  (s.curPageData w).map fun p => p.getRecord s.curRec

/-- The method `HeapFileScan::deleteRecord` (lines 362-374). -/
def HeapFileScan.deleteRecord (s : HeapFileScan) (w : World) :
    Option (Status × HeapFileScan × World) :=
  match s.curPage, s.curPageData w with
  | some k, some p =>
    let r := p.deleteRecord s.curRec
    let w1 := w.setImg s.filePtr k (PageImage.data r.2)
    let s1 : HeapFileScan := { s with curDirtyFlag := true }
    match s1.headerPage w1 with
    | none => none
    | some h =>
      let w2 := w1.setImg s1.filePtr s1.headerPageNo (PageImage.header { h with recCnt := h.recCnt - 1 })
      some (r.1, { s1 with hdrDirtyFlag := true }, w2)
  | _, _ => none

/-- The method `HeapFileScan::markDirty` (lines 378-382); it always returns `OK`. -/
def HeapFileScan.markDirty (s : HeapFileScan) : HeapFileScan :=
  { s with curDirtyFlag := true }

/-! ## heapfile.C: class InsertFileScan -/

/-- The class `InsertFileScan` adds no data member to `HeapFile`. -/
structure InsertFileScan extends HeapFile where
  deriving DecidableEq, Repr

/-- The constructor `InsertFileScan::InsertFileScan` (lines 438-443). -/
def InsertFileScan.ctor (w : World) (name : String) :
    Option (Status × Option InsertFileScan × World) :=
  match HeapFile.ctor w name with
  | none => none
  | some (status, s, w1) => some (status, s.map fun h => ⟨h⟩, w1)

/-- The end of `InsertFileScan::insertRecord` (lines 508-516): on `OK` the RID
is returned, the current page marked dirty and the header's record count
incremented; any other status is returned as it is. -/
def InsertFileScan.finish (status : Status) (rid : Option RID) (s : InsertFileScan) (w : World) :
    Option (Status × Option RID × InsertFileScan × World) :=
  if status = Status.OK then
    match s.headerPage w with
    | none => none
    | some h =>
      some (status, rid, { s with curDirtyFlag := true },
        w.setImg s.filePtr s.headerPageNo (PageImage.header { h with recCnt := h.recCnt + 1 }))
  else some (status, none, s, w)

/-- The `NOSPACE` branch of `InsertFileScan::insertRecord` (lines 489-506),
entered with `curPage` addressing frame `k`: a new page is allocated and linked
behind the current page, the current page is unpinned, the header is updated
and the insertion retried on the new page. -/
def InsertFileScan.grow (L : PageLayout) (s : InsertFileScan) (w : World) (k : Int)
    (rec : Record) : Option (Status × Option RID × InsertFileScan × World) :=
  -- Last page is full, create new page.
  let a := bufMgr.allocPage w s.filePtr
  if a.1 ≠ Status.OK then some (a.1, none, s, a.2.2.2) else
  let newPageNo := a.2.1
  match a.2.2.1, a.2.2.2.page? s.filePtr k with
  | some newPage, some q =>
    let w1 := a.2.2.2.setImg s.filePtr k (PageImage.data (q.setNextPage newPageNo))
    let u := bufMgr.unPinPage w1 s.filePtr s.curPageNo s.curDirtyFlag
    if u.1 ≠ Status.OK then some (u.1, none, s, u.2) else
    -- Update headers
    let w2 := u.2.setImg s.filePtr newPage (PageImage.data (Page.init newPageNo))
    match s.headerPage w2 with
    | none => none
    | some h =>
      let w3 := w2.setImg s.filePtr s.headerPageNo
        (PageImage.header { h with pageCnt := h.pageCnt + 1, lastPage := newPageNo })
      let s1 : InsertFileScan :=
        { s with curPageNo := newPageNo, curPage := some newPage, curDirtyFlag := false }
      -- insert record
      match s1.curPageData w3 with
      | none => none
      | some np =>
        let r2 := np.insertRecord L rec
        let w4 := w3.setImg s1.filePtr newPage (PageImage.data r2.2.2)
        InsertFileScan.finish r2.1 r2.2.1 s1 w4
  | _, _ => none

/-- The tail of `InsertFileScan::insertRecord` (lines 486-517), entered with
the file's last page pinned as the current page. -/
def InsertFileScan.insertTail (L : PageLayout) (s : InsertFileScan) (w : World) (rec : Record) :
    Option (Status × Option RID × InsertFileScan × World) :=
  match s.curPage, s.curPageData w with
  | some k, some p =>
    -- Try inserting the record
    let r := p.insertRecord L rec
    let w0 := w.setImg s.filePtr k (PageImage.data r.2.2)
    if r.1 = Status.NOSPACE then InsertFileScan.grow L s w0 k rec
    else InsertFileScan.finish r.1 r.2.1 s w0
  | _, _ => none

/-- The method `InsertFileScan::insertRecord` (lines 461-517).  The record's
length is a buffer size, so the cast to `unsigned int` keeps its value. -/
def InsertFileScan.insertRecord (L : PageLayout) (s : InsertFileScan) (w : World) (rec : Record) :
    Option (Status × Option RID × InsertFileScan × World) :=
  -- check for very large records
  if rec.length > (L.PAGESIZE : Int) - (L.DPFIXED : Int) then
    some (Status.INVALIDRECLEN, none, s, w)
  else
    match s.headerPage w with
    | none => none
    | some h =>
      -- Check if the last page is in memory; load if not.
      if h.lastPage ≠ s.curPageNo then
        let u := bufMgr.unPinPage w s.filePtr s.curPageNo s.curDirtyFlag
        if u.1 ≠ Status.OK then some (u.1, none, s, u.2) else
        match s.headerPage u.2 with
        | none => none
        | some h1 =>
          let r := bufMgr.readPage u.2 s.filePtr h1.lastPage s.curPage
          if r.1 ≠ Status.OK then some (r.1, none, { s with curPage := r.2.1 }, r.2.2) else
          match s.headerPage r.2.2 with
          | none => none
          | some h2 =>
            InsertFileScan.insertTail L
              { s with curPage := r.2.1, curDirtyFlag := false, curPageNo := h2.lastPage } r.2.2 rec
      else InsertFileScan.insertTail L s w rec

/-! ## heapfile.C: destructors -/

/-- The destructor `HeapFile::~HeapFile` (lines 129-158).  Failures of its
calls are only logged; the result lists the statuses of the calls it makes, in
order: the unpin of the data page (when one is held), the unpin of the header
page, and `closeFile`. -/
def HeapFile.dtor (s : HeapFile) (w : World) : List Status × HeapFile × World :=
  -- see if there is a pinned data page. If so, unpin it
  let u :=
    if s.curPage ≠ none then bufMgr.unPinPage w s.filePtr s.curPageNo s.curDirtyFlag
    else (Status.OK, w)
  let s1 : HeapFile :=
    if s.curPage ≠ none then { s with curPage := none, curPageNo := 0, curDirtyFlag := false }
    else s
  -- unpin the header page
  let uh := bufMgr.unPinPage u.2 s1.filePtr s1.headerPageNo s1.hdrDirtyFlag
  let c := db.closeFile uh.2 s1.filePtr
  ((if s.curPage ≠ none then [u.1] else []) ++ [uh.1, c.1], s1, c.2)

/-- The destructor `HeapFileScan::~HeapFileScan` (lines 255-258): `endScan()`,
then the base destructor. -/
def HeapFileScan.dtor (s : HeapFileScan) (w : World) : List Status × HeapFile × World :=
  let e := s.endScan w
  e.2.1.toHeapFile.dtor e.2.2

/-- The destructor `InsertFileScan::~InsertFileScan` (lines 445-456): the held
page is unpinned as dirty, then the base destructor runs. -/
def InsertFileScan.dtor (s : InsertFileScan) (w : World) : List Status × HeapFile × World :=
  let u :=
    if s.curPage ≠ none then bufMgr.unPinPage w s.filePtr s.curPageNo true
    else (Status.OK, w)
  let s1 : HeapFile :=
    if s.curPage ≠ none then { s.toHeapFile with curPage := none, curPageNo := 0 }
    else s.toHeapFile
  let r := s1.dtor u.2
  ((if s.curPage ≠ none then [u.1] else []) ++ r.1, r.2.1, r.2.2)

/-! ## Notions used to state the properties -/

/-- No failure is imposed on the collaborator calls to come. -/
def World.noFaults (w : World) : Prop := ∀ st ∈ w.faults, st = Status.OK

/-- The page chain of a file: `w.isChain file k ps` holds when following the
next-page pointers from page number `k` visits exactly the data pages `ps`, in
this order, each stored under its own number, and ends with the pointer -1. -/
def World.isChain (w : World) (file : String) : Int → List Page → Prop
  | k, [] => k = -1
  | k, p :: ps => w.page? file k = some p ∧ p.curPage = k ∧ World.isChain w file p.nextPage ps

/-- The RIDs of the used slots of `slots` (whose head is slot `base` of page
`pageNo`) whose record satisfies `m`, in slot order. -/
def slotRids (m : Record → Bool) (pageNo : Int) : List (Option (List Byte)) → Nat → List RID
  | [], _ => []
  | some d :: rest, base =>
    (if m ⟨d⟩ then [(⟨pageNo, base⟩ : RID)] else []) ++ slotRids m pageNo rest (base + 1)
  | none :: rest, base => slotRids m pageNo rest (base + 1)

/-- The RIDs of the records of page `p` after the slot of `cur` that satisfy `m`. -/
def Page.ridsAfter (m : Record → Bool) (p : Page) (cur : RID) : List RID :=
  slotRids m p.curPage (p.slots.drop (cur.slotNo + 1).toNat) (cur.slotNo + 1).toNat

/-- The RIDs of all records of page `p` that satisfy `m`, in slot order. -/
def Page.rids (m : Record → Bool) (p : Page) : List RID := slotRids m p.curPage p.slots 0

/-- The RIDs of all records of the pages `ps` that satisfy `m`: page by page,
and within a page in slot order. -/
def chainRids (m : Record → Bool) (ps : List Page) : List RID :=
  (ps.map (Page.rids m)).flatten

/-- Loop iterations that suffice for any `scanNext` call over the pages `ps`. -/
def scanFuel (ps : List Page) : Nat := (ps.map fun p => p.slots.length + 1).sum

/-- The results (status and returned RID) of `n` successive `scanNext` calls. -/
def HeapFileScan.scanResults (fuel : Nat) :
    Nat → HeapFileScan → World → Option (List (Status × Option RID))
  | 0, _, _ => some []
  | n + 1, s, w =>
    match s.scanNext fuel w with
    | none => none
    | some (status, rid, s1, w1) =>
      (HeapFileScan.scanResults fuel n s1 w1).map fun rest => (status, rid) :: rest

/-- Agreement of two sessions on the file handle and the scan predicate. -/
def SamePred (s s' : HeapFileScan) : Prop :=
  s'.filePtr = s.filePtr ∧ s'.filter = s.filter ∧ s'.offset = s.offset ∧ s'.length = s.length ∧
    s'.type = s.type ∧ s'.op = s.op

/-- The pin count of page `k` of a file (0 when the page has no frame). -/
def World.pinCnt (w : World) (file : String) (k : Int) : Nat :=
  ((w.frame? file k).map fun fr => fr.pinCnt).getD 0

/-- The heap file with header `h` is well formed over the data pages `ps`: the
next-page chain from `h.firstPage` visits exactly `ps`, `h.pageCnt` is their
number, and the last of them is page `h.lastPage`. -/
def World.wfHeap (w : World) (file : String) (h : FileHdrPage) (ps : List Page) : Prop :=
  w.isChain file h.firstPage ps ∧ (ps.length : Int) = h.pageCnt ∧
    ps.getLast?.map (fun p => p.curPage) = some h.lastPage

/-- The record `rec` is stored under the RID `r` in the file `F`: the data
page `r.pageNo` holds it in slot `r.slotNo`. -/
def World.holds (w : World) (F : String) (r : RID) (rec : Record) : Prop :=
  ∃ q, w.page? F r.pageNo = some q ∧ q.getRecord r = (Status.OK, some rec)

/-- The state of an insert session between two calls: it holds the page
`curPageNo` pinned as its current page, the header page is in its frame, the
page `lastPage` of the header is a data page stored under its own number, and
no failure is imposed on the collaborator calls to come. -/
def InsertFileScan.ready (s : InsertFileScan) (w : World) : Prop :=
  s.curPage = some s.curPageNo ∧ w.noFaults ∧ w.pinCnt s.filePtr s.curPageNo ≠ 0 ∧
    ∃ h p, s.headerPage w = some h ∧ w.page? s.filePtr h.lastPage = some p ∧
      p.curPage = h.lastPage

/-- The content of a C string held in a buffer: the bytes before the first
zero byte (all bytes when there is none). -/
def cstr (bs : List Byte) : List Byte := bs.takeWhile fun b => decide (b ≠ 0)

/-- Lexicographic comparison of two byte strings, as the specification words
it ("fixed-length lexicographic compare"): the first position where they
differ decides, as unsigned bytes; a proper initial part is smaller.  The
result is -1, 0 or 1. -/
def lexCmp : List Byte → List Byte → Int
  | [], [] => 0
  | [], _ :: _ => -1
  | _ :: _, [] => 1
  | a :: as, b :: bs => if a < b then -1 else if b < a then 1 else lexCmp as bs

/-! ## Client call sequences -/

/-- The calls a client makes on a scan session and an insert session that are
open on the same file. -/
inductive Call
  | startScan (offset length : Int) (type : Datatype) (filter : Option (List Byte))
      (op : Operator)
  | scanNext
  | markScan
  | resetScan
  | markDirty
  | deleteRecord
  | scanGetRecord
  | getRecord (rid : RID)
  | insertRecord (rec : Record)
  deriving DecidableEq, Repr

/-- A scan session and an insert session. -/
structure Sessions where
  scan : HeapFileScan
  ins : InsertFileScan
  deriving DecidableEq, Repr

/-- One client call: the status it returns, the RID it returns (if any), and
the sessions and the world after it.  `getRecord rid` is `HeapFile::getRecord`
called on the scan session. -/
def Call.run (L : PageLayout) (fuel : Nat) (c : Call) (ss : Sessions) (w : World) :
    Option (Status × Option RID × Sessions × World) :=
  match c with
  | Call.startScan offset length type filter op =>
    let r := ss.scan.startScan offset length type filter op
    some (r.1, none, { ss with scan := r.2 }, w)
  | Call.scanNext =>
    (ss.scan.scanNext fuel w).map fun r => (r.1, r.2.1, { ss with scan := r.2.2.1 }, r.2.2.2)
  | Call.markScan => some (Status.OK, none, { ss with scan := ss.scan.markScan }, w)
  | Call.resetScan =>
    let r := ss.scan.resetScan w
    some (r.1, none, { ss with scan := r.2.1 }, r.2.2)
  | Call.markDirty => some (Status.OK, none, { ss with scan := ss.scan.markDirty }, w)
  | Call.deleteRecord =>
    (ss.scan.deleteRecord w).map fun r => (r.1, none, { ss with scan := r.2.1 }, r.2.2)
  | Call.scanGetRecord => (ss.scan.getRecord w).map fun r => (r.1, none, ss, w)
  | Call.getRecord rid =>
    (ss.scan.toHeapFile.getRecord w rid).map fun r =>
      (r.1, none, { ss with scan := { ss.scan with toHeapFile := r.2.2.1 } }, r.2.2.2)
  | Call.insertRecord rec =>
    (ss.ins.insertRecord L w rec).map fun r => (r.1, r.2.1, { ss with ins := r.2.2.1 }, r.2.2.2)

/-- A sequence of client calls; the result lists every call with the status
and the RID it returned. -/
def runCalls (L : PageLayout) (fuel : Nat) :
    List Call → Sessions → World → Option (List (Call × Status × Option RID) × Sessions × World)
  | [], ss, w => some ([], ss, w)
  | c :: cs, ss, w =>
    match c.run L fuel ss w with
    | none => none
    | some (status, rid, ss1, w1) =>
      (runCalls L fuel cs ss1 w1).map fun x => ((c, status, rid) :: x.1, x.2)

/-- The statuses and RIDs returned by the `scanNext` calls of a run. -/
def scanOutputs (rs : List (Call × Status × Option RID)) : List (Status × Option RID) :=
  (rs.filter fun x => decide (x.1 = Call.scanNext)).map fun x => x.2

/-- The change of the header's record count that a call with the given status
accounts for: +1 for an `insertRecord` that returned `OK`, -1 for a
`deleteRecord`, 0 for any other call. -/
def recDelta (c : Call) (status : Status) : Int :=
  match c with
  | Call.insertRecord _ => if status = Status.OK then 1 else 0
  | Call.deleteRecord => -1
  | _ => 0

/-- Number of `insertRecord` calls of a run that returned `OK`. -/
def okInserts (rs : List (Call × Status × Option RID)) : Nat :=
  (rs.filter fun x => decide (recDelta x.1 x.2.1 = 1)).length

/-- Number of `deleteRecord` calls of a run. -/
def deleteCalls (rs : List (Call × Status × Option RID)) : Nat :=
  (rs.filter fun x => decide (x.1 = Call.deleteRecord)).length

/-! ## An end-to-end example -/

/-- Example layout: a page has room while its records hold at most eight bytes. -/
def exLayout : PageLayout :=
  ⟨1024, 20, by decide,
    fun p r => decide ((p.slots.map fun o => (o.getD []).length).sum + r.data.length ≤ 8)⟩

/-- A four-byte record holding the key `n`. -/
def exKey (n : Byte) : Record := ⟨[n, 0, 0, 0]⟩

/-- Successive `insertRecord` calls for the records of a list. -/
def InsertFileScan.insertAll (L : PageLayout) :
    List Record → InsertFileScan → World → Option (List (Status × Option RID) × InsertFileScan × World)
  | [], s, w => some ([], s, w)
  | rec :: recs, s, w =>
    match InsertFileScan.insertRecord L s w rec with
    | none => none
    | some (status, rid, s1, w1) =>
      (InsertFileScan.insertAll L recs s1 w1).map fun x => ((status, rid) :: x.1, x.2)

def emptyWorld : World := ⟨fun _ => none, []⟩

/-- Example value of `MAXNAMESIZE`, the size of the header's name array. -/
def exNameSize : Nat := 50

/-- The world after `createHeapFile "T1"` in a world without files. -/
def exCreated : World := ((createHeapFile exNameSize emptyWorld "T1").map fun x => x.2).getD emptyWorld

/-- End-to-end example: `createHeapFile "T1"`, an insert session, and the
insertion of records with the keys 3, 1, 4, 1, 5. -/
def exLoad : Option (List (Status × Option RID) × InsertFileScan × World) :=
  match InsertFileScan.ctor exCreated "T1" with
  | some (_, some s, w) => InsertFileScan.insertAll exLayout [exKey 3, exKey 1, exKey 4, exKey 1, exKey 5] s w
  | _ => none

def exWorld : World := (exLoad.map fun x => x.2.2).getD emptyWorld

/-- The insert session of the example after its five insertions. -/
def exIns : InsertFileScan :=
  (exLoad.map fun x => x.2.1).getD ⟨⟨"", 0, false, none, 0, false, NULLRID⟩⟩

def exScanOpen : Option (Status × Option HeapFileScan × World) := HeapFileScan.ctor exWorld "T1"

def exScan : HeapFileScan :=
  match exScanOpen with
  | some (_, some s, _) => s
  | _ => ⟨⟨"", 0, false, none, 0, false, NULLRID⟩, 0, 0, Datatype.STRING, none, Operator.LT, 0, NULLRID⟩

def exScanWorld : World :=
  match exScanOpen with
  | some (_, _, w) => w
  | _ => emptyWorld

/-- A scan session and an insert session opened on the newly created file
"T1", and the world after their constructors. -/
def exOpen : Option (Sessions × World) :=
  match InsertFileScan.ctor exCreated "T1" with
  | some (_, some i, w1) =>
    match HeapFileScan.ctor w1 "T1" with
    | some (_, some sc, w2) => some (⟨sc, i⟩, w2)
    | _ => none
  | _ => none

def exSessions : Sessions :=
  (exOpen.map fun x => x.1).getD
    ⟨⟨⟨"", 0, false, none, 0, false, NULLRID⟩, 0, 0, Datatype.STRING, none, Operator.LT, 0,
      NULLRID⟩, ⟨⟨"", 0, false, none, 0, false, NULLRID⟩⟩⟩

def exOpenWorld : World := (exOpen.map fun x => x.2).getD emptyWorld

/-- The end-to-end run: five insertions (keys 3, 1, 4, 1, 5), a scan for the
key 1, and the deletion of the first match. -/
def exCalls : List Call :=
  [Call.insertRecord (exKey 3), Call.insertRecord (exKey 1), Call.insertRecord (exKey 4),
    Call.insertRecord (exKey 1), Call.insertRecord (exKey 5),
    Call.startScan 0 4 Datatype.INTEGER (some [1, 0, 0, 0]) Operator.EQ,
    Call.scanNext, Call.deleteRecord]

/-- The result of the end-to-end run. -/
def exRun : List (Call × Status × Option RID) × Sessions × World :=
  (runCalls exLayout 8 exCalls exSessions exOpenWorld).getD ([], exSessions, exOpenWorld)

/-- The result of inserting a record with the key 7 in the example's insert
session, after its five insertions. -/
def exInsert7 : Status × Option RID × InsertFileScan × World :=
  (exIns.insertRecord exLayout exWorld (exKey 7)).getD (Status.OK, none, exIns, exWorld)

/-- The example's insert session in the world where the scan session `exScan`
is open as well, after the insertion of a record with the key 7: the last
page (page 3) is now full. -/
def exShared7 : Status × Option RID × InsertFileScan × World :=
  (exIns.insertRecord exLayout exScanWorld (exKey 7)).getD (Status.OK, none, exIns, exScanWorld)

/-- The insertion of a record with the key 9 after `exShared7`: the chain
grows by page 4, which receives the record. -/
def exShared9 : Status × Option RID × InsertFileScan × World :=
  (exShared7.2.2.1.insertRecord exLayout exShared7.2.2.2 (exKey 9)).getD
    (Status.OK, none, exShared7.2.2.1, exShared7.2.2.2)

/-- Two more insertions after `exShared9` (keys 2 and 6): the second one finds
page 4 full, the chain grows and the insert session moves to page 5. -/
def exSharedMore : List (Status × Option RID) × InsertFileScan × World :=
  (InsertFileScan.insertAll exLayout [exKey 2, exKey 6] exShared9.2.2.1 exShared9.2.2.2).getD
    ([], exShared9.2.2.1, exShared9.2.2.2)

/-- The data pages of the example file, in chain order. -/
def exPages : List Page :=
  [⟨1, 2, [some [3, 0, 0, 0], some [1, 0, 0, 0]]⟩, ⟨2, 3, [some [4, 0, 0, 0], some [1, 0, 0, 0]]⟩,
    ⟨3, -1, [some [5, 0, 0, 0]]⟩]

/-- A file "T1" as read from disk, nothing pinned and nothing dirty: its one
data page holds two four-byte records and is full under `exLayout`. -/
def exCleanWorld : World :=
  { files := fun n =>
      if n = "T1" then
        some ⟨[⟨PageImage.header ⟨"T1", 1, 1, 1, 2⟩, 0, false⟩,
          ⟨PageImage.data ⟨1, -1, [some [3, 0, 0, 0], some [1, 0, 0, 0]]⟩, 0, false⟩], 0⟩
      else none
    faults := [] }

/-- An insert session opened on `exCleanWorld`. -/
def exCleanOpen : Option (Status × Option InsertFileScan × World) :=
  InsertFileScan.ctor exCleanWorld "T1"

def exCleanIns : InsertFileScan :=
  match exCleanOpen with
  | some (_, some s, _) => s
  | _ => ⟨⟨"", 0, false, none, 0, false, NULLRID⟩⟩

def exCleanInsWorld : World :=
  match exCleanOpen with
  | some (_, _, w) => w
  | _ => emptyWorld

/-- The insertion of a record with the key 4 in the session `exCleanIns`. -/
def exCleanInsert : Status × Option RID × InsertFileScan × World :=
  (exCleanIns.insertRecord exLayout exCleanInsWorld (exKey 4)).getD
    (Status.OK, none, exCleanIns, exCleanInsWorld)

/-- The example scan in a world where the second buffer-pool call to come
fails with `UNIXERR` (the first one succeeds). -/
def exFaultWorld : World := { exScanWorld with faults := [Status.OK, Status.UNIXERR] }

/-- The three `scanNext` calls made on `exScan` in `exFaultWorld`. -/
def exFaultRun : List (Call × Status × Option RID) × Sessions × World :=
  (runCalls exLayout 8 [Call.scanNext, Call.scanNext, Call.scanNext] ⟨exScan, exIns⟩
    exFaultWorld).getD ([], ⟨exScan, exIns⟩, exFaultWorld)

/-- A scan session that is the only session open on the newly created file. -/
def exSoleOpen : Option (Status × Option HeapFileScan × World) :=
  HeapFileScan.ctor exCreated "T1"

def exSoleScan : HeapFileScan :=
  match exSoleOpen with
  | some (_, some s, _) => s
  | _ => ⟨⟨"", 0, false, none, 0, false, NULLRID⟩, 0, 0, Datatype.STRING, none, Operator.LT, 0, NULLRID⟩

def exSoleWorld : World :=
  match exSoleOpen with
  | some (_, _, w) => w
  | _ => emptyWorld

/-- `HeapFile::getRecord` called on `exSoleScan` with a RID whose page does not
exist. -/
def exSoleGet : Status × Option Record × HeapFile × World :=
  (exSoleScan.toHeapFile.getRecord exSoleWorld ⟨7, 0⟩).getD
    (Status.OK, none, exSoleScan.toHeapFile, exSoleWorld)

/-! # Properties -/

/-! ## Auxiliary facts about the collaborators -/

theorem File.frame?_setFrame_file (f : File) (k k' : Int) (fr : Frame) :
    (f.setFrame k fr).frame? k' =
      if k' = k ∧ (f.frame? k).isSome then some fr else f.frame? k' := by
  unfold File.setFrame File.frame?
  by_cases hk : 0 ≤ k
  · by_cases hk' : 0 ≤ k'
    · simp only [hk, hk', if_true, List.get?_eq_getElem?, List.getElem?_set]
      by_cases e : k' = k
      · subst e
        by_cases hlt : k'.toNat < f.frames.length
        · simp [hlt]
        · simp [hlt, List.getElem?_eq_none (not_lt.mp hlt)]
      · have : k.toNat ≠ k'.toNat := by omega
        simp [e, this]
    · have e : k' ≠ k := by omega
      simp [hk, hk', e]
  · simp [hk]

theorem World.frame?_setFile (w : World) (file file' : String) (f : File) (k : Int) :
    (w.setFile file f).frame? file' k =
      if file' = file then f.frame? k else w.frame? file' k := by
  unfold World.setFile World.frame?
  by_cases e : file' = file
  · subst e; simp
  · simp [Function.update_noteq e, e]

theorem World.frame?_setFrame (w : World) (file file' : String) (k k' : Int) (fr : Frame) :
    (w.setFrame file k fr).frame? file' k' =
      if file' = file ∧ k' = k ∧ (w.frame? file k).isSome then some fr
      else w.frame? file' k' := by
  unfold World.setFrame
  cases hf : w.files file with
  | none => simp [World.frame?, hf]
  | some f =>
    simp only [World.frame?_setFile, File.frame?_setFrame_file]
    by_cases e : file' = file
    · subst e
      simp [World.frame?, hf]
    · simp [e]

theorem World.faults_setFrame (w : World) (file : String) (k : Int) (fr : Frame) :
    (w.setFrame file k fr).faults = w.faults := by
  unfold World.setFrame
  cases w.files file <;> rfl

theorem World.faults_setImg (w : World) (file : String) (k : Int) (img : PageImage) :
    (w.setImg file k img).faults = w.faults := by
  unfold World.setImg
  cases w.frame? file k <;> simp [World.faults_setFrame]



theorem World.img?_setFrame (w : World) (file file' : String) (k k' : Int) (fr : Frame) :
    (w.setFrame file k fr).img? file' k' =
      if file' = file ∧ k' = k ∧ (w.frame? file k).isSome then some fr.img
      else w.img? file' k' := by
  unfold World.img?
  rw [World.frame?_setFrame]
  split <;> rfl

theorem World.img?_setImg (w : World) (file file' : String) (k k' : Int) (img : PageImage) :
    (w.setImg file k img).img? file' k' =
      if file' = file ∧ k' = k ∧ (w.img? file k).isSome then some img
      else w.img? file' k' := by
  unfold World.setImg
  cases hfr : w.frame? file k with
  | none => simp [World.img?, hfr]
  | some fr =>
    simp only []
    rw [World.img?_setFrame]
    simp [World.img?, hfr]

theorem World.nextFault_files (w : World) : w.nextFault.2.files = w.files := by
  unfold World.nextFault
  cases w.faults <;> rfl

theorem World.nextFault_frame? (w : World) (file : String) (k : Int) :
    w.nextFault.2.frame? file k = w.frame? file k := by
  unfold World.frame?
  rw [World.nextFault_files]

theorem World.nextFault_img? (w : World) (file : String) (k : Int) :
    w.nextFault.2.img? file k = w.img? file k := by
  unfold World.img?
  rw [World.nextFault_frame?]

theorem World.nextFault_of_noFaults (w : World) (h : w.noFaults) :
    w.nextFault.1 = Status.OK ∧ w.nextFault.2.noFaults := by
  unfold World.nextFault
  cases hf : w.faults with
  | nil => exact ⟨rfl, h⟩
  | cons st rest =>
    have h1 : ∀ x ∈ st :: rest, x = Status.OK := by rw [← hf]; exact h
    refine ⟨h1 st (List.mem_cons_self _ _), ?_⟩
    intro x hx
    exact h1 x (List.mem_cons_of_mem _ hx)

theorem World.noFaults_setFrame (w : World) (file : String) (k : Int) (fr : Frame)
    (h : w.noFaults) : (w.setFrame file k fr).noFaults := by
  unfold World.noFaults; rw [World.faults_setFrame]; exact h

theorem World.noFaults_setImg (w : World) (file : String) (k : Int) (img : PageImage)
    (h : w.noFaults) : (w.setImg file k img).noFaults := by
  unfold World.noFaults; rw [World.faults_setImg]; exact h

theorem bufMgr.unPinPage_img? (w : World) (file file' : String) (k k' : Int) (d : Bool) :
    (bufMgr.unPinPage w file k d).2.img? file' k' = w.img? file' k' := by
  unfold bufMgr.unPinPage
  simp only []
  split
  · exact World.nextFault_img? w file' k'
  · cases hfr : w.nextFault.2.frame? file k with
    | none => exact World.nextFault_img? w file' k'
    | some fr =>
      simp only []
      split
      · exact World.nextFault_img? w file' k'
      · rw [World.img?_setFrame, ← World.nextFault_img? w file' k']
        split
        · rename_i hc
          obtain ⟨rfl, rfl, _⟩ := hc
          simp [World.img?, hfr]
        · rfl

theorem bufMgr.readPage_img? (w : World) (file file' : String) (k k' : Int) (pg : Option Int) :
    (bufMgr.readPage w file k pg).2.2.img? file' k' = w.img? file' k' := by
  unfold bufMgr.readPage
  simp only []
  split
  · exact World.nextFault_img? w file' k'
  · cases hfr : w.nextFault.2.frame? file k with
    | none => exact World.nextFault_img? w file' k'
    | some fr =>
      simp only []
      rw [World.img?_setFrame, ← World.nextFault_img? w file' k']
      split
      · rename_i hc
        obtain ⟨rfl, rfl, _⟩ := hc
        simp [World.img?, hfr]
      · rfl

theorem bufMgr.unPinPage_noFaults (w : World) (file : String) (k : Int) (d : Bool)
    (h : w.noFaults) : (bufMgr.unPinPage w file k d).2.noFaults := by
  have h1 := (World.nextFault_of_noFaults w h).2
  unfold bufMgr.unPinPage
  simp only []
  split
  · exact h1
  · cases hfr : w.nextFault.2.frame? file k with
    | none => exact h1
    | some fr =>
      simp only []
      split
      · exact h1
      · exact World.noFaults_setFrame _ _ _ _ h1

theorem bufMgr.readPage_noFaults (w : World) (file : String) (k : Int) (pg : Option Int)
    (h : w.noFaults) : (bufMgr.readPage w file k pg).2.2.noFaults := by
  have h1 := (World.nextFault_of_noFaults w h).2
  unfold bufMgr.readPage
  simp only []
  split
  · exact h1
  · cases hfr : w.nextFault.2.frame? file k with
    | none => exact h1
    | some fr => exact World.noFaults_setFrame _ _ _ _ h1

theorem bufMgr.readPage_ok (w : World) (file : String) (k : Int) (pg : Option Int)
    (h : w.noFaults) (hk : (w.img? file k).isSome) :
    (bufMgr.readPage w file k pg).1 = Status.OK ∧ (bufMgr.readPage w file k pg).2.1 = some k := by
  have h1 := (World.nextFault_of_noFaults w h).1
  have h2 : (w.nextFault.2.frame? file k).isSome := by
    rw [World.nextFault_frame?]
    simpa [World.img?] using hk
  unfold bufMgr.readPage
  simp only [h1]
  cases hfr : w.nextFault.2.frame? file k with
  | none => rw [hfr] at h2; cases h2
  | some fr => simp

/-! ## Auxiliary facts about record iteration -/

theorem firstLive_none (m : Record → Bool) (pn : Int) :
    ∀ (l : List (Option (List Byte))) (b : Nat), firstLive l b = none → slotRids m pn l b = []
  | [], _, _ => rfl
  | some _ :: _, _, h => by simp [firstLive] at h
  | none :: rest, b, h => by
    simp only [firstLive] at h
    simp only [slotRids]
    exact firstLive_none m pn rest (b + 1) h

theorem firstLive_some (m : Record → Bool) (pn : Int) :
    ∀ (l : List (Option (List Byte))) (b j : Nat), firstLive l b = some j →
      ∃ k d, j = b + k ∧ l[k]? = some (some d) ∧
        slotRids m pn l b =
          (if m ⟨d⟩ then [(⟨pn, j⟩ : RID)] else []) ++ slotRids m pn (l.drop (k + 1)) (j + 1)
  | [], _, _, h => by simp [firstLive] at h
  | some d :: rest, b, j, h => by
    simp only [firstLive, Option.some.injEq] at h
    subst h
    exact ⟨0, d, rfl, by simp, by simp [slotRids]⟩
  | none :: rest, b, j, h => by
    simp only [firstLive] at h
    obtain ⟨k, d, hj, hk, hs⟩ := firstLive_some m pn rest (b + 1) j h
    refine ⟨k + 1, d, by omega, by simpa using hk, ?_⟩
    simp only [slotRids, hs, List.drop_succ_cons]

theorem Page.nextRecord_none (m : Record → Bool) (p : Page) (tmp : RID)
    (h : p.nextRecord tmp = none) : p.ridsAfter m tmp = [] := by
  unfold Page.nextRecord at h
  simp only [] at h
  cases hf : firstLive (List.drop (tmp.slotNo + 1).toNat p.slots) (tmp.slotNo + 1).toNat with
  | none => exact firstLive_none m _ _ _ hf
  | some j => rw [hf] at h; cases h

theorem Page.nextRecord_some (m : Record → Bool) (p : Page) (tmp r : RID)
    (h : p.nextRecord tmp = some r) :
    ∃ d, (p.getRecord r).2 = some ⟨d⟩ ∧
      p.ridsAfter m tmp = (if m ⟨d⟩ then [r] else []) ++ p.ridsAfter m r ∧
      p.slots.length - (r.slotNo + 1).toNat < p.slots.length - (tmp.slotNo + 1).toNat := by
  unfold Page.nextRecord at h
  simp only [] at h
  cases hf : firstLive (List.drop (tmp.slotNo + 1).toNat p.slots) (tmp.slotNo + 1).toNat with
  | none => rw [hf] at h; cases h
  | some j =>
    rw [hf] at h
    simp only [Option.some.injEq] at h
    subst h
    obtain ⟨k, d, hj, hk, hs⟩ := firstLive_some m p.curPage _ _ _ hf
    have hk' : p.slots[(tmp.slotNo + 1).toNat + k]? = some (some d) := by
      simpa [List.getElem?_drop] using hk
    have hlt : (tmp.slotNo + 1).toNat + k < p.slots.length := by
      by_contra hc
      rw [List.getElem?_eq_none (not_lt.mp hc)] at hk'
      cases hk'
    have e1 : ((j : Int) + 1).toNat = j + 1 := by omega
    refine ⟨d, ?_, ?_, ?_⟩
    · rw [← hj] at hk'
      simp [Page.getRecord, Page.slot?, hk']
    · unfold Page.ridsAfter
      simp only [e1]
      rw [hs, List.drop_drop]
      have e2 : k + 1 + (tmp.slotNo + 1).toNat = j + 1 := by omega
      have e3 : (tmp.slotNo + 1).toNat + (k + 1) = j + 1 := by omega
      first
        | rw [e2]
        | rw [e3]
    · simp only [e1]
      omega

theorem World.img?_neg (w : World) (file : String) (k : Int) (hk : k < 0) :
    w.img? file k = none := by
  unfold World.img? World.frame? File.frame?
  have : ¬ 0 ≤ k := by omega
  cases w.files file <;> simp [this]

theorem World.isChain_congr (w w' : World) (file : String)
    (h : ∀ k, w'.img? file k = w.img? file k) :
    ∀ (ps : List Page) (c : Int), w.isChain file c ps → w'.isChain file c ps
  | [], _, hc => hc
  | p :: ps, c, hc => by
    obtain ⟨h1, h2, h3⟩ := hc
    refine ⟨?_, h2, World.isChain_congr w w' file h ps _ h3⟩
    unfold World.page? at h1 ⊢
    rw [h c]; exact h1

theorem HeapFileScan.matchRec_congr (s s' : HeapFileScan) (h1 : s'.filter = s.filter)
    (h2 : s'.offset = s.offset) (h3 : s'.length = s.length) (h4 : s'.type = s.type)
    (h5 : s'.op = s.op) (rec : Record) : s'.matchRec rec = s.matchRec rec := by
  unfold HeapFileScan.matchRec HeapFileScan.fieldEnd
  rw [h1, h2, h3, h4, h5]

theorem scanLoop_spec (m : Record → Bool) :
    ∀ (fuel : Nat) (s : HeapFileScan) (w : World) (tmp : RID) (c : Int) (p : Page)
      (qs : List Page),
      s.curPage = some c → w.isChain s.filePtr c (p :: qs) → w.noFaults →
      (∀ rec, s.matchRec rec = some (m rec)) →
      p.ridsAfter m s.curRec = p.ridsAfter m tmp →
      (p.slots.length - (tmp.slotNo + 1).toNat) + 1 + scanFuel qs ≤ fuel →
      ∃ st rid s' w' c' p' qs',
        s.scanLoop fuel w tmp = some (st, rid, s', w') ∧
        s'.curPage = some c' ∧ w'.isChain s.filePtr c' (p' :: qs') ∧ w'.noFaults ∧
        SamePred s s' ∧ scanFuel (p' :: qs') ≤ scanFuel (p :: qs) ∧
        (p.ridsAfter m tmp ++ chainRids m qs = [] →
          st = Status.FILEEOF ∧ rid = none ∧ p'.ridsAfter m s'.curRec ++ chainRids m qs' = []) ∧
        (∀ r rest, p.ridsAfter m tmp ++ chainRids m qs = r :: rest →
          st = Status.OK ∧ rid = some r ∧ p'.ridsAfter m s'.curRec ++ chainRids m qs' = rest) := by
  intro fuel
  induction fuel with
  | zero => intro s w tmp c p qs _ _ _ _ _ hf; omega
  | succ fuel ih =>
    intro s w tmp c p qs hcp hch hnf hm hinv hfuel
    have hpage : s.curPageData w = some p := by
      unfold HeapFile.curPageData
      rw [hcp]; exact hch.1
    unfold HeapFileScan.scanLoop
    simp only [hpage]
    cases hnr : p.nextRecord tmp with
    | none =>
      have hra := Page.nextRecord_none m p tmp hnr
      simp only []
      cases qs with
      | nil =>
        have hnp : p.getNextPage = -1 := hch.2.2
        simp only [hnp, if_true]
        refine ⟨_, _, s, w, c, p, [], rfl, hcp, hch, hnf, ⟨rfl, rfl, rfl, rfl, rfl, rfl⟩,
          le_refl _, ?_, ?_⟩
        · intro _
          refine ⟨rfl, rfl, ?_⟩
          rw [hinv, hra]; rfl
        · intro r rest h
          rw [hra] at h
          simp [chainRids] at h
      | cons q qs' =>
        obtain ⟨hq1, hq2, hq3⟩ := hch.2.2
        have hnp : p.getNextPage ≠ -1 := by
          intro e
          have e' : p.nextPage = -1 := e
          rw [e'] at hq1
          unfold World.page? at hq1
          rw [World.img?_neg _ _ _ (by decide)] at hq1
          cases hq1
        simp only [hnp, if_false]
        have hne : Status.OK ≠ Status.NORECORDS := by decide
        simp only [hne, ne_eq, not_false_eq_true, if_true]
        -- the world after the unpin
        have himg1 : ∀ k, (bufMgr.unPinPage w s.filePtr s.curPageNo s.curDirtyFlag).2.img?
            s.filePtr k = w.img? s.filePtr k := fun k => bufMgr.unPinPage_img? _ _ _ _ _ _
        have hnf1 := bufMgr.unPinPage_noFaults w s.filePtr s.curPageNo s.curDirtyFlag hnf
        have hex : ((bufMgr.unPinPage w s.filePtr s.curPageNo s.curDirtyFlag).2.img?
            s.filePtr p.getNextPage).isSome := by
          rw [himg1]
          unfold World.page? at hq1
          cases hi : w.img? s.filePtr p.nextPage with
          | none => rw [hi] at hq1; cases hq1
          | some _ => simp [Page.getNextPage, hi]
        obtain ⟨hok, hptr⟩ := bufMgr.readPage_ok _ s.filePtr p.getNextPage s.curPage hnf1 hex
        have hnf2 := bufMgr.readPage_noFaults _ s.filePtr p.getNextPage s.curPage hnf1
        have himg2 : ∀ k, (bufMgr.readPage (bufMgr.unPinPage w s.filePtr s.curPageNo
            s.curDirtyFlag).2 s.filePtr p.getNextPage s.curPage).2.2.img? s.filePtr k
            = w.img? s.filePtr k := by
          intro k
          rw [bufMgr.readPage_img?, himg1]
        have hch2 := World.isChain_congr w _ s.filePtr himg2 (q :: qs') p.nextPage ⟨hq1, hq2, hq3⟩
        have hf2 : (q.slots.length - ((NULLRID.slotNo + 1).toNat)) + 1 + scanFuel qs' ≤ fuel := by
          have e0 : (NULLRID.slotNo + 1).toNat = 0 := by decide
          rw [e0]
          simp only [scanFuel, List.map_cons, List.sum_cons] at hfuel ⊢
          omega
        obtain ⟨st, rid, s', w', c', p', qs'', hrun, hcp', hch', hnf', hsp, hsf, hE, hO⟩ :=
          ih ⟨⟨s.filePtr, s.headerPageNo, s.hdrDirtyFlag,
              (bufMgr.readPage (bufMgr.unPinPage w s.filePtr s.curPageNo s.curDirtyFlag).2
                s.filePtr p.getNextPage s.curPage).2.1, p.getNextPage, false, NULLRID⟩,
              s.offset, s.length, s.type, s.filter, s.op, s.markedPageNo, s.markedRec⟩
            (bufMgr.readPage (bufMgr.unPinPage w s.filePtr s.curPageNo s.curDirtyFlag).2
                s.filePtr p.getNextPage s.curPage).2.2
            NULLRID p.getNextPage q qs' hptr hch2 hnf2
            (fun rec => by rw [← hm rec]; exact HeapFileScan.matchRec_congr _ _ rfl rfl rfl rfl rfl rec)
            rfl hf2
        refine ⟨st, rid, s', w', c', p', qs'', hrun, hcp', hch', hnf', hsp, ?_, ?_, ?_⟩
        · simp only [scanFuel, List.map_cons, List.sum_cons] at hsf ⊢
          omega
        · intro h
          apply hE
          rw [hra] at h
          simpa [chainRids, Page.rids, Page.ridsAfter, NULLRID] using h
        · intro r rest h
          apply hO
          rw [hra] at h
          simpa [chainRids, Page.rids, Page.ridsAfter, NULLRID] using h
    | some r =>
      obtain ⟨d, hget, hsplit, hlt⟩ := Page.nextRecord_some m p tmp r hnr
      simp only [hget, hm]
      cases hmd : m ⟨d⟩ with
      | true =>
        simp only []
        refine ⟨_, _, _, w, c, p, qs, rfl, hcp, hch, hnf, ⟨rfl, rfl, rfl, rfl, rfl, rfl⟩,
          le_refl _, ?_, ?_⟩
        · intro h
          rw [hsplit, hmd] at h
          simp at h
        · intro r' rest h
          rw [hsplit, hmd] at h
          simp only [if_true, List.singleton_append, List.cons_append, List.cons.injEq] at h
          obtain ⟨rfl, rfl⟩ := h
          exact ⟨rfl, rfl, rfl⟩
      | false =>
        simp only []
        have hinv' : p.ridsAfter m s.curRec = p.ridsAfter m r := by
          rw [hinv, hsplit, hmd]; simp
        obtain ⟨st, rid, s', w', c', p', qs'', hrun, hcp', hch', hnf', hsp, hsf, hE, hO⟩ :=
          ih s w r c p qs hcp hch hnf hm hinv' (by omega)
        refine ⟨st, rid, s', w', c', p', qs'', hrun, hcp', hch', hnf', hsp, hsf, ?_, ?_⟩
        · intro h
          apply hE
          rw [hsplit, hmd] at h
          simpa using h
        · intro r' rest h
          apply hO
          rw [hsplit, hmd] at h
          simpa using h

theorem take_append_replicate {α : Type} (e : α) :
    ∀ (A : List α) (n k : Nat), n ≤ k →
      (A ++ List.replicate k e).take n = (A ++ List.replicate n e).take n
  | [], n, k, h => by
    simp [List.take_replicate, Nat.min_eq_left h]
  | a :: A, 0, k, _ => by simp
  | a :: A, n + 1, k, h => by
    simp only [List.cons_append, List.take_succ_cons, List.cons.injEq, true_and]
    rw [take_append_replicate e A n k (by omega), take_append_replicate e A n (n + 1) (by omega)]

theorem take_length_add {α : Type} (e : α) (A : List α) (j : Nat) :
    (A ++ List.replicate (A.length + j) e).take (A.length + j) = A ++ List.replicate j e := by
  rw [List.take_append_eq_append_take]
  simp [List.take_replicate]

theorem scanNext_spec (m : Record → Bool) (fuel : Nat) (s : HeapFileScan) (w : World)
    (c : Int) (p : Page) (qs : List Page)
    (hcp : s.curPage = some c) (hch : w.isChain s.filePtr c (p :: qs)) (hnf : w.noFaults)
    (hm : ∀ rec, s.matchRec rec = some (m rec)) (hfuel : scanFuel (p :: qs) ≤ fuel) :
    ∃ st rid s' w' c' p' qs',
      s.scanNext fuel w = some (st, rid, s', w') ∧
      s'.curPage = some c' ∧ w'.isChain s'.filePtr c' (p' :: qs') ∧ w'.noFaults ∧
      (∀ rec, s'.matchRec rec = some (m rec)) ∧ scanFuel (p' :: qs') ≤ fuel ∧
      (p.ridsAfter m s.curRec ++ chainRids m qs = [] →
        st = Status.FILEEOF ∧ rid = none ∧ p'.ridsAfter m s'.curRec ++ chainRids m qs' = []) ∧
      (∀ r rest, p.ridsAfter m s.curRec ++ chainRids m qs = r :: rest →
        st = Status.OK ∧ rid = some r ∧ p'.ridsAfter m s'.curRec ++ chainRids m qs' = rest) := by
  have hf : (p.slots.length - (s.curRec.slotNo + 1).toNat) + 1 + scanFuel qs ≤ fuel := by
    simp only [scanFuel, List.map_cons, List.sum_cons] at hfuel ⊢
    omega
  obtain ⟨st, rid, s', w', c', p', qs', hrun, hcp', hch', hnf', hsp, hsf, hE, hO⟩ :=
    scanLoop_spec m fuel s.markScan w s.curRec c p qs hcp hch hnf
      (fun rec => by rw [← hm rec]; exact HeapFileScan.matchRec_congr _ _ rfl rfl rfl rfl rfl rec)
      rfl hf
  obtain ⟨e1, e2, e3, e4, e5, e6⟩ := hsp
  refine ⟨st, rid, s', w', c', p', qs', hrun, hcp', ?_, hnf', ?_, le_trans hsf hfuel, hE, hO⟩
  · rw [e1]; exact hch'
  · intro rec
    rw [← hm rec]
    exact (HeapFileScan.matchRec_congr _ _ e2 e3 e4 e5 e6 rec).trans
      (HeapFileScan.matchRec_congr _ _ rfl rfl rfl rfl rfl rec)

theorem scanResults_take (m : Record → Bool) (fuel : Nat) :
    ∀ (n : Nat) (s : HeapFileScan) (w : World) (c : Int) (p : Page) (qs : List Page),
      s.curPage = some c → w.isChain s.filePtr c (p :: qs) → w.noFaults →
      (∀ rec, s.matchRec rec = some (m rec)) → scanFuel (p :: qs) ≤ fuel →
      s.scanResults fuel n w =
        some ((((p.ridsAfter m s.curRec ++ chainRids m qs).map
          fun r => (Status.OK, some r)) ++ List.replicate n (Status.FILEEOF, none)).take n) := by
  intro n
  induction n with
  | zero => intro s w c p qs _ _ _ _ _; simp [HeapFileScan.scanResults]
  | succ n ih =>
    intro s w c p qs hcp hch hnf hm hfuel
    obtain ⟨st, rid, s', w', c', p', qs', hrun, hcp', hch', hnf', hm', hsf, hE, hO⟩ :=
      scanNext_spec m fuel s w c p qs hcp hch hnf hm hfuel
    unfold HeapFileScan.scanResults
    simp only [hrun]
    rw [ih s' w' c' p' qs' hcp' hch' hnf' hm' hsf]
    cases hR : p.ridsAfter m s.curRec ++ chainRids m qs with
    | nil =>
      obtain ⟨rfl, rfl, hR'⟩ := hE hR
      rw [hR']
      simp [List.take_replicate, List.replicate_succ]
    | cons r rest =>
      obtain ⟨rfl, rfl, hR'⟩ := hO r rest hR
      rw [hR']
      simp only [Option.map_some', List.map_cons, List.cons_append, List.take_succ_cons,
        Option.some.injEq, List.cons.injEq, true_and]
      exact (take_append_replicate _ _ n (n + 1) (by omega)).symm

theorem scanResults_spec (m : Record → Bool) (fuel : Nat) (j : Nat) (s : HeapFileScan)
    (w : World) (c : Int) (p : Page) (qs : List Page)
    (hcp : s.curPage = some c) (hch : w.isChain s.filePtr c (p :: qs)) (hnf : w.noFaults)
    (hm : ∀ rec, s.matchRec rec = some (m rec)) (hfuel : scanFuel (p :: qs) ≤ fuel) :
    s.scanResults fuel ((p.ridsAfter m s.curRec ++ chainRids m qs).length + j) w =
      some (((p.ridsAfter m s.curRec ++ chainRids m qs).map fun r => (Status.OK, some r))
        ++ List.replicate j (Status.FILEEOF, none)) := by
  rw [scanResults_take m fuel _ s w c p qs hcp hch hnf hm hfuel]
  have := take_length_add (Status.FILEEOF, (none : Option RID))
    ((p.ridsAfter m s.curRec ++ chainRids m qs).map fun r => (Status.OK, some r)) j
  rw [List.length_map] at this
  rw [this]

/-! ## Auxiliary facts about page chains and the scan predicate -/

theorem World.isChain_unique (w : World) (file : String) :
    ∀ (ps ps' : List Page) (c : Int), w.isChain file c ps → w.isChain file c ps' → ps = ps'
  | [], [], _, _, _ => rfl
  | [], p' :: _, c, h, h' => by
    have hc : c = -1 := h
    have h1 := h'.1
    unfold World.page? at h1
    rw [World.img?_neg w file c (by omega)] at h1
    cases h1
  | p :: _, [], c, h, h' => by
    have hc : c = -1 := h'
    have h1 := h.1
    unfold World.page? at h1
    rw [World.img?_neg w file c (by omega)] at h1
    cases h1
  | p :: ps, p' :: ps', c, h, h' => by
    have e : p = p' := by
      have h1 := h.1
      rw [h'.1] at h1
      exact (Option.some.inj h1).symm
    subst e
    rw [World.isChain_unique w file ps ps' _ h.2.2 h'.2.2]

theorem World.isChain_suffix (w : World) (file : String) (q : Page) (b : List Page) :
    ∀ (a : List Page) (c : Int), w.isChain file c (a ++ q :: b) →
      w.isChain file q.curPage (q :: b)
  | [], c, h => by
    have e : q.curPage = c := h.2.1
    rw [e]; exact h
  | _ :: a, _, h => World.isChain_suffix w file q b a _ h.2.2

theorem World.isChain_head_not_mem (w : World) (file : String) (c : Int) (p : Page)
    (qs : List Page) (h : w.isChain file c (p :: qs)) : ∀ q ∈ qs, q.curPage ≠ p.curPage := by
  intro q hq e
  obtain ⟨a, b, rfl⟩ := List.append_of_mem hq
  have h1 := World.isChain_suffix w file q b a _ h.2.2
  have h2 : w.isChain file q.curPage (p :: (a ++ q :: b)) := by
    rw [e, h.2.1]; exact h
  have := congrArg List.length (World.isChain_unique w file _ _ _ h1 h2)
  simp at this
  omega

theorem slotRids_mem (m : Record → Bool) (pn : Int) :
    ∀ (l : List (Option (List Byte))) (b : Nat) (r : RID), r ∈ slotRids m pn l b →
      r.pageNo = pn ∧ (b : Int) ≤ r.slotNo
  | [], _, _, h => by simp [slotRids] at h
  | some d :: rest, b, r, h => by
    simp only [slotRids, List.mem_append] at h
    rcases h with h | h
    · by_cases hm : m ⟨d⟩
      · simp only [hm, if_true, List.mem_singleton] at h
        subst h
        exact ⟨rfl, le_refl _⟩
      · simp [hm] at h
    · obtain ⟨h1, h2⟩ := slotRids_mem m pn rest (b + 1) r h
      exact ⟨h1, by push_cast at h2; omega⟩
  | none :: rest, b, r, h => by
    simp only [slotRids] at h
    obtain ⟨h1, h2⟩ := slotRids_mem m pn rest (b + 1) r h
    exact ⟨h1, by push_cast at h2; omega⟩

theorem slotRids_nodup (m : Record → Bool) (pn : Int) :
    ∀ (l : List (Option (List Byte))) (b : Nat), (slotRids m pn l b).Nodup
  | [], _ => by simp [slotRids]
  | some d :: rest, b => by
    simp only [slotRids]
    by_cases hm : m ⟨d⟩
    · simp only [hm, if_true, List.singleton_append, List.nodup_cons]
      refine ⟨fun hmem => ?_, slotRids_nodup m pn rest (b + 1)⟩
      have := (slotRids_mem m pn rest (b + 1) _ hmem).2
      simp at this
    · simp only [hm, if_false, List.nil_append, Bool.false_eq_true]
      exact slotRids_nodup m pn rest (b + 1)
  | none :: rest, b => by
    simp only [slotRids]
    exact slotRids_nodup m pn rest (b + 1)

theorem chainRids_mem (m : Record → Bool) (ps : List Page) (r : RID) (h : r ∈ chainRids m ps) :
    ∃ q ∈ ps, r.pageNo = q.curPage := by
  unfold chainRids at h
  simp only [List.mem_flatten, List.mem_map] at h
  obtain ⟨_, ⟨q, hq, rfl⟩, hr⟩ := h
  exact ⟨q, hq, (slotRids_mem m _ _ _ _ hr).1⟩

theorem chainRids_nodup (m : Record → Bool) (w : World) (file : String) :
    ∀ (ps : List Page) (c : Int), w.isChain file c ps → (chainRids m ps).Nodup
  | [], _, _ => by simp [chainRids]
  | p :: qs, c, h => by
    have ih := chainRids_nodup m w file qs _ h.2.2
    have e : chainRids m (p :: qs) = Page.rids m p ++ chainRids m qs := by
      simp [chainRids]
    rw [e, List.nodup_append]
    refine ⟨slotRids_nodup m _ _ _, ih, ?_⟩
    intro r hr hr'
    obtain ⟨q, hq, hrq⟩ := chainRids_mem m qs r hr'
    have := (slotRids_mem m _ _ _ _ hr).1
    exact World.isChain_head_not_mem w file c p qs h q hq (by rw [← hrq, this])

theorem HeapFileScan.matchRec_no_filter (s : HeapFileScan) (h : s.filter = none) (rec : Record) :
    s.matchRec rec = some true := by
  unfold HeapFileScan.matchRec
  rw [h]

theorem Page.ridsAfter_NULLRID (m : Record → Bool) (p : Page) :
    p.ridsAfter m NULLRID = p.rids m := by
  simp [Page.ridsAfter, Page.rids, NULLRID]


theorem leNat_lt : ∀ (bs : List Byte), leNat bs < 256 ^ bs.length
  | [] => by simp [leNat]
  | b :: bs => by
    have := leNat_lt bs
    have hb := b.isLt
    simp only [leNat, List.length_cons, pow_succ]
    omega

theorem leNat_inj : ∀ (a b : List Byte), a.length = b.length → leNat a = leNat b → a = b
  | [], [], _, _ => rfl
  | [], _ :: _, h, _ => by simp at h
  | _ :: _, [], h, _ => by simp at h
  | x :: a, y :: b, h, e => by
    simp only [leNat] at e
    have hx := x.isLt
    have hy := y.isLt
    have e1 : x.val = y.val := by omega
    have e2 : leNat a = leNat b := by omega
    rw [Fin.ext e1, leNat_inj a b (by simpa using h) e2]

theorem toInt32_sub_eq_zero (x y : Nat) (hx : x < 4294967296) (hy : y < 4294967296) :
    toInt32 (toInt32 x - toInt32 y) = 0 ↔ x = y := by
  unfold toInt32
  simp only []
  have e1 : (x : Int) % 4294967296 = x := by omega
  have e2 : (y : Int) % 4294967296 = y := by omega
  rw [e1, e2]
  constructor
  · intro h
    split_ifs at h <;> omega
  · intro h
    subst h
    split_ifs <;> omega

theorem int_eq_iff (a f : List Byte) (ha : a.length = 4) (hf : f.length = 4) :
    Diff.ofInt (toInt32 (intOfBytes a - intOfBytes f)) = Diff.zero ↔ a = f := by
  have h1 := leNat_lt a
  have h2 := leNat_lt f
  rw [ha] at h1
  rw [hf] at h2
  have h3 := toInt32_sub_eq_zero (leNat a) (leNat f) (by omega) (by omega)
  unfold intOfBytes
  unfold Diff.ofInt
  constructor
  · intro h
    apply leNat_inj a f (by omega)
    apply h3.mp
    split_ifs at h with c1 c2
    exact c2
  · intro h
    have := h3.mpr (by rw [h])
    rw [this]
    simp

theorem HeapFileScan.matchRec_int_eq (s : HeapFileScan) (V : List Byte) (hV : V.length = 4)
    (h1 : s.filter = some V) (h2 : s.offset = 0) (h3 : s.length = 4)
    (h4 : s.type = Datatype.INTEGER) (h5 : s.op = Operator.EQ) (rec : Record) :
    s.matchRec rec = some (decide (rec.data.take 4 = V)) := by
  have hfe : s.fieldEnd = 3 := by
    unfold HeapFileScan.fieldEnd
    rw [h2, h3]
    decide
  unfold HeapFileScan.matchRec
  simp only [h1, h2, h3, h4, h5, hfe, Record.length]
  by_cases hl : (3 : Int) ≥ (rec.data.length : Int)
  · simp only [hl, if_true]
    have : rec.data.take 4 ≠ V := by
      intro e
      have := congrArg List.length e
      simp only [List.length_take, hV] at this
      omega
    simp [this]
  · simp only [hl, if_false]
    have hlen : 4 ≤ rec.data.length := by omega
    have ea : bytesAt rec.data 0 4 = some (rec.data.take 4) := by
      unfold bytesAt
      have : (0 : Int) ≤ 0 ∧ (0 : Int) ≤ 4 ∧ (0 : Int) + 4 ≤ (rec.data.length : Int) := by omega
      simp only [this, and_self, if_true]
      simp
    have ef : bytesAt V 0 4 = some V := by
      unfold bytesAt
      have : (0 : Int) ≤ 0 ∧ (0 : Int) ≤ 4 ∧ (0 : Int) + 4 ≤ (V.length : Int) := by omega
      simp only [this, and_self, if_true]
      simp [List.take_of_length_le (le_of_eq hV)]
    have hs : sizeofInt = 4 := rfl
    simp only [hs, ne_eq, not_true_eq_false, if_false, ea, ef, Option.map_some', evalOp]
    have := int_eq_iff (rec.data.take 4) V (by simp [hlen]) hV
    by_cases e : rec.data.take 4 = V
    · rw [this.mpr e]
      simp [e]
    · have h := mt this.mp e
      simp [h, e]

/-! ## Properties of the heap-file operations -/

/-- C1: for a non-null filter, `startScan` returns `BADSCANPARM` exactly when
`offset < 0`, or `length < 1`, or the type is none of STRING/INTEGER/FLOAT, or
the type is INTEGER or FLOAT and the length is not 4, or the operator is none
of LT/LTE/EQ/GTE/GT/NE; in every other case it returns `OK` and the session's
offset, length, type, filter and op are the arguments (the rest of the session
is unchanged). -/
theorem startScan_validates (s : HeapFileScan) (offset length : Int) (type : Datatype)
    (flt : List Byte) (op : Operator) :
    let bad : Prop :=
      offset < 0 ∨ length < 1 ∨
      (type ≠ Datatype.STRING ∧ type ≠ Datatype.INTEGER ∧ type ≠ Datatype.FLOAT) ∨
      (type = Datatype.INTEGER ∧ length ≠ 4) ∨ (type = Datatype.FLOAT ∧ length ≠ 4) ∨
      (op ≠ Operator.LT ∧ op ≠ Operator.LTE ∧ op ≠ Operator.EQ ∧ op ≠ Operator.GTE ∧
        op ≠ Operator.GT ∧ op ≠ Operator.NE)
    let r := s.startScan offset length type (some flt) op
    (r.1 = Status.BADSCANPARM ↔ bad) ∧
    (bad ∨ (r.1 = Status.OK ∧ r.2.offset = offset ∧ r.2.length = length ∧ r.2.type = type ∧
      r.2.filter = some flt ∧ r.2.op = op ∧ r.2.toHeapFile = s.toHeapFile)) := by
  intro bad r
  by_cases h : bad
  · refine ⟨⟨fun _ => h, fun _ => ?_⟩, Or.inl h⟩
    have hb : (offset < 0 ∨ length < 1) ∨
       (type ≠ Datatype.STRING ∧ type ≠ Datatype.INTEGER ∧ type ≠ Datatype.FLOAT) ∨
       (type = Datatype.INTEGER ∧ length ≠ sizeofInt
         ∨ type = Datatype.FLOAT ∧ length ≠ sizeofFloat) ∨
       (op ≠ Operator.LT ∧ op ≠ Operator.LTE ∧ op ≠ Operator.EQ ∧ op ≠ Operator.GTE
         ∧ op ≠ Operator.GT ∧ op ≠ Operator.NE) := by
      simp only [sizeofInt, sizeofFloat]
      simp only [bad] at h
      tauto
    simp only [r, HeapFileScan.startScan, if_pos hb]
  · have hb : ¬ ((offset < 0 ∨ length < 1) ∨
       (type ≠ Datatype.STRING ∧ type ≠ Datatype.INTEGER ∧ type ≠ Datatype.FLOAT) ∨
       (type = Datatype.INTEGER ∧ length ≠ sizeofInt
         ∨ type = Datatype.FLOAT ∧ length ≠ sizeofFloat) ∨
       (op ≠ Operator.LT ∧ op ≠ Operator.LTE ∧ op ≠ Operator.EQ ∧ op ≠ Operator.GTE
         ∧ op ≠ Operator.GT ∧ op ≠ Operator.NE)) := by
      simp only [sizeofInt, sizeofFloat]
      simp only [bad] at h
      tauto
    have hr : r = (Status.OK,
        ⟨s.toHeapFile, offset, length, type, some flt, op, s.markedPageNo, s.markedRec⟩) := by
      simp only [r, HeapFileScan.startScan, if_neg hb]
    refine ⟨⟨fun h1 => ?_, fun h1 => absurd h1 h⟩, Or.inr ?_⟩
    · rw [hr] at h1; cases h1
    · rw [hr]; exact ⟨rfl, rfl, rfl, rfl, rfl, rfl, rfl⟩

/-- C2: on a scan positioned as the constructor leaves it (current page the
header's first page, cursor `NULLRID`) with no filter, over a file whose page
chain from `firstPage` is `p :: qs` and with no failure imposed on the buffer
pool, the successive `scanNext` calls return `OK` with the RIDs of all records
of the chain, page by page in chain order and within a page in slot
(`nextRecord`) order, then `FILEEOF` on every further call; no RID occurs
twice. -/
theorem scanNext_without_filter_visits_every_record (fuel j : Nat) (s : HeapFileScan)
    (w : World) (h : FileHdrPage) (p : Page) (qs : List Page)
    (_hhdr : s.headerPage w = some h) (hcp : s.curPage = some h.firstPage)
    (hrec : s.curRec = NULLRID) (hflt : s.filter = none)
    (hch : w.isChain s.filePtr h.firstPage (p :: qs)) (hnf : w.noFaults)
    (hfuel : scanFuel (p :: qs) ≤ fuel) :
    s.scanResults fuel ((chainRids (fun _ => true) (p :: qs)).length + j) w =
      some (((chainRids (fun _ => true) (p :: qs)).map fun r => (Status.OK, some r))
        ++ List.replicate j (Status.FILEEOF, none)) ∧
    (chainRids (fun _ => true) (p :: qs)).Nodup := by
  have e : p.ridsAfter (fun _ => true) s.curRec ++ chainRids (fun _ => true) qs
      = chainRids (fun _ => true) (p :: qs) := by
    rw [hrec, Page.ridsAfter_NULLRID]; simp [chainRids]
  have := scanResults_spec (fun _ => true) fuel j s w h.firstPage p qs hcp hch hnf
    (HeapFileScan.matchRec_no_filter s hflt) hfuel
  rw [e] at this
  exact ⟨this, chainRids_nodup _ w s.filePtr _ _ hch⟩

/-- Witness of C2 on the end-to-end example (records with keys 3, 1, 4, 1, 5 on
three pages): seven calls return the five RIDs and then `FILEEOF` twice. -/
theorem scanNext_without_filter_visits_every_record_witness :
    exScan.scanResults 8 ((chainRids (fun _ => true) exPages).length + 2) exScanWorld =
      some [(Status.OK, some ⟨1, 0⟩), (Status.OK, some ⟨1, 1⟩), (Status.OK, some ⟨2, 0⟩),
        (Status.OK, some ⟨2, 1⟩), (Status.OK, some ⟨3, 0⟩), (Status.FILEEOF, none),
        (Status.FILEEOF, none)] ∧
    (chainRids (fun _ => true) exPages).Nodup :=
  scanNext_without_filter_visits_every_record 8 2 exScan exScanWorld ⟨"T1", 1, 3, 3, 5⟩
    ⟨1, 2, [some [3, 0, 0, 0], some [1, 0, 0, 0]]⟩
    [⟨2, 3, [some [4, 0, 0, 0], some [1, 0, 0, 0]]⟩, ⟨3, -1, [some [5, 0, 0, 0]]⟩]
    (by decide) (by decide) (by decide) (by decide)
    ⟨by decide, by decide, by decide, by decide, by decide, by decide, rfl⟩
    (by intro st hst; cases hst) (by decide)

/-- C3: after `startScan(0, 4, INTEGER, V, EQ)` with a four-byte `V` on a scan
positioned as the constructor leaves it, over a file whose page chain is
`p :: qs` and with no failure imposed on the buffer pool, the successive
`scanNext` calls return `OK` with exactly the RIDs of the records whose first
four bytes are `V`, in page-chain and then slot order, then `FILEEOF`. -/
theorem scanNext_integer_eq_filter (fuel j : Nat) (s : HeapFileScan) (w : World)
    (h : FileHdrPage) (p : Page) (qs : List Page) (V : List Byte) (hV : V.length = 4)
    (_hhdr : s.headerPage w = some h) (hcp : s.curPage = some h.firstPage)
    (hrec : s.curRec = NULLRID)
    (hch : w.isChain s.filePtr h.firstPage (p :: qs)) (hnf : w.noFaults)
    (hfuel : scanFuel (p :: qs) ≤ fuel) :
    (s.startScan 0 4 Datatype.INTEGER (some V) Operator.EQ).1 = Status.OK ∧
    (s.startScan 0 4 Datatype.INTEGER (some V) Operator.EQ).2.scanResults fuel
        ((chainRids (fun rec => decide (rec.data.take 4 = V)) (p :: qs)).length + j) w =
      some (((chainRids (fun rec => decide (rec.data.take 4 = V)) (p :: qs)).map
        fun r => (Status.OK, some r)) ++ List.replicate j (Status.FILEEOF, none)) := by
  have hst : s.startScan 0 4 Datatype.INTEGER (some V) Operator.EQ =
      (Status.OK, ⟨s.toHeapFile, 0, 4, Datatype.INTEGER, some V, Operator.EQ,
        s.markedPageNo, s.markedRec⟩) := by
    unfold HeapFileScan.startScan
    simp [sizeofInt]
  rw [hst]
  refine ⟨rfl, ?_⟩
  have e : p.ridsAfter (fun rec => decide (rec.data.take 4 = V)) s.curRec
      ++ chainRids (fun rec => decide (rec.data.take 4 = V)) qs
      = chainRids (fun rec => decide (rec.data.take 4 = V)) (p :: qs) := by
    rw [hrec, Page.ridsAfter_NULLRID]; simp [chainRids]
  have := scanResults_spec (fun rec => decide (rec.data.take 4 = V)) fuel j
    ⟨s.toHeapFile, 0, 4, Datatype.INTEGER, some V, Operator.EQ, s.markedPageNo, s.markedRec⟩
    w h.firstPage p qs hcp hch hnf
    (HeapFileScan.matchRec_int_eq _ V hV rfl rfl rfl rfl rfl) hfuel
  have hrec' : (⟨s.toHeapFile, 0, 4, Datatype.INTEGER, some V, Operator.EQ, s.markedPageNo,
      s.markedRec⟩ : HeapFileScan).curRec = s.curRec := rfl
  rw [hrec', e] at this
  exact this

/-- Witness of C3: over the records with keys 3, 1, 4, 1, 5 the filter `EQ 1`
yields exactly the RIDs of the second and the fourth record, in this order,
then `FILEEOF`. -/
theorem scanNext_integer_eq_filter_witness :
    (exScan.startScan 0 4 Datatype.INTEGER (some [1, 0, 0, 0]) Operator.EQ).1 = Status.OK ∧
    (exScan.startScan 0 4 Datatype.INTEGER (some [1, 0, 0, 0]) Operator.EQ).2.scanResults 8
        ((chainRids (fun rec => decide (rec.data.take 4 = [1, 0, 0, 0])) exPages).length + 1)
        exScanWorld =
      some [(Status.OK, some ⟨1, 1⟩), (Status.OK, some ⟨2, 1⟩), (Status.FILEEOF, none)] :=
  scanNext_integer_eq_filter 8 1 exScan exScanWorld ⟨"T1", 1, 3, 3, 5⟩
    ⟨1, 2, [some [3, 0, 0, 0], some [1, 0, 0, 0]]⟩
    [⟨2, 3, [some [4, 0, 0, 0], some [1, 0, 0, 0]]⟩, ⟨3, -1, [some [5, 0, 0, 0]]⟩]
    [1, 0, 0, 0] rfl
    (by decide) (by decide) (by decide)
    ⟨by decide, by decide, by decide, by decide, by decide, by decide, rfl⟩
    (by intro st hst; cases hst) (by decide)

/-- C4 (the code at the failing input): on the example file a scan makes one
`scanNext` call, then `markScan`, one more `scanNext` call and `resetScan`.
The `scanNext` that followed `markScan` returned the RID (1,1); the `scanNext`
that follows `resetScan` returns (2,0), not (1,1) again: `scanNext` itself calls
`markScan`, so the mark restored by `resetScan` is the position of the last
`scanNext`, not the position of the client's `markScan`. -/
theorem resetScan_after_scanNext_does_not_rewind :
    (runCalls exLayout 8
        [Call.scanNext, Call.markScan, Call.scanNext, Call.resetScan, Call.scanNext]
        ⟨exScan, exIns⟩ exScanWorld).map (fun x => scanOutputs x.1) =
      some [(Status.OK, some ⟨1, 0⟩), (Status.OK, some ⟨1, 1⟩), (Status.OK, some ⟨2, 0⟩)] := by
  decide

/-- C7: for a record longer than `PAGESIZE - DPFIXED`, `insertRecord` returns
`INVALIDRECLEN`, assigns no RID, and leaves the session (current page, page
number, dirty flag, cursor) and the world (every frame, pin count, dirty bit
and header field, the files and the pending outcomes) exactly as they were. -/
theorem insertRecord_too_long_changes_nothing (L : PageLayout) (s : InsertFileScan)
    (w : World) (rec : Record) (h : rec.length > (L.PAGESIZE : Int) - (L.DPFIXED : Int)) :
    s.insertRecord L w rec = some (Status.INVALIDRECLEN, none, s, w) := by
  unfold InsertFileScan.insertRecord
  rw [if_pos h]

/-- Witness of C7: a five-byte record with `PAGESIZE - DPFIXED = 4`. -/
theorem insertRecord_too_long_changes_nothing_witness :
    (⟨[1, 2, 3, 4, 5]⟩ : Record).length >
        ((⟨24, 20, by decide, fun _ _ => true⟩ : PageLayout).PAGESIZE : Int) -
          ((⟨24, 20, by decide, fun _ _ => true⟩ : PageLayout).DPFIXED : Int) ∧
      exIns.insertRecord ⟨24, 20, by decide, fun _ _ => true⟩ exWorld ⟨[1, 2, 3, 4, 5]⟩ =
        some (Status.INVALIDRECLEN, none, exIns, exWorld) :=
  ⟨by decide, insertRecord_too_long_changes_nothing _ exIns exWorld ⟨[1, 2, 3, 4, 5]⟩ (by decide)⟩

theorem World.setFile_noFaults (w : World) (file : String) (f : File) (h : w.noFaults) :
    (w.setFile file f).noFaults := h

theorem World.page?_setImg_ne (w : World) (F F' : String) (k k' : Int) (img : PageImage)
    (h : ¬ (F' = F ∧ k' = k)) : (w.setImg F k img).page? F' k' = w.page? F' k' := by
  unfold World.page?
  rw [World.img?_setImg]
  have : ¬ (F' = F ∧ k' = k ∧ (w.img? F k).isSome = true) := fun hc => h ⟨hc.1, hc.2.1⟩
  rw [if_neg this]

theorem World.hdr?_setImg_ne (w : World) (F F' : String) (k k' : Int) (img : PageImage)
    (h : ¬ (F' = F ∧ k' = k)) : (w.setImg F k img).hdr? F' k' = w.hdr? F' k' := by
  unfold World.hdr?
  rw [World.img?_setImg]
  have : ¬ (F' = F ∧ k' = k ∧ (w.img? F k).isSome = true) := fun hc => h ⟨hc.1, hc.2.1⟩
  rw [if_neg this]

theorem World.page?_setImg_same (w : World) (F : String) (k : Int) (p : Page)
    (h : (w.img? F k).isSome) : (w.setImg F k (PageImage.data p)).page? F k = some p := by
  unfold World.page?
  rw [World.img?_setImg]
  simp [h, PageImage.page?]

theorem World.hdr?_setImg_same (w : World) (F : String) (k : Int) (hd : FileHdrPage)
    (h : (w.img? F k).isSome) : (w.setImg F k (PageImage.header hd)).hdr? F k = some hd := by
  unfold World.hdr?
  rw [World.img?_setImg]
  simp [h, PageImage.hdr?]

theorem World.img?_isSome_of_page? (w : World) (F : String) (k : Int) (p : Page)
    (h : w.page? F k = some p) : (w.img? F k).isSome := by
  unfold World.page? at h
  cases hi : w.img? F k with
  | none => rw [hi] at h; cases h
  | some _ => rfl

theorem World.img?_isSome_of_hdr? (w : World) (F : String) (k : Int) (hd : FileHdrPage)
    (h : w.hdr? F k = some hd) : (w.img? F k).isSome := by
  unfold World.hdr? at h
  cases hi : w.img? F k with
  | none => rw [hi] at h; cases h
  | some _ => rfl

theorem World.page?_hdr?_ne (w : World) (F : String) (k H : Int) (p : Page) (hd : FileHdrPage)
    (hp : w.page? F k = some p) (hh : w.hdr? F H = some hd) : k ≠ H := by
  intro e
  subst e
  unfold World.page? at hp
  unfold World.hdr? at hh
  cases hi : w.img? F k with
  | none => rw [hi] at hp; cases hp
  | some img =>
    rw [hi] at hp hh
    cases img <;> simp [PageImage.page?, PageImage.hdr?] at hp hh

theorem World.page?_congr (w w' : World) (F : String) (k : Int)
    (h : w'.img? F k = w.img? F k) : w'.page? F k = w.page? F k := by
  unfold World.page?; rw [h]

theorem World.hdr?_congr (w w' : World) (F : String) (k : Int)
    (h : w'.img? F k = w.img? F k) : w'.hdr? F k = w.hdr? F k := by
  unfold World.hdr?; rw [h]

theorem File.frame?_append (f : File) (x : Frame) (k : Int) (oc : Nat) :
    (⟨f.frames ++ [x], oc⟩ : File).frame? k =
      if k = (f.frames.length : Int) then some x else f.frame? k := by
  unfold File.frame?
  by_cases hk : 0 ≤ k
  · simp only [hk, if_true, List.get?_eq_getElem?]
    by_cases e : k = (f.frames.length : Int)
    · have : k.toNat = f.frames.length := by omega
      simp [e, this]
    · simp only [e, if_false]
      by_cases hlt : k.toNat < f.frames.length
      · rw [List.getElem?_append_left hlt]
      · have h1 : f.frames.length < k.toNat := by omega
        rw [List.getElem?_eq_none (by simp; omega), List.getElem?_eq_none (by omega)]
  · have : k ≠ (f.frames.length : Int) := by omega
    simp [hk, this]

theorem bufMgr.allocPage_spec (w : World) (F : String) :
    ((bufMgr.allocPage w F).1 ≠ Status.OK →
      ∀ F' k', (bufMgr.allocPage w F).2.2.2.img? F' k' = w.img? F' k') ∧
    ((bufMgr.allocPage w F).1 = Status.OK →
      (bufMgr.allocPage w F).2.2.1 = some (bufMgr.allocPage w F).2.1 ∧
      w.img? F (bufMgr.allocPage w F).2.1 = none ∧
      ∀ F' k', (bufMgr.allocPage w F).2.2.2.img? F' k' =
        if F' = F ∧ k' = (bufMgr.allocPage w F).2.1 then some PageImage.raw
        else w.img? F' k') := by
  unfold bufMgr.allocPage
  simp only []
  split
  · refine ⟨fun _ F' k' => World.nextFault_img? w F' k', fun h => ?_⟩
    rename_i hflt
    exact absurd h hflt
  · cases hf : w.nextFault.2.files F with
    | none =>
      simp only []
      refine ⟨fun _ F' k' => World.nextFault_img? w F' k', fun h => by cases h⟩
    | some f =>
      simp only []
      refine ⟨fun h => absurd rfl h, fun _ => ⟨trivial, ?_, ?_⟩⟩
      · rw [← World.nextFault_img? w]
        unfold World.img? World.frame?
        rw [hf]
        simp [File.frame?]
      · intro F' k'
        rw [← World.nextFault_img? w F' k']
        unfold World.img?
        rw [World.frame?_setFile]
        by_cases e : F' = F
        · subst e
          simp only [true_and, if_true]
          rw [File.frame?_append f _ k' f.openCnt]
          unfold World.frame?
          rw [hf]
          by_cases e2 : k' = (f.frames.length : Int)
          · simp [e2]
          · simp [e2]
        · simp [e]

theorem bufMgr.allocPage_noFaults (w : World) (F : String) (h : w.noFaults) :
    (bufMgr.allocPage w F).2.2.2.noFaults := by
  have h1 := (World.nextFault_of_noFaults w h).2
  unfold bufMgr.allocPage
  simp only []
  split
  · exact h1
  · cases hf : w.nextFault.2.files F with
    | none => exact h1
    | some f => exact h1

theorem World.img?_setImg_ne (w : World) (F F' : String) (k k' : Int) (img : PageImage)
    (h : ¬ (F' = F ∧ k' = k)) : (w.setImg F k img).img? F' k' = w.img? F' k' := by
  rw [World.img?_setImg]
  have : ¬ (F' = F ∧ k' = k ∧ (w.img? F k).isSome = true) := fun hc => h ⟨hc.1, hc.2.1⟩
  rw [if_neg this]

theorem InsertFileScan.finish_hdr (st : Status) (rid : Option RID) (s : InsertFileScan)
    (w : World) (h : FileHdrPage) (x : Status × Option RID × InsertFileScan × World)
    (hh : w.hdr? s.filePtr s.headerPageNo = some h)
    (hx : InsertFileScan.finish st rid s w = some x) :
    x.1 = st ∧ x.2.2.1.filePtr = s.filePtr ∧ x.2.2.1.headerPageNo = s.headerPageNo ∧
    x.2.2.1.curPage = s.curPage ∧ x.2.2.1.curPageNo = s.curPageNo ∧
    x.2.2.2.hdr? s.filePtr s.headerPageNo =
      some { h with recCnt := h.recCnt + (if st = Status.OK then 1 else 0) } ∧
    (∀ F k, ¬ (F = s.filePtr ∧ k = s.headerPageNo) → x.2.2.2.img? F k = w.img? F k) ∧
    (st = Status.OK → x.2.1 = rid) := by
  unfold InsertFileScan.finish at hx
  by_cases e : st = Status.OK
  · simp only [e, if_true, HeapFile.headerPage, hh, Option.some.injEq] at hx
    subst hx
    subst e
    refine ⟨rfl, rfl, rfl, rfl, rfl, ?_, ?_, fun _ => rfl⟩
    · simp only [if_true]
      exact World.hdr?_setImg_same w _ _ _ (World.img?_isSome_of_hdr? w _ _ h hh)
    · intro F k hne
      exact World.img?_setImg_ne w _ _ _ _ _ hne
  · simp only [e, if_false, Option.some.injEq] at hx
    subst hx
    refine ⟨rfl, rfl, rfl, rfl, rfl, ?_, fun _ _ _ => rfl, fun h => absurd h e⟩
    simp only [e, if_false, add_zero]
    exact hh

/-- Outcome of the `NOSPACE` branch when its buffer-pool calls succeed. -/
theorem InsertFileScan.grow_ok (L : PageLayout) (s : InsertFileScan) (w : World) (k : Int)
    (rec : Record) (h : FileHdrPage) (p : Page)
    (x : Status × Option RID × InsertFileScan × World)
    (hh : w.hdr? s.filePtr s.headerPageNo = some h) (hp : w.page? s.filePtr k = some p)
    (ha : (bufMgr.allocPage w s.filePtr).1 = Status.OK)
    (hu : (bufMgr.unPinPage ((bufMgr.allocPage w s.filePtr).2.2.2.setImg s.filePtr k
        (PageImage.data (p.setNextPage (bufMgr.allocPage w s.filePtr).2.1)))
        s.filePtr s.curPageNo s.curDirtyFlag).1 = Status.OK)
    (hx : InsertFileScan.grow L s w k rec = some x) :
    x.1 = ((Page.init (bufMgr.allocPage w s.filePtr).2.1).insertRecord L rec).1 ∧
    x.2.2.1.filePtr = s.filePtr ∧ x.2.2.1.headerPageNo = s.headerPageNo ∧
    x.2.2.1.curPage = some (bufMgr.allocPage w s.filePtr).2.1 ∧
    x.2.2.1.curPageNo = (bufMgr.allocPage w s.filePtr).2.1 ∧
    w.img? s.filePtr (bufMgr.allocPage w s.filePtr).2.1 = none ∧
    x.2.2.2.hdr? s.filePtr s.headerPageNo =
      some { h with pageCnt := h.pageCnt + 1, lastPage := (bufMgr.allocPage w s.filePtr).2.1,
                    recCnt := h.recCnt + (if x.1 = Status.OK then 1 else 0) } ∧
    x.2.2.2.page? s.filePtr k = some (p.setNextPage (bufMgr.allocPage w s.filePtr).2.1) ∧
    x.2.2.2.page? s.filePtr (bufMgr.allocPage w s.filePtr).2.1 =
      some ((Page.init (bufMgr.allocPage w s.filePtr).2.1).insertRecord L rec).2.2 ∧
    (∀ F' k', ¬ (F' = s.filePtr ∧ (k' = k ∨ k' = (bufMgr.allocPage w s.filePtr).2.1 ∨
        k' = s.headerPageNo)) → x.2.2.2.img? F' k' = w.img? F' k') ∧
    (x.1 = Status.OK →
      x.2.1 = ((Page.init (bufMgr.allocPage w s.filePtr).2.1).insertRecord L rec).2.1) := by
  obtain ⟨_, hA⟩ := bufMgr.allocPage_spec w s.filePtr
  obtain ⟨hptr, hfresh, himgA⟩ := hA ha
  generalize hnew : (bufMgr.allocPage w s.filePtr).2.1 = new at *
  generalize hwa : (bufMgr.allocPage w s.filePtr).2.2.2 = wa at *
  -- the frames k and H exist before the allocation, the new one does not
  have hkS := World.img?_isSome_of_page? w _ _ p hp
  have hHS := World.img?_isSome_of_hdr? w _ _ h hh
  have hkH : k ≠ s.headerPageNo := World.page?_hdr?_ne w _ _ _ p h hp hh
  have hkn : k ≠ new := by
    intro e; rw [e, hfresh] at hkS; cases hkS
  have hHn : s.headerPageNo ≠ new := by
    intro e; rw [e, hfresh] at hHS; cases hHS
  have hqa : wa.page? s.filePtr k = some p := by
    rw [← hp]; apply World.page?_congr
    rw [himgA]; simp [hkn]
  unfold InsertFileScan.grow at hx
  simp only [ha, hnew, hwa, hptr, hqa, ne_eq, not_true_eq_false, if_false] at hx
  rw [hu] at hx
  simp only [not_true_eq_false, if_false] at hx
  generalize hwu : (bufMgr.unPinPage (wa.setImg s.filePtr k (PageImage.data (p.setNextPage new)))
      s.filePtr s.curPageNo s.curDirtyFlag).2 = wu at *
  have himgU : ∀ F' k', wu.img? F' k' =
      (wa.setImg s.filePtr k (PageImage.data (p.setNextPage new))).img? F' k' := by
    intro F' k'; rw [← hwu]; exact bufMgr.unPinPage_img? _ _ _ _ _ _
  have hnS : (wu.img? s.filePtr new).isSome := by
    rw [himgU, World.img?_setImg_ne _ _ _ _ _ _ (fun hc => hkn hc.2.symm), himgA]
    simp
  -- the header after the new page is initialised
  have hh2 : (wu.setImg s.filePtr new (PageImage.data (Page.init new))).hdr?
      s.filePtr s.headerPageNo = some h := by
    rw [World.hdr?_setImg_ne _ _ _ _ _ _ (fun hc => hHn hc.2), ← hh]
    apply World.hdr?_congr
    rw [himgU, World.img?_setImg_ne _ _ _ _ _ _ (fun hc => hkH hc.2.symm), himgA]
    simp [hHn]
  simp only [HeapFile.headerPage, hh2] at hx
  generalize hw2 : wu.setImg s.filePtr new (PageImage.data (Page.init new)) = w2 at *
  have hHS2 : (w2.img? s.filePtr s.headerPageNo).isSome :=
    World.img?_isSome_of_hdr? w2 _ _ h hh2
  have hnS2 : (w2.img? s.filePtr new).isSome := by
    rw [← hw2, World.img?_setImg]; simp [hnS]
  have hnp : (w2.setImg s.filePtr s.headerPageNo (PageImage.header
      { h with pageCnt := h.pageCnt + 1, lastPage := new })).page? s.filePtr new
      = some (Page.init new) := by
    rw [World.page?_setImg_ne _ _ _ _ _ _ (fun hc => hHn hc.2.symm), ← hw2]
    exact World.page?_setImg_same wu _ _ _ hnS
  simp only [HeapFile.curPageData, hnp] at hx
  generalize hw3 : w2.setImg s.filePtr s.headerPageNo (PageImage.header
      { h with pageCnt := h.pageCnt + 1, lastPage := new }) = w3 at *
  have hh3 : w3.hdr? s.filePtr s.headerPageNo
      = some { h with pageCnt := h.pageCnt + 1, lastPage := new } := by
    rw [← hw3]; exact World.hdr?_setImg_same w2 _ _ _ hHS2
  have hnS3 : (w3.img? s.filePtr new).isSome := World.img?_isSome_of_page? w3 _ _ _ hnp
  have hh4 : (w3.setImg s.filePtr new
      (PageImage.data ((Page.init new).insertRecord L rec).2.2)).hdr? s.filePtr s.headerPageNo
      = some { h with pageCnt := h.pageCnt + 1, lastPage := new } := by
    rw [World.hdr?_setImg_ne _ _ _ _ _ _ (fun hc => hHn hc.2), hh3]
  obtain ⟨f1, f2, f3, f4, f5, f6, f7, f8⟩ := InsertFileScan.finish_hdr _ _
      ⟨⟨s.filePtr, s.headerPageNo, s.hdrDirtyFlag, some new, new, false, s.curRec⟩⟩ _ _ x hh4 hx
  refine ⟨f1, f2, f3, f4, f5, hfresh, ?_, ?_, ?_, ?_, ?_⟩
  · rw [f6, f1]
  · rw [World.page?_congr _ _ _ _ (f7 _ _ (fun hc => hkH hc.2)),
      World.page?_setImg_ne _ _ _ _ _ _ (fun hc => hkn hc.2), ← hw3,
      World.page?_setImg_ne _ _ _ _ _ _ (fun hc => hkH hc.2), ← hw2,
      World.page?_setImg_ne _ _ _ _ _ _ (fun hc => hkn hc.2)]
    apply (World.page?_congr _ _ _ _ (himgU _ _)).trans
    exact World.page?_setImg_same wa _ _ _ (World.img?_isSome_of_page? wa _ _ _ hqa)
  · rw [World.page?_congr _ _ _ _ (f7 _ _ (fun hc => hHn hc.2.symm))]
    exact World.page?_setImg_same w3 _ _ _ hnS3
  · intro F' k' hne
    have n1 : ¬ (F' = s.filePtr ∧ k' = s.headerPageNo) := fun hc => hne ⟨hc.1, Or.inr (Or.inr hc.2)⟩
    have n2 : ¬ (F' = s.filePtr ∧ k' = new) := fun hc => hne ⟨hc.1, Or.inr (Or.inl hc.2)⟩
    have n3 : ¬ (F' = s.filePtr ∧ k' = k) := fun hc => hne ⟨hc.1, Or.inl hc.2⟩
    rw [f7 _ _ n1, World.img?_setImg_ne _ _ _ _ _ _ n2, ← hw3,
      World.img?_setImg_ne _ _ _ _ _ _ n1, ← hw2, World.img?_setImg_ne _ _ _ _ _ _ n2,
      himgU, World.img?_setImg_ne _ _ _ _ _ _ n3, himgA, if_neg n2]
  · intro hok
    rw [f1] at hok
    exact f8 hok

/-- The header's record count across the `NOSPACE` branch, whatever the
outcome of its buffer-pool calls. -/
theorem InsertFileScan.grow_hdr (L : PageLayout) (s : InsertFileScan) (w : World) (k : Int)
    (rec : Record) (h : FileHdrPage) (p : Page)
    (x : Status × Option RID × InsertFileScan × World)
    (hh : w.hdr? s.filePtr s.headerPageNo = some h) (hp : w.page? s.filePtr k = some p)
    (hx : InsertFileScan.grow L s w k rec = some x) :
    x.2.2.1.filePtr = s.filePtr ∧ x.2.2.1.headerPageNo = s.headerPageNo ∧
    ∃ h', x.2.2.2.hdr? s.filePtr s.headerPageNo = some h' ∧
      h'.recCnt = h.recCnt + (if x.1 = Status.OK then 1 else 0) := by
  by_cases ha : (bufMgr.allocPage w s.filePtr).1 = Status.OK
  · by_cases hu : (bufMgr.unPinPage ((bufMgr.allocPage w s.filePtr).2.2.2.setImg s.filePtr k
        (PageImage.data (p.setNextPage (bufMgr.allocPage w s.filePtr).2.1)))
        s.filePtr s.curPageNo s.curDirtyFlag).1 = Status.OK
    · obtain ⟨_, f2, f3, _, _, _, f7, _⟩ := InsertFileScan.grow_ok L s w k rec h p x hh hp ha hu hx
      exact ⟨f2, f3, _, f7, rfl⟩
    · obtain ⟨_, hA⟩ := bufMgr.allocPage_spec w s.filePtr
      obtain ⟨hptr, hfresh, himgA⟩ := hA ha
      have hkS := World.img?_isSome_of_page? w _ _ p hp
      have hHS := World.img?_isSome_of_hdr? w _ _ h hh
      have hkH : k ≠ s.headerPageNo := World.page?_hdr?_ne w _ _ _ p h hp hh
      have hkn : k ≠ (bufMgr.allocPage w s.filePtr).2.1 := by
        intro e; rw [e, hfresh] at hkS; cases hkS
      have hHn : s.headerPageNo ≠ (bufMgr.allocPage w s.filePtr).2.1 := by
        intro e; rw [e, hfresh] at hHS; cases hHS
      have hqa : (bufMgr.allocPage w s.filePtr).2.2.2.page? s.filePtr k = some p := by
        rw [← hp]; apply World.page?_congr
        rw [himgA]; simp [hkn]
      unfold InsertFileScan.grow at hx
      simp only [ha, hptr, hqa, ne_eq, not_true_eq_false, if_false] at hx
      rw [if_pos hu] at hx
      simp only [Option.some.injEq] at hx
      subst hx
      refine ⟨rfl, rfl, h, ?_, ?_⟩
      · simp only []
        rw [← hh]
        apply World.hdr?_congr
        rw [bufMgr.unPinPage_img?, World.img?_setImg_ne _ _ _ _ _ _ (fun hc => hkH hc.2.symm),
          himgA]
        simp [hHn]
      · simp [hu]
  · obtain ⟨hA, _⟩ := bufMgr.allocPage_spec w s.filePtr
    unfold InsertFileScan.grow at hx
    simp only [ne_eq, ha, not_false_eq_true, if_true, Option.some.injEq] at hx
    subst hx
    refine ⟨rfl, rfl, h, ?_, ?_⟩
    · simp only []
      rw [← hh]
      exact World.hdr?_congr _ _ _ _ (hA ha _ _)
    · simp [ha]

/-- The header's record count across the tail of `insertRecord`. -/
theorem InsertFileScan.insertTail_hdr (L : PageLayout) (s : InsertFileScan) (w : World)
    (rec : Record) (h : FileHdrPage) (x : Status × Option RID × InsertFileScan × World)
    (hh : w.hdr? s.filePtr s.headerPageNo = some h)
    (hx : InsertFileScan.insertTail L s w rec = some x) :
    x.2.2.1.filePtr = s.filePtr ∧ x.2.2.1.headerPageNo = s.headerPageNo ∧
    ∃ h', x.2.2.2.hdr? s.filePtr s.headerPageNo = some h' ∧
      h'.recCnt = h.recCnt + (if x.1 = Status.OK then 1 else 0) := by
  unfold InsertFileScan.insertTail at hx
  cases hcp : s.curPage with
  | none => simp [hcp] at hx
  | some k =>
    cases hp : s.curPageData w with
    | none => simp [hcp, hp] at hx
    | some p =>
      have hp' : w.page? s.filePtr k = some p := by
        simpa [HeapFile.curPageData, hcp] using hp
      have hkH : k ≠ s.headerPageNo := World.page?_hdr?_ne w _ _ _ p h hp' hh
      have hkS := World.img?_isSome_of_page? w _ _ p hp'
      simp only [hcp, hp] at hx
      have hh0 : (w.setImg s.filePtr k (PageImage.data (p.insertRecord L rec).2.2)).hdr?
          s.filePtr s.headerPageNo = some h := by
        rw [World.hdr?_setImg_ne _ _ _ _ _ _ (fun hc => hkH hc.2.symm)]; exact hh
      have hp0 : (w.setImg s.filePtr k (PageImage.data (p.insertRecord L rec).2.2)).page?
          s.filePtr k = some (p.insertRecord L rec).2.2 := World.page?_setImg_same w _ _ _ hkS
      by_cases hns : (p.insertRecord L rec).1 = Status.NOSPACE
      · rw [if_pos hns] at hx
        exact InsertFileScan.grow_hdr L s _ k rec h _ x hh0 hp0 hx
      · rw [if_neg hns] at hx
        obtain ⟨f1, f2, f3, _, _, f6, _, _⟩ := InsertFileScan.finish_hdr _ _ s _ h x hh0 hx
        exact ⟨f2, f3, _, f6, by rw [f1]⟩

/-- The header's record count across `insertRecord`: it grows by one exactly
when the call returns `OK`. -/
theorem InsertFileScan.insertRecord_hdr (L : PageLayout) (s : InsertFileScan) (w : World)
    (rec : Record) (h : FileHdrPage) (x : Status × Option RID × InsertFileScan × World)
    (hh : w.hdr? s.filePtr s.headerPageNo = some h)
    (hx : s.insertRecord L w rec = some x) :
    x.2.2.1.filePtr = s.filePtr ∧ x.2.2.1.headerPageNo = s.headerPageNo ∧
    ∃ h', x.2.2.2.hdr? s.filePtr s.headerPageNo = some h' ∧
      h'.recCnt = h.recCnt + (if x.1 = Status.OK then 1 else 0) := by
  unfold InsertFileScan.insertRecord at hx
  by_cases hlen : rec.length > (L.PAGESIZE : Int) - (L.DPFIXED : Int)
  · rw [if_pos hlen] at hx
    simp only [Option.some.injEq] at hx
    subst hx
    exact ⟨rfl, rfl, h, hh, by simp⟩
  · rw [if_neg hlen] at hx
    simp only [HeapFile.headerPage, hh] at hx
    by_cases hl : h.lastPage ≠ s.curPageNo
    · rw [if_pos hl] at hx
      have hhu : (bufMgr.unPinPage w s.filePtr s.curPageNo s.curDirtyFlag).2.hdr?
          s.filePtr s.headerPageNo = some h := by
        rw [← hh]; exact World.hdr?_congr _ _ _ _ (bufMgr.unPinPage_img? _ _ _ _ _ _)
      by_cases hu : (bufMgr.unPinPage w s.filePtr s.curPageNo s.curDirtyFlag).1 ≠ Status.OK
      · rw [if_pos hu] at hx
        simp only [Option.some.injEq] at hx
        subst hx
        exact ⟨rfl, rfl, h, hhu, by simp [hu]⟩
      · rw [if_neg hu] at hx
        simp only [hhu] at hx
        have hhr : (bufMgr.readPage (bufMgr.unPinPage w s.filePtr s.curPageNo s.curDirtyFlag).2
            s.filePtr h.lastPage s.curPage).2.2.hdr? s.filePtr s.headerPageNo = some h := by
          rw [← hhu]; exact World.hdr?_congr _ _ _ _ (bufMgr.readPage_img? _ _ _ _ _ _)
        by_cases hr : (bufMgr.readPage (bufMgr.unPinPage w s.filePtr s.curPageNo
            s.curDirtyFlag).2 s.filePtr h.lastPage s.curPage).1 ≠ Status.OK
        · rw [if_pos hr] at hx
          simp only [Option.some.injEq] at hx
          subst hx
          exact ⟨rfl, rfl, h, hhr, by simp [hr]⟩
        · rw [if_neg hr] at hx
          simp only [hhr] at hx
          exact InsertFileScan.insertTail_hdr L
            ⟨⟨s.filePtr, s.headerPageNo, s.hdrDirtyFlag,
              (bufMgr.readPage (bufMgr.unPinPage w s.filePtr s.curPageNo s.curDirtyFlag).2
                s.filePtr h.lastPage s.curPage).2.1, h.lastPage, false, s.curRec⟩⟩
            _ rec h x hhr hx
    · rw [if_neg hl] at hx
      exact InsertFileScan.insertTail_hdr L s w rec h x hh hx

/-- `scanNext`'s loop changes no page contents and keeps the file handle and
the header page number. -/
theorem HeapFileScan.scanLoop_img? :
    ∀ (fuel : Nat) (s : HeapFileScan) (w : World) (tmp : RID)
      (x : Status × Option RID × HeapFileScan × World),
      s.scanLoop fuel w tmp = some x →
      (∀ F k, x.2.2.2.img? F k = w.img? F k) ∧ x.2.2.1.filePtr = s.filePtr ∧
        x.2.2.1.headerPageNo = s.headerPageNo := by
  intro fuel
  induction fuel with
  | zero => intro s w tmp x hx; simp [HeapFileScan.scanLoop] at hx
  | succ fuel ih =>
    intro s w tmp x hx
    unfold HeapFileScan.scanLoop at hx
    cases hp : s.curPageData w with
    | none => simp [hp] at hx
    | some p =>
      simp only [hp] at hx
      cases hnr : p.nextRecord tmp with
      | none =>
        simp only [hnr] at hx
        by_cases he : p.getNextPage = -1
        · simp only [he, if_true, Option.some.injEq] at hx
          subst hx
          exact ⟨fun _ _ => rfl, rfl, rfl⟩
        · have hne : Status.OK ≠ Status.NORECORDS := by decide
          simp only [he, if_false, hne, ne_eq, not_false_eq_true, if_true] at hx
          obtain ⟨h1, h2, h3⟩ := ih _ _ _ x hx
          refine ⟨fun F k => ?_, h2, h3⟩
          rw [h1, bufMgr.readPage_img?, bufMgr.unPinPage_img?]
      | some r =>
        simp only [hnr] at hx
        cases hg : (p.getRecord r).2 with
        | none => simp [hg] at hx
        | some rec =>
          simp only [hg] at hx
          cases hm : s.matchRec rec with
          | none => simp [hm] at hx
          | some b =>
            cases b with
            | true =>
              simp only [hm, Option.some.injEq] at hx
              subst hx
              exact ⟨fun _ _ => rfl, rfl, rfl⟩
            | false =>
              simp only [hm] at hx
              exact ih _ _ _ x hx

theorem HeapFileScan.scanNext_img? (fuel : Nat) (s : HeapFileScan) (w : World)
    (x : Status × Option RID × HeapFileScan × World) (hx : s.scanNext fuel w = some x) :
    (∀ F k, x.2.2.2.img? F k = w.img? F k) ∧ x.2.2.1.filePtr = s.filePtr ∧
      x.2.2.1.headerPageNo = s.headerPageNo :=
  HeapFileScan.scanLoop_img? fuel s.markScan w _ x hx

theorem HeapFileScan.resetScan_img? (s : HeapFileScan) (w : World) :
    (∀ F k, (s.resetScan w).2.2.img? F k = w.img? F k) ∧
      (s.resetScan w).2.1.filePtr = s.filePtr ∧
      (s.resetScan w).2.1.headerPageNo = s.headerPageNo := by
  unfold HeapFileScan.resetScan
  by_cases hm : s.markedPageNo ≠ s.curPageNo
  · rw [if_pos hm]
    simp only []
    have hu : ∀ F k, (if s.curPage ≠ none then
        bufMgr.unPinPage w s.filePtr s.curPageNo s.curDirtyFlag else (Status.OK, w)).2.img? F k
        = w.img? F k := by
      intro F k
      split
      · exact bufMgr.unPinPage_img? _ _ _ _ _ _
      · rfl
    generalize (if s.curPage ≠ none then
        bufMgr.unPinPage w s.filePtr s.curPageNo s.curDirtyFlag else (Status.OK, w)) = u at hu ⊢
    by_cases h1 : u.1 ≠ Status.OK
    · rw [if_pos h1]
      exact ⟨hu, rfl, rfl⟩
    · rw [if_neg h1]
      by_cases h2 : (bufMgr.readPage u.2 s.filePtr s.markedPageNo s.curPage).1 ≠ Status.OK
      · rw [if_pos h2]
        refine ⟨fun F k => ?_, rfl, rfl⟩
        simp only []
        rw [bufMgr.readPage_img?, hu]
      · rw [if_neg h2]
        refine ⟨fun F k => ?_, rfl, rfl⟩
        simp only []
        rw [bufMgr.readPage_img?, hu]
  · rw [if_neg hm]
    exact ⟨fun _ _ => rfl, rfl, rfl⟩

theorem HeapFile.getRecord_img? (s : HeapFile) (w : World) (rid : RID)
    (x : Status × Option Record × HeapFile × World) (hx : s.getRecord w rid = some x) :
    (∀ F k, x.2.2.2.img? F k = w.img? F k) ∧ x.2.2.1.filePtr = s.filePtr ∧
      x.2.2.1.headerPageNo = s.headerPageNo := by
  unfold HeapFile.getRecord at hx
  by_cases hr : rid.pageNo = s.curPageNo
  · rw [if_pos hr] at hx
    cases hp : s.curPageData w with
    | none => simp [hp] at hx
    | some p =>
      simp only [hp, Option.some.injEq] at hx
      subst hx
      exact ⟨fun _ _ => rfl, rfl, rfl⟩
  · rw [if_neg hr] at hx
    simp only [] at hx
    by_cases hu : (bufMgr.unPinPage w s.filePtr s.curPageNo s.curDirtyFlag).1 = Status.OK
    · rw [if_pos hu] at hx
      by_cases hrd : (bufMgr.readPage (bufMgr.unPinPage w s.filePtr s.curPageNo s.curDirtyFlag).2
          s.filePtr rid.pageNo s.curPage).1 = Status.OK
      · rw [if_pos hrd] at hx
        split at hx
        · cases hx
        · simp only [Option.some.injEq] at hx
          subst hx
          refine ⟨fun F k => ?_, rfl, rfl⟩
          simp only []
          rw [bufMgr.readPage_img?, bufMgr.unPinPage_img?]
      · rw [if_neg hrd] at hx
        simp only [Option.some.injEq] at hx
        subst hx
        refine ⟨fun F k => ?_, rfl, rfl⟩
        simp only []
        rw [bufMgr.readPage_img?, bufMgr.unPinPage_img?]
    · rw [if_neg hu] at hx
      simp only [Option.some.injEq] at hx
      subst hx
      exact ⟨fun F k => bufMgr.unPinPage_img? _ _ _ _ _ _, rfl, rfl⟩

/-- The header's record count across `HeapFileScan::deleteRecord`: it drops by
one, whatever status the page reports. -/
theorem HeapFileScan.deleteRecord_hdr (s : HeapFileScan) (w : World) (h : FileHdrPage)
    (x : Status × HeapFileScan × World)
    (hh : w.hdr? s.filePtr s.headerPageNo = some h) (hx : s.deleteRecord w = some x) :
    x.2.1.filePtr = s.filePtr ∧ x.2.1.headerPageNo = s.headerPageNo ∧
    x.2.1.hdrDirtyFlag = true ∧
    x.2.2.hdr? s.filePtr s.headerPageNo = some { h with recCnt := h.recCnt - 1 } := by
  unfold HeapFileScan.deleteRecord at hx
  cases hcp : s.curPage with
  | none => simp [hcp] at hx
  | some k =>
    cases hp : s.curPageData w with
    | none => simp [hcp, hp] at hx
    | some p =>
      have hp' : w.page? s.filePtr k = some p := by
        simpa [HeapFile.curPageData, hcp] using hp
      have hkH : k ≠ s.headerPageNo := World.page?_hdr?_ne w _ _ _ p h hp' hh
      have hh0 : (w.setImg s.filePtr k (PageImage.data (p.deleteRecord s.curRec).2)).hdr?
          s.filePtr s.headerPageNo = some h := by
        rw [World.hdr?_setImg_ne _ _ _ _ _ _ (fun hc => hkH hc.2.symm)]; exact hh
      simp only [hcp, hp, HeapFile.headerPage, hh0, Option.some.injEq] at hx
      subst hx
      refine ⟨rfl, rfl, rfl, ?_⟩
      exact World.hdr?_setImg_same _ _ _ _ (World.img?_isSome_of_hdr? _ _ _ h hh0)

/-- One client call changes the header's record count by `recDelta`. -/
theorem Call.run_hdr (L : PageLayout) (fuel : Nat) (c : Call) (ss : Sessions) (w : World)
    (F : String) (H : Int) (h : FileHdrPage)
    (x : Status × Option RID × Sessions × World)
    (hsF : ss.scan.filePtr = F) (hsH : ss.scan.headerPageNo = H)
    (hiF : ss.ins.filePtr = F) (hiH : ss.ins.headerPageNo = H)
    (hh : w.hdr? F H = some h) (hx : c.run L fuel ss w = some x) :
    x.2.2.1.scan.filePtr = F ∧ x.2.2.1.scan.headerPageNo = H ∧
    x.2.2.1.ins.filePtr = F ∧ x.2.2.1.ins.headerPageNo = H ∧
    ∃ h', x.2.2.2.hdr? F H = some h' ∧ h'.recCnt = h.recCnt + recDelta c x.1 := by
  cases c with
  | startScan offset length type filter op =>
    simp only [Call.run, Option.some.injEq] at hx
    subst hx
    refine ⟨?_, ?_, hiF, hiH, h, hh, by simp [recDelta]⟩
    · rw [← hsF]; unfold HeapFileScan.startScan
      cases filter with
      | none => rfl
      | some flt => simp only []; split <;> rfl
    · rw [← hsH]; unfold HeapFileScan.startScan
      cases filter with
      | none => rfl
      | some flt => simp only []; split <;> rfl
  | scanNext =>
    simp only [Call.run, Option.map_eq_some'] at hx
    obtain ⟨r, hr, rfl⟩ := hx
    obtain ⟨h1, h2, h3⟩ := HeapFileScan.scanNext_img? fuel ss.scan w r hr
    refine ⟨h2.trans hsF, h3.trans hsH, hiF, hiH, h, ?_, by simp [recDelta]⟩
    rw [← hh]; exact World.hdr?_congr _ _ _ _ (h1 _ _)
  | markScan =>
    simp only [Call.run, Option.some.injEq] at hx
    subst hx
    exact ⟨hsF, hsH, hiF, hiH, h, hh, by simp [recDelta]⟩
  | resetScan =>
    simp only [Call.run, Option.some.injEq] at hx
    subst hx
    obtain ⟨h1, h2, h3⟩ := HeapFileScan.resetScan_img? ss.scan w
    refine ⟨h2.trans hsF, h3.trans hsH, hiF, hiH, h, ?_, by simp [recDelta]⟩
    rw [← hh]; exact World.hdr?_congr _ _ _ _ (h1 _ _)
  | markDirty =>
    simp only [Call.run, Option.some.injEq] at hx
    subst hx
    exact ⟨hsF, hsH, hiF, hiH, h, hh, by simp [recDelta]⟩
  | deleteRecord =>
    simp only [Call.run, Option.map_eq_some'] at hx
    obtain ⟨r, hr, rfl⟩ := hx
    have hh' : w.hdr? ss.scan.filePtr ss.scan.headerPageNo = some h := by rw [hsF, hsH]; exact hh
    obtain ⟨h1, h2, _, h4⟩ := HeapFileScan.deleteRecord_hdr ss.scan w h r hh' hr
    rw [hsF, hsH] at h4
    exact ⟨h1.trans hsF, h2.trans hsH, hiF, hiH, _, h4, by simp [recDelta]; ring⟩
  | scanGetRecord =>
    simp only [Call.run, Option.map_eq_some'] at hx
    obtain ⟨r, _, rfl⟩ := hx
    exact ⟨hsF, hsH, hiF, hiH, h, hh, by simp [recDelta]⟩
  | getRecord rid =>
    simp only [Call.run, Option.map_eq_some'] at hx
    obtain ⟨r, hr, rfl⟩ := hx
    obtain ⟨h1, h2, h3⟩ := HeapFile.getRecord_img? ss.scan.toHeapFile w rid r hr
    refine ⟨h2.trans hsF, h3.trans hsH, hiF, hiH, h, ?_, by simp [recDelta]⟩
    rw [← hh]; exact World.hdr?_congr _ _ _ _ (h1 _ _)
  | insertRecord rec =>
    simp only [Call.run, Option.map_eq_some'] at hx
    obtain ⟨r, hr, rfl⟩ := hx
    have hh' : w.hdr? ss.ins.filePtr ss.ins.headerPageNo = some h := by rw [hiF, hiH]; exact hh
    obtain ⟨h1, h2, h', h3, h4⟩ := InsertFileScan.insertRecord_hdr L ss.ins w rec h r hh' hr
    rw [hiF, hiH] at h3
    exact ⟨hsF, hsH, h1.trans hiF, h2.trans hiH, h', h3, by simp only [recDelta]; exact h4⟩

/-- A run of client calls changes the header's record count by the sum of the
`recDelta` of its calls. -/
theorem runCalls_hdr (L : PageLayout) (fuel : Nat) (F : String) (H : Int) :
    ∀ (cs : List Call) (ss : Sessions) (w : World) (h : FileHdrPage)
      (x : List (Call × Status × Option RID) × Sessions × World),
      ss.scan.filePtr = F → ss.scan.headerPageNo = H → ss.ins.filePtr = F →
      ss.ins.headerPageNo = H → w.hdr? F H = some h → runCalls L fuel cs ss w = some x →
      x.2.1.scan.filePtr = F ∧ x.2.1.scan.headerPageNo = H ∧
      x.2.1.ins.filePtr = F ∧ x.2.1.ins.headerPageNo = H ∧
      ∃ h', x.2.2.hdr? F H = some h' ∧
        h'.recCnt = h.recCnt + (x.1.map fun y => recDelta y.1 y.2.1).sum
  | [], ss, w, h, x, hsF, hsH, hiF, hiH, hh, hx => by
    simp only [runCalls, Option.some.injEq] at hx
    subst hx
    exact ⟨hsF, hsH, hiF, hiH, h, hh, by simp⟩
  | c :: cs, ss, w, h, x, hsF, hsH, hiF, hiH, hh, hx => by
    unfold runCalls at hx
    cases hc : c.run L fuel ss w with
    | none => simp [hc] at hx
    | some y =>
      simp only [hc, Option.map_eq_some'] at hx
      obtain ⟨z, hz, rfl⟩ := hx
      obtain ⟨a1, a2, a3, a4, h1, a5, a6⟩ := Call.run_hdr L fuel c ss w F H h y hsF hsH hiF hiH hh hc
      obtain ⟨b1, b2, b3, b4, h2, b5, b6⟩ :=
        runCalls_hdr L fuel F H cs y.2.2.1 y.2.2.2 h1 z a1 a2 a3 a4 a5 hz
      refine ⟨b1, b2, b3, b4, h2, b5, ?_⟩
      simp only [List.map_cons, List.sum_cons]
      rw [b6, a6]; ring

theorem recDelta_sum (rs : List (Call × Status × Option RID)) :
    (rs.map fun y => recDelta y.1 y.2.1).sum = (okInserts rs : Int) - (deleteCalls rs : Int) := by
  induction rs with
  | nil => simp [okInserts, deleteCalls]
  | cons y rs ih =>
    simp only [List.map_cons, List.sum_cons, ih, okInserts, deleteCalls, List.filter_cons]
    obtain ⟨c, st, rid⟩ := y
    cases c <;> simp [recDelta]
    · ring
    · split
      · simp only [List.length_cons]; push_cast; ring
      · ring

/-- C6: for a scan session and an insert session open on the same heap file
whose header holds the record count `h.recCnt` (0 for a newly created file),
after any sequence of client calls that runs to completion `getRecCnt` returns
`h.recCnt + N - M`, where `N` is the number of `insertRecord` calls that
returned `OK` and `M` the number of `deleteRecord` calls: every `OK` insert
adds exactly one, every delete subtracts exactly one, and `startScan`,
`scanNext`, `getRecord`, `markScan`, `resetScan` and `markDirty` (and an
`insertRecord` that fails) leave the count unchanged. -/
theorem getRecCnt_counts_inserts_minus_deletes (L : PageLayout) (fuel : Nat) (cs : List Call)
    (ss : Sessions) (w : World) (h : FileHdrPage)
    (x : List (Call × Status × Option RID) × Sessions × World)
    (hF : ss.scan.filePtr = ss.ins.filePtr)
    (hH : ss.scan.headerPageNo = ss.ins.headerPageNo)
    (hh : ss.ins.headerPage w = some h)
    (hx : runCalls L fuel cs ss w = some x) :
    x.2.1.ins.getRecCnt x.2.2 = some (h.recCnt + (okInserts x.1 : Int) - (deleteCalls x.1 : Int)) ∧
    x.2.1.scan.getRecCnt x.2.2 = some (h.recCnt + (okInserts x.1 : Int) - (deleteCalls x.1 : Int)) := by
  obtain ⟨b1, b2, b3, b4, h', b5, b6⟩ :=
    runCalls_hdr L fuel ss.ins.filePtr ss.ins.headerPageNo cs ss w h x hF hH rfl rfl hh hx
  rw [recDelta_sum] at b6
  have e : h'.recCnt = h.recCnt + (okInserts x.1 : Int) - (deleteCalls x.1 : Int) := by
    rw [b6]; ring
  constructor
  · simp only [HeapFile.getRecCnt, HeapFile.headerPage, b3, b4, b5, Option.map_some', e]
  · simp only [HeapFile.getRecCnt, HeapFile.headerPage, b1, b2, b5, Option.map_some', e]

/-- Witness of C6, the end-to-end run on the newly created file "T1": five
`OK` insertions and one deletion leave `getRecCnt = 4`. -/
theorem getRecCnt_counts_inserts_minus_deletes_witness :
    exSessions.ins.headerPage exOpenWorld = some ⟨"T1", 1, 1, 1, 0⟩ ∧
    okInserts exRun.1 = 5 ∧ deleteCalls exRun.1 = 1 ∧
    exRun.2.1.ins.getRecCnt exRun.2.2 = some (0 + (5 : Nat) - (1 : Nat)) ∧
    exRun.2.1.scan.getRecCnt exRun.2.2 = some (0 + (5 : Nat) - (1 : Nat)) :=
  ⟨by decide, by decide, by decide,
    getRecCnt_counts_inserts_minus_deletes exLayout 8 exCalls exSessions exOpenWorld
      ⟨"T1", 1, 1, 1, 0⟩ exRun (by decide) (by decide) (by decide) rfl⟩

theorem Page.insertRecord_status (L : PageLayout) (p : Page) (rec : Record) :
    (p.insertRecord L rec).1 = Status.OK ∨
      ((p.insertRecord L rec).1 = Status.NOSPACE ∧ (p.insertRecord L rec).2.2 = p) := by
  unfold Page.insertRecord
  split
  · exact Or.inl rfl
  · exact Or.inr ⟨rfl, rfl⟩

theorem Page.insertRecord_ok (L : PageLayout) (p : Page) (rec : Record)
    (h : (p.insertRecord L rec).1 = Status.OK) :
    (p.insertRecord L rec).2.1 = some ⟨p.curPage, p.slots.length⟩ ∧
    (p.insertRecord L rec).2.2 = { p with slots := p.slots ++ [some rec.data] } ∧
    (p.insertRecord L rec).2.2.getRecord ⟨p.curPage, p.slots.length⟩ = (Status.OK, some rec) := by
  unfold Page.insertRecord at h ⊢
  split at h
  · rename_i hs
    simp only [hs, if_true, true_and]
    simp [Page.getRecord, Page.slot?]
  · cases h

theorem bufMgr.readPage_ptr (w : World) (F : String) (k : Int) (pg : Option Int)
    (h : (bufMgr.readPage w F k pg).1 = Status.OK) : (bufMgr.readPage w F k pg).2.1 = some k := by
  unfold bufMgr.readPage at h ⊢
  simp only [] at h ⊢
  split
  · rename_i hf
    rw [if_pos hf] at h
    exact absurd h hf
  · rename_i hf
    rw [if_neg hf] at h
    cases hfr : w.nextFault.2.frame? F k with
    | none => rw [hfr] at h; cases h
    | some fr => rfl

/-- The three ways the `NOSPACE` branch can end. -/
theorem InsertFileScan.grow_cases (L : PageLayout) (s : InsertFileScan) (w : World) (k : Int)
    (rec : Record) (p : Page)
    (x : Status × Option RID × InsertFileScan × World)
    (hp : w.page? s.filePtr k = some p)
    (hx : InsertFileScan.grow L s w k rec = some x) :
    (x.1 ≠ Status.OK ∧ x.2.2.1 = s) ∨
    ((bufMgr.allocPage w s.filePtr).1 = Status.OK ∧
      (bufMgr.unPinPage ((bufMgr.allocPage w s.filePtr).2.2.2.setImg s.filePtr k
        (PageImage.data (p.setNextPage (bufMgr.allocPage w s.filePtr).2.1)))
        s.filePtr s.curPageNo s.curDirtyFlag).1 = Status.OK) := by
  by_cases ha : (bufMgr.allocPage w s.filePtr).1 = Status.OK
  · by_cases hu : (bufMgr.unPinPage ((bufMgr.allocPage w s.filePtr).2.2.2.setImg s.filePtr k
        (PageImage.data (p.setNextPage (bufMgr.allocPage w s.filePtr).2.1)))
        s.filePtr s.curPageNo s.curDirtyFlag).1 = Status.OK
    · exact Or.inr ⟨ha, hu⟩
    · left
      obtain ⟨_, hA⟩ := bufMgr.allocPage_spec w s.filePtr
      obtain ⟨hptr, hfresh, himgA⟩ := hA ha
      have hkS := World.img?_isSome_of_page? w _ _ p hp
      have hkn : k ≠ (bufMgr.allocPage w s.filePtr).2.1 := by
        intro e; rw [e, hfresh] at hkS; cases hkS
      have hqa : (bufMgr.allocPage w s.filePtr).2.2.2.page? s.filePtr k = some p := by
        rw [← hp]; apply World.page?_congr
        rw [himgA]; simp [hkn]
      unfold InsertFileScan.grow at hx
      simp only [ha, hptr, hqa, ne_eq, not_true_eq_false, if_false] at hx
      rw [if_pos hu] at hx
      simp only [Option.some.injEq] at hx
      subst hx
      exact ⟨hu, rfl⟩
  · left
    unfold InsertFileScan.grow at hx
    simp only [ne_eq, ha, not_false_eq_true, if_true, Option.some.injEq] at hx
    subst hx
    exact ⟨ha, rfl⟩

/-- After the tail of `insertRecord` returned `OK` with the RID `r`, the
session's current page is the page `r.pageNo` and holds `rec` in slot
`r.slotNo`. -/
theorem InsertFileScan.insertTail_get (L : PageLayout) (s : InsertFileScan) (w : World)
    (rec : Record) (h : FileHdrPage) (r : RID) (s' : InsertFileScan) (w' : World)
    (hh : w.hdr? s.filePtr s.headerPageNo = some h)
    (hcp : s.curPage = some s.curPageNo)
    (hid : ∀ p, w.page? s.filePtr s.curPageNo = some p → p.curPage = s.curPageNo)
    (hx : InsertFileScan.insertTail L s w rec = some (Status.OK, some r, s', w')) :
    r.pageNo = s'.curPageNo ∧
    ∃ p', s'.curPageData w' = some p' ∧ p'.getRecord r = (Status.OK, some rec) := by
  unfold InsertFileScan.insertTail at hx
  cases hp : s.curPageData w with
  | none => simp [hcp, hp] at hx
  | some p =>
    have hp' : w.page? s.filePtr s.curPageNo = some p := by
      simpa [HeapFile.curPageData, hcp] using hp
    have hpid := hid p hp'
    have hkH : s.curPageNo ≠ s.headerPageNo := World.page?_hdr?_ne w _ _ _ p h hp' hh
    have hkS := World.img?_isSome_of_page? w _ _ p hp'
    simp only [hcp, hp] at hx
    have hh0 : (w.setImg s.filePtr s.curPageNo (PageImage.data (p.insertRecord L rec).2.2)).hdr?
        s.filePtr s.headerPageNo = some h := by
      rw [World.hdr?_setImg_ne _ _ _ _ _ _ (fun hc => hkH hc.2.symm)]; exact hh
    have hp0 : (w.setImg s.filePtr s.curPageNo (PageImage.data (p.insertRecord L rec).2.2)).page?
        s.filePtr s.curPageNo = some (p.insertRecord L rec).2.2 :=
      World.page?_setImg_same w _ _ _ hkS
    by_cases hns : (p.insertRecord L rec).1 = Status.NOSPACE
    · rw [if_pos hns] at hx
      rcases InsertFileScan.grow_cases L s _ _ rec _ _ hp0 hx with hc | ⟨ha, hu⟩
      · exact absurd rfl hc.1
      · obtain ⟨g1, g2, _, g4, g5, _, _, _, g9, _, g11⟩ :=
          InsertFileScan.grow_ok L s _ _ rec h _ _ hh0 hp0 ha hu hx
        simp only [] at g1 g2 g4 g5 g9 g11
        generalize (bufMgr.allocPage (w.setImg s.filePtr s.curPageNo
            (PageImage.data (p.insertRecord L rec).2.2)) s.filePtr).2.1 = new at g1 g4 g5 g9 g11
        obtain ⟨i1, i2, i3⟩ := Page.insertRecord_ok L _ rec g1.symm
        have e : some r = some (⟨(Page.init new).curPage, (Page.init new).slots.length⟩ : RID) := by
          rw [← i1]; exact g11 trivial
        have e' := Option.some.inj e
        refine ⟨?_, ((Page.init new).insertRecord L rec).2.2, ?_, ?_⟩
        · rw [g5, e']; rfl
        · simp only [HeapFile.curPageData, g4, g2]
          exact g9
        · rw [e']; exact i3
    · rw [if_neg hns] at hx
      obtain ⟨f1, f2, _, f4, f5, _, f7, f8⟩ := InsertFileScan.finish_hdr _ _ s _ h _ hh0 hx
      simp only [] at f1 f2 f4 f5 f7 f8
      obtain ⟨i1, i2, i3⟩ := Page.insertRecord_ok L p rec f1.symm
      have e : some r = some (⟨p.curPage, p.slots.length⟩ : RID) := by
        rw [← i1]; exact f8 f1.symm
      have e' := Option.some.inj e
      refine ⟨?_, (p.insertRecord L rec).2.2, ?_, ?_⟩
      · rw [f5, e', hpid]
      · simp only [HeapFile.curPageData, f4, hcp, f2]
        rw [World.page?_congr _ _ _ _ (f7 _ _ (fun hc => hkH hc.2))]
        exact hp0
      · rw [e']; exact i3

theorem World.pinCnt_setFrame (w : World) (F F' : String) (k k' : Int) (fr : Frame) :
    (w.setFrame F k fr).pinCnt F' k' =
      if F' = F ∧ k' = k ∧ (w.frame? F k).isSome then fr.pinCnt else w.pinCnt F' k' := by
  unfold World.pinCnt
  rw [World.frame?_setFrame]
  split <;> rfl

theorem World.pinCnt_setImg (w : World) (F F' : String) (k k' : Int) (img : PageImage) :
    (w.setImg F k img).pinCnt F' k' = w.pinCnt F' k' := by
  unfold World.setImg
  cases hfr : w.frame? F k with
  | none => rfl
  | some fr =>
    simp only []
    rw [World.pinCnt_setFrame]
    split
    · rename_i hc
      obtain ⟨rfl, rfl, _⟩ := hc
      simp [World.pinCnt, hfr]
    · rfl

theorem World.nextFault_pinCnt (w : World) (F : String) (k : Int) :
    w.nextFault.2.pinCnt F k = w.pinCnt F k := by
  unfold World.pinCnt
  rw [World.nextFault_frame?]

theorem World.frame?_isSome_iff (w : World) (F : String) (k : Int) :
    (w.frame? F k).isSome = (w.img? F k).isSome := by
  unfold World.img?
  cases w.frame? F k <;> rfl

theorem bufMgr.unPinPage_ok (w : World) (F : String) (k : Int) (d : Bool) (h : w.noFaults)
    (hk : (w.img? F k).isSome) (hp : w.pinCnt F k ≠ 0) :
    (bufMgr.unPinPage w F k d).1 = Status.OK := by
  have h1 := (World.nextFault_of_noFaults w h).1
  have hfr : (w.nextFault.2.frame? F k).isSome := by
    rw [World.nextFault_frame?, World.frame?_isSome_iff]; exact hk
  have hp' : w.nextFault.2.pinCnt F k ≠ 0 := by rw [World.nextFault_pinCnt]; exact hp
  unfold bufMgr.unPinPage
  simp only [h1]
  cases hf : w.nextFault.2.frame? F k with
  | none => rw [hf] at hfr; cases hfr
  | some fr =>
    have : fr.pinCnt ≠ 0 := by simpa [World.pinCnt, hf] using hp'
    simp [this]

theorem bufMgr.readPage_pinCnt (w : World) (F : String) (k : Int) (pg : Option Int)
    (h : (bufMgr.readPage w F k pg).1 = Status.OK) :
    (bufMgr.readPage w F k pg).2.2.pinCnt F k ≠ 0 := by
  unfold bufMgr.readPage at h ⊢
  simp only [] at h ⊢
  split
  · rename_i hf
    rw [if_pos hf] at h
    exact absurd h hf
  · rename_i hf
    rw [if_neg hf] at h
    cases hfr : w.nextFault.2.frame? F k with
    | none => rw [hfr] at h; cases h
    | some fr =>
      simp only []
      rw [World.pinCnt_setFrame]
      simp [hfr]

theorem bufMgr.allocPage_pinCnt (w : World) (F F' : String) (k : Int)
    (hk : (w.img? F' k).isSome) :
    (bufMgr.allocPage w F).2.2.2.pinCnt F' k = w.pinCnt F' k := by
  rw [← World.nextFault_pinCnt w F' k]
  have hk' : (w.nextFault.2.frame? F' k).isSome := by
    rw [World.nextFault_frame?, World.frame?_isSome_iff]; exact hk
  unfold bufMgr.allocPage
  simp only []
  split
  · rfl
  · cases hf : w.nextFault.2.files F with
    | none => rfl
    | some f =>
      simp only []
      unfold World.pinCnt
      rw [World.frame?_setFile]
      by_cases e : F' = F
      · subst e
        simp only [if_true]
        rw [File.frame?_append f _ k f.openCnt]
        have e2 : w.nextFault.2.frame? F' k = f.frame? k := by
          unfold World.frame?; rw [hf]; rfl
        rw [e2] at hk' ⊢
        have : k ≠ (f.frames.length : Int) := by
          intro e3
          rw [e3] at hk'
          simp [File.frame?] at hk'
        rw [if_neg this]
      · rw [if_neg e]

theorem bufMgr.allocPage_ok (w : World) (F : String) (k : Int) (h : w.noFaults)
    (hk : (w.img? F k).isSome) : (bufMgr.allocPage w F).1 = Status.OK := by
  have h1 := (World.nextFault_of_noFaults w h).1
  have hk' : (w.nextFault.2.frame? F k).isSome := by
    rw [World.nextFault_frame?, World.frame?_isSome_iff]; exact hk
  unfold bufMgr.allocPage
  simp only [h1]
  cases hf : w.nextFault.2.files F with
  | none => simp [World.frame?, hf] at hk'
  | some f => simp

theorem InsertFileScan.finish_some (st : Status) (rid : Option RID) (s : InsertFileScan)
    (w : World) (h : FileHdrPage) (hh : w.hdr? s.filePtr s.headerPageNo = some h) :
    ∃ x, InsertFileScan.finish st rid s w = some x := by
  unfold InsertFileScan.finish
  by_cases e : st = Status.OK
  · simp only [e, if_true, HeapFile.headerPage, hh]
    exact ⟨_, rfl⟩
  · simp only [e, if_false]
    exact ⟨_, rfl⟩

/-- The `NOSPACE` branch returns when its buffer-pool calls succeed. -/
theorem InsertFileScan.grow_some (L : PageLayout) (s : InsertFileScan) (w : World) (k : Int)
    (rec : Record) (h : FileHdrPage) (p : Page)
    (hh : w.hdr? s.filePtr s.headerPageNo = some h) (hp : w.page? s.filePtr k = some p)
    (ha : (bufMgr.allocPage w s.filePtr).1 = Status.OK)
    (hu : (bufMgr.unPinPage ((bufMgr.allocPage w s.filePtr).2.2.2.setImg s.filePtr k
        (PageImage.data (p.setNextPage (bufMgr.allocPage w s.filePtr).2.1)))
        s.filePtr s.curPageNo s.curDirtyFlag).1 = Status.OK) :
    ∃ x, InsertFileScan.grow L s w k rec = some x := by
  obtain ⟨_, hA⟩ := bufMgr.allocPage_spec w s.filePtr
  obtain ⟨hptr, hfresh, himgA⟩ := hA ha
  generalize hnew : (bufMgr.allocPage w s.filePtr).2.1 = new at *
  generalize hwa : (bufMgr.allocPage w s.filePtr).2.2.2 = wa at *
  have hkS := World.img?_isSome_of_page? w _ _ p hp
  have hHS := World.img?_isSome_of_hdr? w _ _ h hh
  have hkH : k ≠ s.headerPageNo := World.page?_hdr?_ne w _ _ _ p h hp hh
  have hkn : k ≠ new := by
    intro e; rw [e, hfresh] at hkS; cases hkS
  have hHn : s.headerPageNo ≠ new := by
    intro e; rw [e, hfresh] at hHS; cases hHS
  have hqa : wa.page? s.filePtr k = some p := by
    rw [← hp]; apply World.page?_congr
    rw [himgA]; simp [hkn]
  unfold InsertFileScan.grow
  simp only [ha, hnew, hwa, hptr, hqa, ne_eq, not_true_eq_false, if_false]
  rw [hu]
  simp only [not_true_eq_false, if_false]
  generalize hwu : (bufMgr.unPinPage (wa.setImg s.filePtr k (PageImage.data (p.setNextPage new)))
      s.filePtr s.curPageNo s.curDirtyFlag).2 = wu at *
  have himgU : ∀ F' k', wu.img? F' k' =
      (wa.setImg s.filePtr k (PageImage.data (p.setNextPage new))).img? F' k' := by
    intro F' k'; rw [← hwu]; exact bufMgr.unPinPage_img? _ _ _ _ _ _
  have hnS : (wu.img? s.filePtr new).isSome := by
    rw [himgU, World.img?_setImg_ne _ _ _ _ _ _ (fun hc => hkn hc.2.symm), himgA]
    simp
  have hh2 : (wu.setImg s.filePtr new (PageImage.data (Page.init new))).hdr?
      s.filePtr s.headerPageNo = some h := by
    rw [World.hdr?_setImg_ne _ _ _ _ _ _ (fun hc => hHn hc.2), ← hh]
    apply World.hdr?_congr
    rw [himgU, World.img?_setImg_ne _ _ _ _ _ _ (fun hc => hkH hc.2.symm), himgA]
    simp [hHn]
  simp only [HeapFile.headerPage, hh2]
  generalize hw2 : wu.setImg s.filePtr new (PageImage.data (Page.init new)) = w2 at *
  have hHS2 : (w2.img? s.filePtr s.headerPageNo).isSome :=
    World.img?_isSome_of_hdr? w2 _ _ h hh2
  have hnp : (w2.setImg s.filePtr s.headerPageNo (PageImage.header
      { h with pageCnt := h.pageCnt + 1, lastPage := new })).page? s.filePtr new
      = some (Page.init new) := by
    rw [World.page?_setImg_ne _ _ _ _ _ _ (fun hc => hHn hc.2.symm), ← hw2]
    exact World.page?_setImg_same wu _ _ _ hnS
  simp only [HeapFile.curPageData, hnp]
  generalize hw3 : w2.setImg s.filePtr s.headerPageNo (PageImage.header
      { h with pageCnt := h.pageCnt + 1, lastPage := new }) = w3 at *
  have hh3 : w3.hdr? s.filePtr s.headerPageNo
      = some { h with pageCnt := h.pageCnt + 1, lastPage := new } := by
    rw [← hw3]; exact World.hdr?_setImg_same w2 _ _ _ hHS2
  have hh4 : (w3.setImg s.filePtr new
      (PageImage.data ((Page.init new).insertRecord L rec).2.2)).hdr? s.filePtr s.headerPageNo
      = some { h with pageCnt := h.pageCnt + 1, lastPage := new } := by
    rw [World.hdr?_setImg_ne _ _ _ _ _ _ (fun hc => hHn hc.2), hh3]
  exact InsertFileScan.finish_some _ _
    ⟨⟨s.filePtr, s.headerPageNo, s.hdrDirtyFlag, some new, new, false, s.curRec⟩⟩ _ _ hh4

theorem World.isChain_extend (w w' : World) (F : String) (H new : Int) (h : FileHdrPage)
    (p pnew : Page) (hH : w.hdr? F H = some h) (hfresh : w.img? F new = none)
    (hk : w'.page? F p.curPage = some (p.setNextPage new))
    (hn : w'.page? F new = some pnew) (hn1 : pnew.curPage = new) (hn2 : pnew.nextPage = -1)
    (hrest : ∀ k', k' ≠ p.curPage → k' ≠ new → k' ≠ H → w'.img? F k' = w.img? F k') :
    ∀ (qs : List Page) (c : Int), w.isChain F c (qs ++ [p]) →
      w'.isChain F c (qs ++ [p.setNextPage new, pnew])
  | [], c, hc => by
    obtain ⟨h1, h2, _⟩ := hc
    refine ⟨?_, h2, hn, hn1, hn2⟩
    rw [← h2]; exact hk
  | q :: qs, c, hc => by
    have hmem := World.isChain_head_not_mem w F c q (qs ++ [p]) hc p (by simp)
    obtain ⟨h1, h2, h3⟩ := hc
    refine ⟨?_, h2, World.isChain_extend w w' F H new h p pnew hH hfresh hk hn hn1 hn2 hrest
      qs _ h3⟩
    rw [← h1]
    apply World.page?_congr
    apply hrest
    · rw [← h2]; exact fun e => hmem e.symm
    · intro e
      rw [e] at h1
      unfold World.page? at h1
      rw [hfresh] at h1; cases h1
    · exact World.page?_hdr?_ne w F c H q h h1 hH

theorem World.isChain_last (w : World) (F : String) (p : Page) :
    ∀ (qs : List Page) (c : Int), w.isChain F c (qs ++ [p]) →
      w.page? F p.curPage = some p ∧ p.nextPage = -1
  | [], c, hc => by
    obtain ⟨h1, h2, h3⟩ := hc
    exact ⟨by rw [h2]; exact h1, h3⟩
  | _ :: qs, _, hc => World.isChain_last w F p qs _ hc.2.2

theorem Page.insertRecord_full (L : PageLayout) (p : Page) (rec : Record)
    (h : L.hasSpace p rec = false) :
    (p.insertRecord L rec).1 = Status.NOSPACE ∧ (p.insertRecord L rec).2.2 = p := by
  unfold Page.insertRecord
  simp [h]

theorem Page.insertRecord_room (L : PageLayout) (p : Page) (rec : Record)
    (h : L.hasSpace p rec = true) :
    (p.insertRecord L rec).1 = Status.OK ∧
      (p.insertRecord L rec).2.2.nextPage = p.nextPage := by
  unfold Page.insertRecord
  simp [h]

theorem Page.insertRecord_init (L : PageLayout) (new : Int) (rec : Record) :
    ((Page.init new).insertRecord L rec).2.2.curPage = new ∧
      ((Page.init new).insertRecord L rec).2.2.nextPage = -1 := by
  unfold Page.insertRecord
  split <;> exact ⟨rfl, rfl⟩

theorem World.setImg_same_img? (w : World) (F : String) (k : Int) (img : PageImage)
    (h : w.img? F k = some img) (F' : String) (k' : Int) :
    (w.setImg F k img).img? F' k' = w.img? F' k' := by
  rw [World.img?_setImg]
  split
  · rename_i hc
    obtain ⟨rfl, rfl, _⟩ := hc
    exact h.symm
  · rfl

theorem World.img?_of_page? (w : World) (F : String) (k : Int) (p : Page)
    (h : w.page? F k = some p) : w.img? F k = some (PageImage.data p) := by
  unfold World.page? at h
  cases hi : w.img? F k with
  | none => rw [hi] at h; cases h
  | some img =>
    rw [hi] at h
    cases img <;> simp [PageImage.page?] at h
    rw [h]

/-- The tail of `insertRecord` when the current page is the pinned last page
and no failure is imposed on the buffer pool. -/
theorem InsertFileScan.insertTail_spec (L : PageLayout) (s : InsertFileScan) (w : World)
    (rec : Record) (k : Int) (h : FileHdrPage) (p : Page)
    (hcp : s.curPage = some k) (hcn : s.curPageNo = k)
    (hp : w.page? s.filePtr k = some p) (hh : w.hdr? s.filePtr s.headerPageNo = some h)
    (hnf : w.noFaults) (hpin : w.pinCnt s.filePtr k ≠ 0) :
    ∃ x, InsertFileScan.insertTail L s w rec = some x ∧
      (L.hasSpace p rec = false → ∃ new pnew,
        w.img? s.filePtr new = none ∧
        x.2.2.2.hdr? s.filePtr s.headerPageNo = some ⟨h.fileName, h.firstPage, new,
          h.pageCnt + 1, h.recCnt + (if x.1 = Status.OK then 1 else 0)⟩ ∧
        x.2.2.1.curPageNo = new ∧ x.2.2.1.curPage = some new ∧
        x.2.2.2.page? s.filePtr k = some (p.setNextPage new) ∧
        x.2.2.2.page? s.filePtr new = some pnew ∧ pnew.curPage = new ∧ pnew.nextPage = -1 ∧
        (∀ F' k', ¬ (F' = s.filePtr ∧ (k' = k ∨ k' = new ∨ k' = s.headerPageNo)) →
          x.2.2.2.img? F' k' = w.img? F' k')) ∧
      (L.hasSpace p rec = true →
        x.1 = Status.OK ∧
        x.2.2.2.hdr? s.filePtr s.headerPageNo = some { h with recCnt := h.recCnt + 1 } ∧
        x.2.2.1.curPageNo = k ∧
        ∀ F' k', (x.2.2.2.page? F' k').map (fun q => q.nextPage) =
          (w.page? F' k').map (fun q => q.nextPage)) := by
  have hpd : s.curPageData w = some p := by
    simp only [HeapFile.curPageData, hcp]; exact hp
  have hkH : k ≠ s.headerPageNo := World.page?_hdr?_ne w _ _ _ p h hp hh
  have hkS := World.img?_isSome_of_page? w _ _ p hp
  have hh0 : (w.setImg s.filePtr k (PageImage.data (p.insertRecord L rec).2.2)).hdr?
      s.filePtr s.headerPageNo = some h := by
    rw [World.hdr?_setImg_ne _ _ _ _ _ _ (fun hc => hkH hc.2.symm)]; exact hh
  have hp0 : (w.setImg s.filePtr k (PageImage.data (p.insertRecord L rec).2.2)).page?
      s.filePtr k = some (p.insertRecord L rec).2.2 := World.page?_setImg_same w _ _ _ hkS
  have hnf0 := World.noFaults_setImg w s.filePtr k (PageImage.data (p.insertRecord L rec).2.2) hnf
  unfold InsertFileScan.insertTail
  simp only [hcp, hpd]
  cases hs : L.hasSpace p rec with
  | false =>
    obtain ⟨i1, i2⟩ := Page.insertRecord_full L p rec hs
    rw [if_pos i1]
    rw [i2] at hh0 hp0 hnf0 ⊢
    have himg0 : ∀ F' k', (w.setImg s.filePtr k (PageImage.data p)).img? F' k' = w.img? F' k' :=
      World.setImg_same_img? w _ _ _ (World.img?_of_page? w _ _ p hp)
    generalize hw0 : w.setImg s.filePtr k (PageImage.data p) = w0 at *
    have hkS0 : (w0.img? s.filePtr k).isSome := World.img?_isSome_of_page? w0 _ _ p hp0
    have ha := bufMgr.allocPage_ok w0 s.filePtr k hnf0 hkS0
    obtain ⟨_, hA⟩ := bufMgr.allocPage_spec w0 s.filePtr
    obtain ⟨_, hfresh, himgA⟩ := hA ha
    have hkn : k ≠ (bufMgr.allocPage w0 s.filePtr).2.1 := by
      intro e; rw [← e] at hfresh; rw [hfresh] at hkS0; cases hkS0
    have hu : (bufMgr.unPinPage ((bufMgr.allocPage w0 s.filePtr).2.2.2.setImg s.filePtr k
        (PageImage.data (p.setNextPage (bufMgr.allocPage w0 s.filePtr).2.1)))
        s.filePtr s.curPageNo s.curDirtyFlag).1 = Status.OK := by
      rw [hcn]
      apply bufMgr.unPinPage_ok
      · exact World.noFaults_setImg _ _ _ _ (bufMgr.allocPage_noFaults w0 s.filePtr hnf0)
      · rw [World.img?_setImg]
        split
        · rfl
        · rw [himgA, if_neg (fun hc => hkn hc.2)]; exact hkS0
      · rw [World.pinCnt_setImg, bufMgr.allocPage_pinCnt w0 s.filePtr s.filePtr k hkS0, ← hw0,
          World.pinCnt_setImg]
        exact hpin
    obtain ⟨x, hx⟩ := InsertFileScan.grow_some L s w0 k rec h p hh0 hp0 ha hu
    refine ⟨x, hx, (fun _ => ?_), (fun hc => by cases hc)⟩
    obtain ⟨g1, _, _, g4, g5, g6, g7, g8, g9, g10, _⟩ :=
      InsertFileScan.grow_ok L s w0 k rec h p x hh0 hp0 ha hu hx
    obtain ⟨j1, j2⟩ := Page.insertRecord_init L (bufMgr.allocPage w0 s.filePtr).2.1 rec
    refine ⟨(bufMgr.allocPage w0 s.filePtr).2.1, _, ?_, g7, g5, g4, g8, g9, j1, j2, ?_⟩
    · rw [← himg0]; exact g6
    · intro F' k' hne
      rw [g10 F' k' hne, himg0]
  | true =>
    obtain ⟨i1, i2⟩ := Page.insertRecord_room L p rec hs
    have hns : (p.insertRecord L rec).1 ≠ Status.NOSPACE := by rw [i1]; decide
    rw [if_neg hns]
    obtain ⟨x, hx⟩ := InsertFileScan.finish_some (p.insertRecord L rec).1
      (p.insertRecord L rec).2.1 s _ h hh0
    refine ⟨x, hx, (fun hc => by cases hc), (fun _ => ?_)⟩
    obtain ⟨f1, _, _, _, f5, f6, f7, _⟩ := InsertFileScan.finish_hdr _ _ s _ h x hh0 hx
    rw [i1] at f1 f6
    refine ⟨f1, by simpa using f6, by rw [f5, hcn], ?_⟩
    intro F' k'
    by_cases e1 : F' = s.filePtr ∧ k' = s.headerPageNo
    · obtain ⟨rfl, rfl⟩ := e1
      have a1 : x.2.2.2.page? s.filePtr s.headerPageNo = none := by
        unfold World.page?
        have := World.img?_isSome_of_hdr? _ _ _ _ f6
        unfold World.hdr? at f6
        cases hi : x.2.2.2.img? s.filePtr s.headerPageNo with
        | none => rfl
        | some img =>
          rw [hi] at f6
          cases img <;> simp [PageImage.hdr?, PageImage.page?] at f6 ⊢
      have a2 : w.page? s.filePtr s.headerPageNo = none := by
        unfold World.page?
        unfold World.hdr? at hh
        cases hi : w.img? s.filePtr s.headerPageNo with
        | none => rfl
        | some img =>
          rw [hi] at hh
          cases img <;> simp [PageImage.hdr?, PageImage.page?] at hh ⊢
      rw [a1, a2]
    · rw [World.page?_congr _ _ _ _ (f7 F' k' e1)]
      by_cases e2 : F' = s.filePtr ∧ k' = k
      · obtain ⟨rfl, rfl⟩ := e2
        rw [hp0, hp]
        simp [i2]
      · rw [World.page?_setImg_ne _ _ _ _ _ _ e2]

/-- C8: in a session that holds its current page pinned, over a well-formed
heap file (the chain from `firstPage` is `qs ++ [p]`, it has `pageCnt` pages and
ends in page `lastPage`) and with no failure imposed on the buffer pool, one
`insertRecord` call with a record of admissible length returns, and
* when the last page `p` reports `NOSPACE`: a page `new` that did not exist is
  allocated, header `pageCnt` grows by exactly 1, header `lastPage` and the
  session's `curPageNo` are `new`, the previous last page's next-page pointer
  is `new`, and the file is again well formed, over the chain
  `qs ++ [p with next = new, new page]`, so `pageCnt` is again the number of
  pages reachable from `firstPage`;
* when the last page has room: the call returns `OK`, and `pageCnt`,
  `lastPage` and the next-page pointer of every page are unchanged. -/
theorem insertRecord_grows_page_chain (L : PageLayout) (s : InsertFileScan) (w : World)
    (rec : Record) (h : FileHdrPage) (qs : List Page) (p : Page)
    (hlen : rec.length ≤ (L.PAGESIZE : Int) - (L.DPFIXED : Int))
    (hnf : w.noFaults) (hh : s.headerPage w = some h)
    (hcp : s.curPage = some s.curPageNo)
    (hcur : (w.img? s.filePtr s.curPageNo).isSome) (hpin : w.pinCnt s.filePtr s.curPageNo ≠ 0)
    (hwf : w.wfHeap s.filePtr h (qs ++ [p])) :
    ∃ x, s.insertRecord L w rec = some x ∧
      (L.hasSpace p rec = false → ∃ new pnew h',
        w.img? s.filePtr new = none ∧
        x.2.2.2.hdr? s.filePtr s.headerPageNo = some h' ∧
        h'.pageCnt = h.pageCnt + 1 ∧ h'.lastPage = new ∧ h'.firstPage = h.firstPage ∧
        x.2.2.1.curPageNo = new ∧
        x.2.2.2.page? s.filePtr h.lastPage = some (p.setNextPage new) ∧
        x.2.2.2.wfHeap s.filePtr h' (qs ++ [p.setNextPage new, pnew])) ∧
      (L.hasSpace p rec = true → ∃ h',
        x.1 = Status.OK ∧ x.2.2.2.hdr? s.filePtr s.headerPageNo = some h' ∧
        h'.pageCnt = h.pageCnt ∧ h'.lastPage = h.lastPage ∧
        ∀ F' k', (x.2.2.2.page? F' k').map (fun q => q.nextPage) =
          (w.page? F' k').map (fun q => q.nextPage)) := by
  obtain ⟨hchain, hcnt, hlastq⟩ := hwf
  have hpl : p.curPage = h.lastPage := by simpa using hlastq
  obtain ⟨hpp, _⟩ := World.isChain_last w s.filePtr p qs _ hchain
  rw [hpl] at hpp
  have hh' : w.hdr? s.filePtr s.headerPageNo = some h := hh
  -- what follows from the tail, for any state that agrees with `w` on the page contents
  have post : ∀ (s1 : InsertFileScan) (w1 : World), s1.filePtr = s.filePtr →
      s1.headerPageNo = s.headerPageNo → s1.curPage = some h.lastPage →
      s1.curPageNo = h.lastPage → (∀ F k, w1.img? F k = w.img? F k) → w1.noFaults →
      w1.pinCnt s.filePtr h.lastPage ≠ 0 →
      ∃ x, InsertFileScan.insertTail L s1 w1 rec = some x ∧
        (L.hasSpace p rec = false → ∃ new pnew h',
          w.img? s.filePtr new = none ∧
          x.2.2.2.hdr? s.filePtr s.headerPageNo = some h' ∧
          h'.pageCnt = h.pageCnt + 1 ∧ h'.lastPage = new ∧ h'.firstPage = h.firstPage ∧
          x.2.2.1.curPageNo = new ∧
          x.2.2.2.page? s.filePtr h.lastPage = some (p.setNextPage new) ∧
          x.2.2.2.wfHeap s.filePtr h' (qs ++ [p.setNextPage new, pnew])) ∧
        (L.hasSpace p rec = true → ∃ h',
          x.1 = Status.OK ∧ x.2.2.2.hdr? s.filePtr s.headerPageNo = some h' ∧
          h'.pageCnt = h.pageCnt ∧ h'.lastPage = h.lastPage ∧
          ∀ F' k', (x.2.2.2.page? F' k').map (fun q => q.nextPage) =
            (w.page? F' k').map (fun q => q.nextPage)) := by
    intro s1 w1 e1 e2 e3 e4 himg hnf1 hpin1
    have hp1 : w1.page? s1.filePtr h.lastPage = some p := by
      rw [e1, World.page?_congr _ _ _ _ (himg _ _)]; exact hpp
    have hh1 : w1.hdr? s1.filePtr s1.headerPageNo = some h := by
      rw [e1, e2, World.hdr?_congr _ _ _ _ (himg _ _)]; exact hh'
    obtain ⟨x, hx, hA, hB⟩ := InsertFileScan.insertTail_spec L s1 w1 rec h.lastPage h p e3 e4
      hp1 hh1 hnf1 (by rw [e1]; exact hpin1)
    rw [e1, e2] at hA hB
    refine ⟨x, hx, (fun hs => ?_), (fun hs => ?_)⟩
    · obtain ⟨new, pnew, a1, a2, a3, a4, a5, a6, a7, a8, a9⟩ := hA hs
      rw [himg] at a1
      refine ⟨new, pnew, _, a1, a2, rfl, rfl, rfl, a3, a5, ?_, ?_, ?_⟩
      · have hk : x.2.2.2.page? s.filePtr p.curPage = some (p.setNextPage new) := by
          rw [hpl]; exact a5
        refine World.isChain_extend w x.2.2.2 s.filePtr s.headerPageNo new h p pnew hh' a1 hk a6
          a7 a8 ?_ qs _ hchain
        intro k' n1 n2 n3
        rw [a9 _ _ (fun hc => by rcases hc.2 with e | e | e
                                 · exact n1 (by rw [hpl]; exact e)
                                 · exact n2 e
                                 · exact n3 e), himg]
      · simp only [List.length_append, List.length_cons, List.length_nil] at hcnt ⊢
        push_cast at hcnt ⊢
        omega
      · simp [a7]
    · obtain ⟨b1, b2, _, b4⟩ := hB hs
      refine ⟨_, b1, b2, rfl, rfl, fun F' k' => ?_⟩
      rw [b4, World.page?_congr _ _ _ _ (himg _ _)]
  unfold InsertFileScan.insertRecord
  rw [if_neg (not_lt.mpr hlen)]
  simp only [hh]
  by_cases hl : h.lastPage ≠ s.curPageNo
  · rw [if_pos hl]
    have hu := bufMgr.unPinPage_ok w s.filePtr s.curPageNo s.curDirtyFlag hnf hcur hpin
    have hnfu := bufMgr.unPinPage_noFaults w s.filePtr s.curPageNo s.curDirtyFlag hnf
    have himgu : ∀ F k, (bufMgr.unPinPage w s.filePtr s.curPageNo s.curDirtyFlag).2.img? F k
        = w.img? F k := fun F k => bufMgr.unPinPage_img? _ _ _ _ _ _
    have hhu : (bufMgr.unPinPage w s.filePtr s.curPageNo s.curDirtyFlag).2.hdr?
        s.filePtr s.headerPageNo = some h := by
      rw [← hh']; exact World.hdr?_congr _ _ _ _ (himgu _ _)
    have hex : ((bufMgr.unPinPage w s.filePtr s.curPageNo s.curDirtyFlag).2.img?
        s.filePtr h.lastPage).isSome := by
      rw [himgu]; exact World.img?_isSome_of_page? w _ _ p hpp
    obtain ⟨hr, hptr⟩ := bufMgr.readPage_ok _ s.filePtr h.lastPage s.curPage hnfu hex
    have hnfr := bufMgr.readPage_noFaults _ s.filePtr h.lastPage s.curPage hnfu
    have hpinr := bufMgr.readPage_pinCnt _ s.filePtr h.lastPage s.curPage hr
    have himgr : ∀ F k, (bufMgr.readPage (bufMgr.unPinPage w s.filePtr s.curPageNo
        s.curDirtyFlag).2 s.filePtr h.lastPage s.curPage).2.2.img? F k = w.img? F k := by
      intro F k; rw [bufMgr.readPage_img?, himgu]
    have hhr : (bufMgr.readPage (bufMgr.unPinPage w s.filePtr s.curPageNo
        s.curDirtyFlag).2 s.filePtr h.lastPage s.curPage).2.2.hdr? s.filePtr
        s.headerPageNo = some h := by
      rw [← hh']; exact World.hdr?_congr _ _ _ _ (himgr _ _)
    simp only [hu, ne_eq, not_true_eq_false, if_false, HeapFile.headerPage, hhu, hr, hhr]
    exact post ⟨⟨s.filePtr, s.headerPageNo, s.hdrDirtyFlag,
        (bufMgr.readPage (bufMgr.unPinPage w s.filePtr s.curPageNo s.curDirtyFlag).2
          s.filePtr h.lastPage s.curPage).2.1, h.lastPage, false, s.curRec⟩⟩ _
      rfl rfl hptr rfl himgr hnfr hpinr
  · rw [if_neg hl]
    have e : s.curPageNo = h.lastPage := (not_not.mp hl).symm
    exact post s w rfl rfl (by rw [hcp, e]) e (fun _ _ => rfl) hnf (by rw [← e]; exact hpin)

/-- Witness of C8: in the example, after the insertion of key 7 the last page
(page 3) is full; the insertion of key 9 allocates page 4 and links it. -/
theorem insertRecord_grows_page_chain_witness :
    exLayout.hasSpace ⟨3, -1, [some [5, 0, 0, 0], some [7, 0, 0, 0]]⟩ (exKey 9) = false ∧
    exInsert7.2.2.1.headerPage exInsert7.2.2.2 = some ⟨"T1", 1, 3, 3, 6⟩ ∧
    ∃ x, exInsert7.2.2.1.insertRecord exLayout exInsert7.2.2.2 (exKey 9) = some x ∧
      ∃ new pnew h',
        exInsert7.2.2.2.img? exInsert7.2.2.1.filePtr new = none ∧
        x.2.2.2.hdr? exInsert7.2.2.1.filePtr exInsert7.2.2.1.headerPageNo = some h' ∧
        h'.pageCnt = 3 + 1 ∧ h'.lastPage = new ∧ h'.firstPage = 1 ∧
        x.2.2.1.curPageNo = new ∧
        x.2.2.2.page? exInsert7.2.2.1.filePtr 3 =
          some (Page.setNextPage ⟨3, -1, [some [5, 0, 0, 0], some [7, 0, 0, 0]]⟩ new) ∧
        x.2.2.2.wfHeap exInsert7.2.2.1.filePtr h'
          ([⟨1, 2, [some [3, 0, 0, 0], some [1, 0, 0, 0]]⟩,
            ⟨2, 3, [some [4, 0, 0, 0], some [1, 0, 0, 0]]⟩] ++
            [Page.setNextPage ⟨3, -1, [some [5, 0, 0, 0], some [7, 0, 0, 0]]⟩ new, pnew]) :=
  ⟨by decide, by decide,
    (insertRecord_grows_page_chain exLayout exInsert7.2.2.1 exInsert7.2.2.2 (exKey 9)
      ⟨"T1", 1, 3, 3, 6⟩
      [⟨1, 2, [some [3, 0, 0, 0], some [1, 0, 0, 0]]⟩, ⟨2, 3, [some [4, 0, 0, 0], some [1, 0, 0, 0]]⟩]
      ⟨3, -1, [some [5, 0, 0, 0], some [7, 0, 0, 0]]⟩
      (by decide) (by intro st hst; cases hst) (by decide) (by decide) (by decide) (by decide)
      ⟨⟨by decide, by decide, by decide, by decide, by decide, by decide, rfl⟩,
        by decide, by decide⟩).imp fun _ hx => ⟨hx.1, hx.2.1 (by decide)⟩⟩

/-- C11 (the code at the failing input): an INTEGER filter with the value -1
(bytes FF FF FF FF) and a record whose field is 2147483647 (bytes FF FF FF 7F).
The field is greater than the filter value, but the difference computed in
32-bit `int` arithmetic wraps to -2147483648, so `matchRec` answers `GT` and
`GTE` with false and `LT` and `LTE` with true. -/
theorem matchRec_integer_difference_overflows :
    intOfBytes [255, 255, 255, 127] = 2147483647 ∧ intOfBytes [255, 255, 255, 255] = -1 ∧
    toInt32 (intOfBytes [255, 255, 255, 127] - intOfBytes [255, 255, 255, 255]) = -2147483648 ∧
    ((exScan.startScan 0 4 Datatype.INTEGER (some [255, 255, 255, 255]) Operator.GT).2.matchRec
      ⟨[255, 255, 255, 127]⟩ = some false) ∧
    ((exScan.startScan 0 4 Datatype.INTEGER (some [255, 255, 255, 255]) Operator.GTE).2.matchRec
      ⟨[255, 255, 255, 127]⟩ = some false) ∧
    ((exScan.startScan 0 4 Datatype.INTEGER (some [255, 255, 255, 255]) Operator.LT).2.matchRec
      ⟨[255, 255, 255, 127]⟩ = some true) ∧
    ((exScan.startScan 0 4 Datatype.INTEGER (some [255, 255, 255, 255]) Operator.LTE).2.matchRec
      ⟨[255, 255, 255, 127]⟩ = some true) := by
  decide

/-- C13 (the code at the failing input): on the newly created file "T1"
(`recCnt = 0`) a scan session calls `deleteRecord` before any `scanNext`, so
it has no current record.  The page reports `INVALIDSLOTNO`, yet the header's
record count is decremented: `getRecCnt` returns -1. -/
theorem deleteRecord_makes_recCnt_negative :
    exSessions.scan.getRecCnt exOpenWorld = some 0 ∧
    (runCalls exLayout 8 [Call.deleteRecord] exSessions exOpenWorld).map
        (fun x => (x.1.map fun y => y.2.1, x.2.1.scan.getRecCnt x.2.2)) =
      some ([Status.INVALIDSLOTNO], some (-1)) := by
  decide

/-- C16 (the code at the failing input): an insert session newly opened on a
file whose only data page (page 1) is full and clean.  `insertRecord` returns
`OK` after allocating page 2; page 1 now points to page 2, but it was unpinned
with the session's `curDirtyFlag`, which was false: its frame is unpinned and
its dirty bit is still false. -/
theorem insertRecord_unpins_old_last_page_clean :
    exCleanIns.curDirtyFlag = false ∧
    exCleanInsWorld.frame? "T1" 1 =
      some ⟨PageImage.data ⟨1, -1, [some [3, 0, 0, 0], some [1, 0, 0, 0]]⟩, 1, false⟩ ∧
    exCleanIns.insertRecord exLayout exCleanInsWorld (exKey 4) =
      some (Status.OK, some ⟨2, 0⟩, exCleanInsert.2.2.1, exCleanInsert.2.2.2) ∧
    exCleanInsert.2.2.2.frame? "T1" 1 =
      some ⟨PageImage.data ⟨1, 2, [some [3, 0, 0, 0], some [1, 0, 0, 0]]⟩, 0, false⟩ :=
  ⟨by decide, by decide, rfl, by decide⟩

/-- C17 (the code at the failing input): the example scan, in a world where
the `readPage` of the advance to page 2 fails with `UNIXERR`.  The third
`scanNext` call returns `OK`, and with the RID (1,0) that the first call had
returned: the failure is dropped, `curPageNo` is set to 2 although page 2 was
not read, and the scan restarts on the page that `curPage` still addresses. -/
theorem scanNext_drops_readPage_failure :
    exFaultRun.1.map (fun y => y.2) =
      [(Status.OK, some ⟨1, 0⟩), (Status.OK, some ⟨1, 1⟩), (Status.OK, some ⟨1, 0⟩)] ∧
    exFaultRun.2.1.scan.curPageNo = 2 ∧ exFaultRun.2.1.scan.curPage = some 1 ∧
    exFaultRun.2.2.pinCnt "T1" 2 = 0 := by
  decide

/-- C18 (the code at the failing input): a scan session, the only session on
the file, holds page 1 pinned once.  `HeapFile::getRecord` with a RID on the
missing page 7 unpins page 1, fails in `readPage` with `BADPAGENO` and returns
with `curPage` still non-null and `curPageNo = 1`, while page 1 is no longer
pinned; the destructor then unpins page 1 again, which the buffer pool rejects
with `PAGENOTPINNED`. -/
theorem getRecord_failure_breaks_pin_invariant :
    exSoleScan.curPage = some 1 ∧ exSoleScan.curPageNo = 1 ∧ exSoleWorld.pinCnt "T1" 1 = 1 ∧
    exSoleScan.toHeapFile.getRecord exSoleWorld ⟨7, 0⟩ =
      some (Status.BADPAGENO, none, exSoleGet.2.2.1, exSoleGet.2.2.2) ∧
    exSoleGet.2.2.1.curPage = some 1 ∧ exSoleGet.2.2.1.curPageNo = 1 ∧
    exSoleGet.2.2.2.pinCnt "T1" 1 = 0 ∧
    (exSoleGet.2.2.1.dtor exSoleGet.2.2.2).1 =
      [Status.PAGENOTPINNED, Status.OK, Status.OK] :=
  ⟨by decide, by decide, by decide, rfl, by decide, by decide, by decide, by decide⟩

/-- C20 (the code at the failing input): the insertion of `exCleanInsert`
changed the header's `recCnt` (2 to 3), `pageCnt` (1 to 2) and `lastPage` (1 to
2), and returned `OK` with `hdrDirtyFlag` still false; the destructor then
unpins the header page as clean: its frame ends unpinned with the dirty bit
false. -/
theorem insertRecord_leaves_hdrDirtyFlag_false :
    exCleanIns.headerPage exCleanInsWorld = some ⟨"T1", 1, 1, 1, 2⟩ ∧
    exCleanInsert.1 = Status.OK ∧
    exCleanInsert.2.2.1.headerPage exCleanInsert.2.2.2 = some ⟨"T1", 1, 2, 2, 3⟩ ∧
    exCleanInsert.2.2.1.hdrDirtyFlag = false ∧
    (exCleanInsert.2.2.1.dtor exCleanInsert.2.2.2).2.2.frame? "T1" 0 =
      some ⟨PageImage.header ⟨"T1", 1, 2, 2, 3⟩, 0, false⟩ := by
  decide

/-- C14 (as stated, at an explicit input): an empty filter that is not null is
validated like any other filter.  With invalid arguments `startScan` returns
`BADSCANPARM`; with valid arguments it returns `OK` and stores the empty
filter, after which `matchRec` is not match-all. -/
theorem startScan_empty_filter_is_validated :
    (exScan.startScan (-1) 0 Datatype.invalid (some []) Operator.invalid).1 =
      Status.BADSCANPARM ∧
    (exScan.startScan 0 4 Datatype.INTEGER (some []) Operator.EQ).1 = Status.OK ∧
    (exScan.startScan 0 4 Datatype.INTEGER (some []) Operator.EQ).2.filter = some [] ∧
    (exScan.startScan 0 4 Datatype.INTEGER (some []) Operator.EQ).2.matchRec (exKey 1) ≠
      some true := by
  decide

/-- C14 (as amended): for every offset, length, type and op, valid or not,
`startScan` called with a null filter returns `OK` without validating the other
arguments, clears the filter and changes nothing else; afterwards `matchRec`
returns true for every record, whatever filter an earlier `startScan` had
set. -/
theorem startScan_null_filter_matches_all (s : HeapFileScan) (offset length : Int)
    (type : Datatype) (op : Operator) :
    (s.startScan offset length type none op).1 = Status.OK ∧
    (s.startScan offset length type none op).2.filter = none ∧
    (s.startScan offset length type none op).2.toHeapFile = s.toHeapFile ∧
    ∀ rec, (s.startScan offset length type none op).2.matchRec rec = some true :=
  ⟨rfl, rfl, rfl, fun _ => rfl⟩

theorem strncmp_zero (x f : List Byte) : strncmp x f 0 = some 0 := by
  cases x <;> cases f <;> simp [strncmp]

/-- The wrapped value of `offset + length - 1` never exceeds the exact one. -/
theorem HeapFileScan.fieldEnd_le (s : HeapFileScan) :
    s.fieldEnd ≤ s.offset + s.length - 1 := by
  unfold HeapFileScan.fieldEnd toInt32
  simp only []
  split_ifs <;> omega

theorem Diff.ofInt_sub (a b : Byte) :
    Diff.ofInt ((a.val : Int) - (b.val : Int)) =
      Diff.ofInt (if a < b then -1 else if b < a then 1 else 0) := by
  unfold Diff.ofInt
  have h1 : a < b ↔ a.val < b.val := Fin.lt_def
  have h2 : b < a ↔ b.val < a.val := Fin.lt_def
  by_cases c1 : a.val < b.val
  · have : ((a.val : Int) - (b.val : Int)) < 0 := by omega
    simp [h1, c1, this]
  · by_cases c2 : b.val < a.val
    · have n1 : ¬ ((a.val : Int) - (b.val : Int)) < 0 := by omega
      have n2 : ¬ ((a.val : Int) - (b.val : Int)) = 0 := by omega
      simp [h1, h2, c1, c2, n1, n2]
    · have n1 : ¬ ((a.val : Int) - (b.val : Int)) < 0 := by omega
      have n2 : ((a.val : Int) - (b.val : Int)) = 0 := by omega
      simp [h1, h2, c1, c2, n2]

/-- `strncmp` orders two buffers as the C strings they hold. -/
theorem strncmp_eq_lexCmp :
    ∀ (n : Nat) (x f : List Byte), n ≤ x.length → n ≤ f.length →
      (strncmp x f n).map Diff.ofInt =
        some (Diff.ofInt (lexCmp (cstr (x.take n)) (cstr (f.take n))))
  | 0, x, f, _, _ => by
    rw [strncmp_zero]
    simp [cstr, lexCmp]
  | n + 1, [], _, h, _ => by simp at h
  | n + 1, _ :: _, [], _, h => by simp at h
  | n + 1, a :: x, b :: f, hx, hf => by
    have ih := strncmp_eq_lexCmp n x f (by simpa using hx) (by simpa using hf)
    simp only [strncmp, List.take_succ_cons, cstr, List.takeWhile_cons]
    by_cases hab : a = b
    · subst hab
      by_cases h0 : a = 0
      · subst h0
        simp [lexCmp]
      · simp only [ne_eq, not_true_eq_false, if_false, h0, not_false_eq_true, decide_True,
          if_true, lexCmp, lt_self_iff_false]
        exact ih
    · simp only [ne_eq, hab, not_false_eq_true, if_true, Option.map_some', Option.some.injEq]
      rw [Diff.ofInt_sub]
      by_cases ha : a = 0
      · subst ha
        have hb : b ≠ 0 := fun e => hab e.symm
        have hlt : (0 : Byte) < b := by
          rw [Fin.lt_def]
          have : b.val ≠ 0 := fun e => hb (Fin.ext e)
          simpa using Nat.pos_of_ne_zero this
        simp [hb, lexCmp, hlt]
      · by_cases hb : b = 0
        · subst hb
          have hlt : (0 : Byte) < a := by
            rw [Fin.lt_def]
            have : a.val ≠ 0 := fun e => ha (Fin.ext e)
            simpa using Nat.pos_of_ne_zero this
          have hnlt : ¬ a < (0 : Byte) := by
            rw [Fin.lt_def]; simp
          simp [ha, lexCmp, hlt, hnlt]
        · have hne : ¬ (a < b) → ¬ (b < a) → False := by
            intro h1 h2
            rw [Fin.lt_def] at h1 h2
            exact hab (Fin.ext (by omega))
          simp only [ha, hb, not_false_eq_true, decide_True, if_true, lexCmp]
          by_cases h1 : a < b
          · simp [h1]
          · by_cases h2 : b < a
            · simp [h1, h2]
            · exact absurd (hne h1 h2) id



/-- C12 (as stated, at an explicit input): a STRING filter of length 3 with the
bytes 01 00 03 and a record with the bytes 01 00 02.  The two fields agree up
to an embedded zero byte and differ after it, so their three-byte
lexicographic comparison is not "equal"; `matchRec` with `EQ` returns true all
the same, and false with `NE`. -/
theorem matchRec_string_stops_at_zero_byte :
    lexCmp [1, 0, 2] [1, 0, 3] = -1 ∧
    evalOp Operator.EQ (Diff.ofInt (lexCmp [1, 0, 2] [1, 0, 3])) = false ∧
    (exScan.startScan 0 3 Datatype.STRING (some [1, 0, 3]) Operator.EQ).2.matchRec
      ⟨[1, 0, 2]⟩ = some true ∧
    (exScan.startScan 0 3 Datatype.STRING (some [1, 0, 3]) Operator.NE).2.matchRec
      ⟨[1, 0, 2]⟩ = some false := by
  decide

/-- C12 (as amended): for a STRING filter of length `L` with at least `L`
filter bytes, every record with at least `offset + L` bytes and every op,
`matchRec` returns true exactly when the lexicographic comparison of the two
fields, read as C strings of at most `L` characters (the bytes before the
first zero byte, or all `L` bytes), satisfies op.  Bytes after a zero byte
take no part in the comparison. -/
theorem matchRec_string_compares_c_strings (s : HeapFileScan) (f : List Byte) (rec : Record)
    (hf : s.filter = some f) (ht : s.type = Datatype.STRING) (ho : 0 ≤ s.offset)
    (hrec : s.offset + s.length ≤ rec.length) (hfl : s.length ≤ f.length) :
    s.matchRec rec = some (evalOp s.op (Diff.ofInt
      (lexCmp (cstr ((rec.data.drop s.offset.toNat).take s.length.toNat))
        (cstr (f.take s.length.toNat))))) := by
  unfold HeapFileScan.matchRec
  simp only [hf, ht]
  have g1 : ¬ (s.fieldEnd ≥ rec.length) := by
    have := HeapFileScan.fieldEnd_le s
    omega
  have g2 : ¬ (s.offset < 0) := by omega
  rw [if_neg g1, if_neg g2]
  have hl : (rec.length : Int) = rec.data.length := rfl
  have h1 : s.length.toNat ≤ (rec.data.drop s.offset.toNat).length := by
    simp only [List.length_drop]; omega
  have h2 : s.length.toNat ≤ f.length := by omega
  have := strncmp_eq_lexCmp s.length.toNat (rec.data.drop s.offset.toNat) f h1 h2
  rw [Option.map_map]
  rw [Option.map_eq_some'] at this
  obtain ⟨v, hv, hd⟩ := this
  rw [hv]
  simp only [Option.map_some', Function.comp_apply, hd]

/-- Witness of C12 (as amended): the fields 01 00 02 and 01 00 03 hold the same
C string, the single byte 01, and `EQ` answers true. -/
theorem matchRec_string_compares_c_strings_witness :
    cstr [1, 0, 2] = [1] ∧ cstr [1, 0, 3] = [1] ∧
    (exScan.startScan 0 3 Datatype.STRING (some [1, 0, 3]) Operator.EQ).2.matchRec ⟨[1, 0, 2]⟩ =
      some (evalOp Operator.EQ (Diff.ofInt (lexCmp (cstr [1, 0, 2]) (cstr [1, 0, 3])))) :=
  ⟨by decide, by decide,
    matchRec_string_compares_c_strings
      (exScan.startScan 0 3 Datatype.STRING (some [1, 0, 3]) Operator.EQ).2 [1, 0, 3]
      ⟨[1, 0, 2]⟩ rfl rfl (by decide) (by decide) (by decide)⟩

/-- With no failure imposed and the current page `k` pinned, the buffer-pool
calls of the `NOSPACE` branch succeed. -/
theorem InsertFileScan.grow_calls_ok (s : InsertFileScan) (w : World) (k : Int) (p : Page)
    (hcn : s.curPageNo = k) (hp : w.page? s.filePtr k = some p)
    (hnf : w.noFaults) (hpin : w.pinCnt s.filePtr k ≠ 0) :
    (bufMgr.allocPage w s.filePtr).1 = Status.OK ∧
    (bufMgr.unPinPage ((bufMgr.allocPage w s.filePtr).2.2.2.setImg s.filePtr k
        (PageImage.data (p.setNextPage (bufMgr.allocPage w s.filePtr).2.1)))
        s.filePtr s.curPageNo s.curDirtyFlag).1 = Status.OK := by
  have hkS : (w.img? s.filePtr k).isSome := World.img?_isSome_of_page? w _ _ p hp
  have ha := bufMgr.allocPage_ok w s.filePtr k hnf hkS
  obtain ⟨_, hA⟩ := bufMgr.allocPage_spec w s.filePtr
  obtain ⟨_, hfresh, himgA⟩ := hA ha
  have hkn : k ≠ (bufMgr.allocPage w s.filePtr).2.1 := by
    intro e; rw [← e] at hfresh; rw [hfresh] at hkS; cases hkS
  refine ⟨ha, ?_⟩
  rw [hcn]
  apply bufMgr.unPinPage_ok
  · exact World.noFaults_setImg _ _ _ _ (bufMgr.allocPage_noFaults w s.filePtr hnf)
  · rw [World.img?_setImg]
    split
    · rfl
    · rw [himgA, if_neg (fun hc => hkn hc.2)]; exact hkS
  · rw [World.pinCnt_setImg, bufMgr.allocPage_pinCnt w s.filePtr s.filePtr k hkS]
    exact hpin

/-- The tail of `insertRecord` returns `OK` when a freshly initialised page
accepts the record, the last page is pinned and no failure is imposed. -/
theorem InsertFileScan.insertTail_status (L : PageLayout) (s : InsertFileScan) (w : World)
    (rec : Record) (k : Int) (h : FileHdrPage) (p : Page)
    (x : Status × Option RID × InsertFileScan × World)
    (hfresh : ∀ n, L.hasSpace (Page.init n) rec = true)
    (hcp : s.curPage = some k) (hcn : s.curPageNo = k)
    (hp : w.page? s.filePtr k = some p) (hh : w.hdr? s.filePtr s.headerPageNo = some h)
    (hnf : w.noFaults) (hpin : w.pinCnt s.filePtr k ≠ 0)
    (hx : InsertFileScan.insertTail L s w rec = some x) : x.1 = Status.OK := by
  cases hs : L.hasSpace p rec with
  | true =>
    obtain ⟨x', hx', _, hB⟩ := InsertFileScan.insertTail_spec L s w rec k h p hcp hcn hp hh hnf hpin
    rw [hx] at hx'
    rw [Option.some.inj hx']
    exact (hB hs).1
  | false =>
    have hpd : s.curPageData w = some p := by
      simp only [HeapFile.curPageData, hcp]; exact hp
    have hkH : k ≠ s.headerPageNo := World.page?_hdr?_ne w _ _ _ p h hp hh
    obtain ⟨i1, i2⟩ := Page.insertRecord_full L p rec hs
    have himg0 : ∀ F' k', (w.setImg s.filePtr k (PageImage.data p)).img? F' k' = w.img? F' k' :=
      World.setImg_same_img? w _ _ _ (World.img?_of_page? w _ _ p hp)
    have hh0 : (w.setImg s.filePtr k (PageImage.data p)).hdr? s.filePtr s.headerPageNo
        = some h := by
      rw [World.hdr?_congr _ _ _ _ (himg0 _ _)]; exact hh
    have hp0 : (w.setImg s.filePtr k (PageImage.data p)).page? s.filePtr k = some p := by
      rw [World.page?_congr _ _ _ _ (himg0 _ _)]; exact hp
    have hnf0 := World.noFaults_setImg w s.filePtr k (PageImage.data p) hnf
    have hpin0 : (w.setImg s.filePtr k (PageImage.data p)).pinCnt s.filePtr k ≠ 0 := by
      rw [World.pinCnt_setImg]; exact hpin
    unfold InsertFileScan.insertTail at hx
    simp only [hcp, hpd] at hx
    rw [if_pos i1, i2] at hx
    obtain ⟨ha, hu⟩ := InsertFileScan.grow_calls_ok s _ k p hcn hp0 hnf0 hpin0
    obtain ⟨g1, _⟩ := InsertFileScan.grow_ok L s _ k rec h p x hh0 hp0 ha hu hx
    rw [g1]
    exact (Page.insertRecord_room L _ rec (hfresh _)).1

/-- C15: for a record of admissible length that every freshly initialised page
accepts, in a session that holds its current page pinned, with the header's
last page `p` in the file and no failure imposed on the buffer pool,
`insertRecord` returns `OK`, never `NOSPACE`: when the last page reports
`NOSPACE`, the chain is grown by one page (`pageCnt` plus one, the old last
page linked to the new last page, which becomes the current page) and the
retried insertion is the one that returns `OK`. -/
theorem insertRecord_never_returns_NOSPACE (L : PageLayout) (s : InsertFileScan) (w : World)
    (rec : Record) (h : FileHdrPage) (p : Page)
    (hlen : rec.length ≤ (L.PAGESIZE : Int) - (L.DPFIXED : Int))
    (hfresh : ∀ n, L.hasSpace (Page.init n) rec = true)
    (hnf : w.noFaults) (hh : s.headerPage w = some h)
    (hcp : s.curPage = some s.curPageNo)
    (hcur : (w.img? s.filePtr s.curPageNo).isSome) (hpin : w.pinCnt s.filePtr s.curPageNo ≠ 0)
    (hlast : w.page? s.filePtr h.lastPage = some p) :
    ∃ x, s.insertRecord L w rec = some x ∧ x.1 = Status.OK ∧
      (L.hasSpace p rec = false → ∃ h',
        x.2.2.2.hdr? s.filePtr s.headerPageNo = some h' ∧ h'.pageCnt = h.pageCnt + 1 ∧
        x.2.2.1.curPageNo = h'.lastPage ∧
        x.2.2.2.page? s.filePtr h.lastPage = some (p.setNextPage h'.lastPage)) := by
  have hh' : w.hdr? s.filePtr s.headerPageNo = some h := hh
  have post : ∀ (s1 : InsertFileScan) (w1 : World), s1.filePtr = s.filePtr →
      s1.headerPageNo = s.headerPageNo → s1.curPage = some h.lastPage →
      s1.curPageNo = h.lastPage → (∀ F k, w1.img? F k = w.img? F k) → w1.noFaults →
      w1.pinCnt s.filePtr h.lastPage ≠ 0 →
      ∃ x, InsertFileScan.insertTail L s1 w1 rec = some x ∧ x.1 = Status.OK ∧
        (L.hasSpace p rec = false → ∃ h',
          x.2.2.2.hdr? s.filePtr s.headerPageNo = some h' ∧ h'.pageCnt = h.pageCnt + 1 ∧
          x.2.2.1.curPageNo = h'.lastPage ∧
          x.2.2.2.page? s.filePtr h.lastPage = some (p.setNextPage h'.lastPage)) := by
    intro s1 w1 e1 e2 e3 e4 himg hnf1 hpin1
    have hp1 : w1.page? s1.filePtr h.lastPage = some p := by
      rw [e1, World.page?_congr _ _ _ _ (himg _ _)]; exact hlast
    have hh1 : w1.hdr? s1.filePtr s1.headerPageNo = some h := by
      rw [e1, e2, World.hdr?_congr _ _ _ _ (himg _ _)]; exact hh'
    have hpin1' : w1.pinCnt s1.filePtr h.lastPage ≠ 0 := by rw [e1]; exact hpin1
    obtain ⟨x, hx, hA, _⟩ := InsertFileScan.insertTail_spec L s1 w1 rec h.lastPage h p e3 e4
      hp1 hh1 hnf1 hpin1'
    have hst := InsertFileScan.insertTail_status L s1 w1 rec h.lastPage h p x hfresh e3 e4
      hp1 hh1 hnf1 hpin1' hx
    rw [e1, e2] at hA
    refine ⟨x, hx, hst, fun hs => ?_⟩
    obtain ⟨new, pnew, _, a2, a3, _, a5, _⟩ := hA hs
    exact ⟨_, a2, rfl, a3, a5⟩
  unfold InsertFileScan.insertRecord
  rw [if_neg (not_lt.mpr hlen)]
  simp only [hh]
  by_cases hl : h.lastPage ≠ s.curPageNo
  · rw [if_pos hl]
    have hu := bufMgr.unPinPage_ok w s.filePtr s.curPageNo s.curDirtyFlag hnf hcur hpin
    have hnfu := bufMgr.unPinPage_noFaults w s.filePtr s.curPageNo s.curDirtyFlag hnf
    have himgu : ∀ F k, (bufMgr.unPinPage w s.filePtr s.curPageNo s.curDirtyFlag).2.img? F k
        = w.img? F k := fun F k => bufMgr.unPinPage_img? _ _ _ _ _ _
    have hhu : (bufMgr.unPinPage w s.filePtr s.curPageNo s.curDirtyFlag).2.hdr?
        s.filePtr s.headerPageNo = some h := by
      rw [← hh']; exact World.hdr?_congr _ _ _ _ (himgu _ _)
    have hex : ((bufMgr.unPinPage w s.filePtr s.curPageNo s.curDirtyFlag).2.img?
        s.filePtr h.lastPage).isSome := by
      rw [himgu]; exact World.img?_isSome_of_page? w _ _ p hlast
    obtain ⟨hr, hptr⟩ := bufMgr.readPage_ok _ s.filePtr h.lastPage s.curPage hnfu hex
    have hnfr := bufMgr.readPage_noFaults _ s.filePtr h.lastPage s.curPage hnfu
    have hpinr := bufMgr.readPage_pinCnt _ s.filePtr h.lastPage s.curPage hr
    have himgr : ∀ F k, (bufMgr.readPage (bufMgr.unPinPage w s.filePtr s.curPageNo
        s.curDirtyFlag).2 s.filePtr h.lastPage s.curPage).2.2.img? F k = w.img? F k := by
      intro F k; rw [bufMgr.readPage_img?, himgu]
    have hhr : (bufMgr.readPage (bufMgr.unPinPage w s.filePtr s.curPageNo
        s.curDirtyFlag).2 s.filePtr h.lastPage s.curPage).2.2.hdr? s.filePtr
        s.headerPageNo = some h := by
      rw [← hh']; exact World.hdr?_congr _ _ _ _ (himgr _ _)
    simp only [hu, ne_eq, not_true_eq_false, if_false, HeapFile.headerPage, hhu, hr, hhr]
    exact post ⟨⟨s.filePtr, s.headerPageNo, s.hdrDirtyFlag,
        (bufMgr.readPage (bufMgr.unPinPage w s.filePtr s.curPageNo s.curDirtyFlag).2
          s.filePtr h.lastPage s.curPage).2.1, h.lastPage, false, s.curRec⟩⟩ _
      rfl rfl hptr rfl himgr hnfr hpinr
  · rw [if_neg hl]
    have e : s.curPageNo = h.lastPage := (not_not.mp hl).symm
    exact post s w rfl rfl (by rw [hcp, e]) e (fun _ _ => rfl) hnf (by rw [← e]; exact hpin)

/-- Witness of C15: in the example, after the insertion of key 7 the last page
is full; the insertion of key 9 grows the chain and returns `OK`. -/
theorem insertRecord_never_returns_NOSPACE_witness :
    exLayout.hasSpace ⟨3, -1, [some [5, 0, 0, 0], some [7, 0, 0, 0]]⟩ (exKey 9) = false ∧
    ∃ x, exInsert7.2.2.1.insertRecord exLayout exInsert7.2.2.2 (exKey 9) = some x ∧
      x.1 = Status.OK ∧
      ∃ h', x.2.2.2.hdr? exInsert7.2.2.1.filePtr exInsert7.2.2.1.headerPageNo = some h' ∧
        h'.pageCnt = 3 + 1 ∧ x.2.2.1.curPageNo = h'.lastPage ∧
        x.2.2.2.page? exInsert7.2.2.1.filePtr 3 =
          some (Page.setNextPage ⟨3, -1, [some [5, 0, 0, 0], some [7, 0, 0, 0]]⟩ h'.lastPage) :=
  ⟨by decide,
    (insertRecord_never_returns_NOSPACE exLayout exInsert7.2.2.1 exInsert7.2.2.2 (exKey 9)
      ⟨"T1", 1, 3, 3, 6⟩ ⟨3, -1, [some [5, 0, 0, 0], some [7, 0, 0, 0]]⟩
      (by decide) (fun _ => rfl) (by intro st hst; cases hst) (by decide) (by decide)
      (by decide) (by decide) (by decide)).imp
      fun _ hx => ⟨hx.1, hx.2.1, hx.2.2 (by decide)⟩⟩

/-- While `offset + length - 1` stays in the range of `int`, the guard of
`matchRec` rejects every record shorter than `offset + length` bytes. -/
theorem HeapFileScan.matchRec_short (s : HeapFileScan) (f : List Byte) (rec : Record)
    (hf : s.filter = some f) (hr : s.offset + s.length - 1 ≤ 2147483647)
    (h : rec.length < s.offset + s.length) : s.matchRec rec = some false := by
  have hl : (0 : Int) ≤ rec.length := by unfold Record.length; omega
  have e : s.fieldEnd = s.offset + s.length - 1 := by
    unfold HeapFileScan.fieldEnd toInt32
    simp only []
    split_ifs <;> omega
  unfold HeapFileScan.matchRec
  simp only [hf]
  rw [if_pos (by rw [e]; omega)]

/-- C19 (the code at the failing input): `startScan` accepts the STRING filter
"ab" with offset 2147483647 and length 2.  A record of one byte is shorter than
`offset + length`, so `matchRec` has to return false without reading the
record.  But `offset + length - 1` is computed in 32-bit `int` arithmetic and
wraps around to -2147483648: the guard does not fire, and `strncmp` reads the
record from byte 2147483647 on, past its end (undefined behaviour, `none`).
With offset 1, where the sum does not overflow, the same record is rejected
and a record of exactly `offset + length` bytes is compared. -/
theorem matchRec_guard_overflows :
    (exScan.startScan 2147483647 2 Datatype.STRING (some [97, 98]) Operator.EQ).1 = Status.OK ∧
    (⟨[97]⟩ : Record).length < 2147483647 + 2 ∧
    (exScan.startScan 2147483647 2 Datatype.STRING (some [97, 98]) Operator.EQ).2.fieldEnd =
      -2147483648 ∧
    (exScan.startScan 2147483647 2 Datatype.STRING (some [97, 98]) Operator.EQ).2.matchRec
      ⟨[97]⟩ = none ∧
    (exScan.startScan 1 2 Datatype.STRING (some [97, 98]) Operator.EQ).2.matchRec
      ⟨[97]⟩ = some false ∧
    (exScan.startScan 1 2 Datatype.STRING (some [97, 98]) Operator.EQ).2.matchRec
      ⟨[0, 97, 98]⟩ = some true := by
  decide

/-- C10 (the code at the failing input): for the existing, closed file "T1"
(open count 0) `createHeapFile "T1"` returns `FILEEXISTS` and leaves the pages
of the file as they were, but the file is now held open (open count 1): the
handle obtained by the probing `openFile` is never closed. -/
theorem createHeapFile_existing_file_left_open :
    (exCreated.files "T1").map (fun f => f.openCnt) = some 0 ∧
    (createHeapFile exNameSize exCreated "T1").map (fun x => x.1) = some Status.FILEEXISTS ∧
    ((createHeapFile exNameSize exCreated "T1").bind fun x => x.2.files "T1").map
        (fun f => f.frames) = (exCreated.files "T1").map (fun f => f.frames) ∧
    ((createHeapFile exNameSize exCreated "T1").bind fun x => x.2.files "T1").map
        (fun f => f.openCnt) = some 1 := by
  decide

theorem World.img?_isSome_of_pinCnt (w : World) (F : String) (k : Int)
    (h : w.pinCnt F k ≠ 0) : (w.img? F k).isSome := by
  rw [← World.frame?_isSome_iff]
  unfold World.pinCnt at h
  cases hf : w.frame? F k with
  | none => rw [hf] at h; exact absurd rfl h
  | some fr => rfl

theorem bufMgr.unPinPage_pinCnt_ne (w : World) (F : String) (k k' : Int) (d : Bool)
    (hne : k' ≠ k) : (bufMgr.unPinPage w F k d).2.pinCnt F k' = w.pinCnt F k' := by
  rw [← World.nextFault_pinCnt w F k']
  unfold bufMgr.unPinPage
  simp only []
  split
  · rfl
  · cases hfr : w.nextFault.2.frame? F k with
    | none => rfl
    | some fr =>
      simp only []
      split
      · rfl
      · rw [World.pinCnt_setFrame, if_neg (fun hc => hne hc.2.1)]

theorem bufMgr.allocPage_pinCnt_new (w : World) (F : String)
    (ha : (bufMgr.allocPage w F).1 = Status.OK) :
    (bufMgr.allocPage w F).2.2.2.pinCnt F (bufMgr.allocPage w F).2.1 ≠ 0 := by
  unfold bufMgr.allocPage at ha ⊢
  simp only [] at ha ⊢
  split
  · rename_i hf
    rw [if_pos hf] at ha
    exact absurd ha hf
  · rename_i hf
    rw [if_neg hf] at ha
    cases hfl : w.nextFault.2.files F with
    | none => rw [hfl] at ha; cases ha
    | some f =>
      simp only []
      unfold World.pinCnt
      rw [World.frame?_setFile, if_pos rfl, File.frame?_append f _ _ f.openCnt, if_pos rfl]
      simp

/-- The end of `insertRecord` imposes no failure and changes no pin count. -/
theorem InsertFileScan.finish_world (st : Status) (rid : Option RID) (s : InsertFileScan)
    (w : World) (x : Status × Option RID × InsertFileScan × World)
    (hx : InsertFileScan.finish st rid s w = some x) :
    (w.noFaults → x.2.2.2.noFaults) ∧ ∀ F k, x.2.2.2.pinCnt F k = w.pinCnt F k := by
  unfold InsertFileScan.finish at hx
  by_cases e : st = Status.OK
  · rw [if_pos e] at hx
    cases hh : s.headerPage w with
    | none => rw [hh] at hx; cases hx
    | some h =>
      rw [hh] at hx
      simp only [Option.some.injEq] at hx
      subst hx
      exact ⟨fun hn => World.noFaults_setImg _ _ _ _ hn, fun F k => World.pinCnt_setImg _ _ _ _ _ _⟩
  · rw [if_neg e] at hx
    simp only [Option.some.injEq] at hx
    subst hx
    exact ⟨id, fun _ _ => rfl⟩

theorem Page.getRecord_append (p : Page) (d : Option (List Byte)) (r : RID) (rec : Record)
    (h : p.getRecord r = (Status.OK, some rec)) :
    ({ p with slots := p.slots ++ [d] } : Page).getRecord r = (Status.OK, some rec) := by
  unfold Page.getRecord at h ⊢
  have key : ({ p with slots := p.slots ++ [d] } : Page).slot? r.slotNo = p.slot? r.slotNo := by
    unfold Page.slot? at h ⊢
    by_cases h0 : 0 ≤ r.slotNo
    · simp only [h0, if_true] at h ⊢
      have hlt : r.slotNo.toNat < p.slots.length := by
        by_contra hc
        have hn : p.slots.get? r.slotNo.toNat = none := List.get?_eq_none.mpr (by omega)
        rw [hn] at h
        simp at h
      simp only [List.get?_eq_getElem?]
      rw [List.getElem?_append_left hlt]
    · simp only [h0, if_false] at h
      simp at h
  rw [key]
  exact h

/-- `HeapFile::getRecord` finds a stored record from any session that holds
its current page pinned: directly when the record's page is the current page,
and after unpinning the current page and reading the record's page when it is
not. -/
theorem HeapFile.getRecord_stored (t : HeapFile) (v : World) (r : RID) (rec : Record)
    (hs : v.holds t.filePtr r rec) (hcp : t.curPage = some t.curPageNo)
    (hnf : v.noFaults) (hpin : v.pinCnt t.filePtr t.curPageNo ≠ 0) :
    ∃ t' v', t.getRecord v r = some (Status.OK, some rec, t', v') := by
  obtain ⟨q, hq, hg⟩ := hs
  unfold HeapFile.getRecord
  by_cases e : r.pageNo = t.curPageNo
  · rw [if_pos e]
    have : t.curPageData v = some q := by
      simp only [HeapFile.curPageData, hcp]
      rw [← e]; exact hq
    simp only [this, hg]
    exact ⟨_, _, rfl⟩
  · rw [if_neg e]
    have hcur := World.img?_isSome_of_pinCnt v _ _ hpin
    have hu := bufMgr.unPinPage_ok v t.filePtr t.curPageNo t.curDirtyFlag hnf hcur hpin
    have hnfu := bufMgr.unPinPage_noFaults v t.filePtr t.curPageNo t.curDirtyFlag hnf
    have hex : ((bufMgr.unPinPage v t.filePtr t.curPageNo t.curDirtyFlag).2.img?
        t.filePtr r.pageNo).isSome := by
      rw [bufMgr.unPinPage_img?]; exact World.img?_isSome_of_page? v _ _ q hq
    obtain ⟨hr, hptr⟩ := bufMgr.readPage_ok _ t.filePtr r.pageNo t.curPage hnfu hex
    have hpg : (bufMgr.readPage (bufMgr.unPinPage v t.filePtr t.curPageNo t.curDirtyFlag).2
        t.filePtr r.pageNo t.curPage).2.2.page? t.filePtr r.pageNo = some q := by
      rw [← hq]
      apply World.page?_congr
      rw [bufMgr.readPage_img?, bufMgr.unPinPage_img?]
    simp only [hu, hr, if_true, HeapFile.curPageData, hptr, hpg, hg]
    exact ⟨_, _, rfl⟩

/-- The `NOSPACE` branch, when its buffer-pool calls succeed: it imposes no
failure, and the new page is pinned when it returns. -/
theorem InsertFileScan.grow_world (L : PageLayout) (s : InsertFileScan) (w : World) (k : Int)
    (rec : Record) (h : FileHdrPage) (p : Page)
    (x : Status × Option RID × InsertFileScan × World)
    (hh : w.hdr? s.filePtr s.headerPageNo = some h) (hp : w.page? s.filePtr k = some p)
    (hcn : s.curPageNo = k)
    (ha : (bufMgr.allocPage w s.filePtr).1 = Status.OK)
    (hu : (bufMgr.unPinPage ((bufMgr.allocPage w s.filePtr).2.2.2.setImg s.filePtr k
        (PageImage.data (p.setNextPage (bufMgr.allocPage w s.filePtr).2.1)))
        s.filePtr s.curPageNo s.curDirtyFlag).1 = Status.OK)
    (hx : InsertFileScan.grow L s w k rec = some x) :
    (w.noFaults → x.2.2.2.noFaults) ∧
    x.2.2.2.pinCnt s.filePtr (bufMgr.allocPage w s.filePtr).2.1 ≠ 0 := by
  obtain ⟨_, hA⟩ := bufMgr.allocPage_spec w s.filePtr
  obtain ⟨hptr, hfresh, himgA⟩ := hA ha
  have hpinA := bufMgr.allocPage_pinCnt_new w s.filePtr ha
  have hnfA := bufMgr.allocPage_noFaults w s.filePtr
  generalize hnew : (bufMgr.allocPage w s.filePtr).2.1 = new at *
  generalize hwa : (bufMgr.allocPage w s.filePtr).2.2.2 = wa at *
  have hkS := World.img?_isSome_of_page? w _ _ p hp
  have hHS := World.img?_isSome_of_hdr? w _ _ h hh
  have hkH : k ≠ s.headerPageNo := World.page?_hdr?_ne w _ _ _ p h hp hh
  have hkn : k ≠ new := by
    intro e; rw [e, hfresh] at hkS; cases hkS
  have hHn : s.headerPageNo ≠ new := by
    intro e; rw [e, hfresh] at hHS; cases hHS
  have hqa : wa.page? s.filePtr k = some p := by
    rw [← hp]; apply World.page?_congr
    rw [himgA]; simp [hkn]
  unfold InsertFileScan.grow at hx
  simp only [ha, hnew, hwa, hptr, hqa, ne_eq, not_true_eq_false, if_false] at hx
  rw [hu] at hx
  simp only [not_true_eq_false, if_false] at hx
  have hpinU : (bufMgr.unPinPage (wa.setImg s.filePtr k (PageImage.data (p.setNextPage new)))
      s.filePtr s.curPageNo s.curDirtyFlag).2.pinCnt s.filePtr new ≠ 0 := by
    rw [bufMgr.unPinPage_pinCnt_ne _ _ _ _ _ (by rw [hcn]; exact fun e => hkn e.symm),
      World.pinCnt_setImg]
    exact hpinA
  have hnfU : w.noFaults → (bufMgr.unPinPage (wa.setImg s.filePtr k
      (PageImage.data (p.setNextPage new))) s.filePtr s.curPageNo s.curDirtyFlag).2.noFaults :=
    fun hn => bufMgr.unPinPage_noFaults _ _ _ _ (World.noFaults_setImg _ _ _ _ (hnfA hn))
  generalize hwu : (bufMgr.unPinPage (wa.setImg s.filePtr k (PageImage.data (p.setNextPage new)))
      s.filePtr s.curPageNo s.curDirtyFlag).2 = wu at *
  have himgU : ∀ F' k', wu.img? F' k' =
      (wa.setImg s.filePtr k (PageImage.data (p.setNextPage new))).img? F' k' := by
    intro F' k'; rw [← hwu]; exact bufMgr.unPinPage_img? _ _ _ _ _ _
  have hnS : (wu.img? s.filePtr new).isSome := by
    rw [himgU, World.img?_setImg_ne _ _ _ _ _ _ (fun hc => hkn hc.2.symm), himgA]
    simp
  have hh2 : (wu.setImg s.filePtr new (PageImage.data (Page.init new))).hdr?
      s.filePtr s.headerPageNo = some h := by
    rw [World.hdr?_setImg_ne _ _ _ _ _ _ (fun hc => hHn hc.2), ← hh]
    apply World.hdr?_congr
    rw [himgU, World.img?_setImg_ne _ _ _ _ _ _ (fun hc => hkH hc.2.symm), himgA]
    simp [hHn]
  simp only [HeapFile.headerPage, hh2] at hx
  have hnp : ((wu.setImg s.filePtr new (PageImage.data (Page.init new))).setImg s.filePtr
      s.headerPageNo (PageImage.header
      { h with pageCnt := h.pageCnt + 1, lastPage := new })).page? s.filePtr new
      = some (Page.init new) := by
    rw [World.page?_setImg_ne _ _ _ _ _ _ (fun hc => hHn hc.2.symm)]
    exact World.page?_setImg_same wu _ _ _ hnS
  simp only [HeapFile.curPageData, hnp] at hx
  obtain ⟨f1, f2⟩ := InsertFileScan.finish_world _ _ _ _ x hx
  refine ⟨fun hn => f1 ?_, ?_⟩
  · exact World.noFaults_setImg _ _ _ _ (World.noFaults_setImg _ _ _ _
      (World.noFaults_setImg _ _ _ _ (hnfU hn)))
  · rw [f2, World.pinCnt_setImg, World.pinCnt_setImg, World.pinCnt_setImg]
    exact hpinU

/-- The tail of `insertRecord`, entered with the last page `k` pinned as the
current page and no failure imposed: when it returns, the session again holds
the last page pinned as its current page, no failure is imposed, and every
record that was stored in the file is still stored under its RID. -/
theorem InsertFileScan.insertTail_keeps (L : PageLayout) (s : InsertFileScan) (w : World)
    (rec : Record) (k : Int) (h : FileHdrPage) (p : Page)
    (x : Status × Option RID × InsertFileScan × World)
    (hcp : s.curPage = some k) (hcn : s.curPageNo = k)
    (hp : w.page? s.filePtr k = some p) (hid : p.curPage = k)
    (hh : w.hdr? s.filePtr s.headerPageNo = some h) (hlp : h.lastPage = k)
    (hnf : w.noFaults) (hpin : w.pinCnt s.filePtr k ≠ 0)
    (hx : InsertFileScan.insertTail L s w rec = some x) :
    x.2.2.1.filePtr = s.filePtr ∧ x.2.2.1.headerPageNo = s.headerPageNo ∧
    x.2.2.1.curPage = some x.2.2.1.curPageNo ∧
    x.2.2.2.noFaults ∧ x.2.2.2.pinCnt s.filePtr x.2.2.1.curPageNo ≠ 0 ∧
    (∃ h' p', x.2.2.2.hdr? s.filePtr s.headerPageNo = some h' ∧
      h'.lastPage = x.2.2.1.curPageNo ∧
      x.2.2.2.page? s.filePtr h'.lastPage = some p' ∧ p'.curPage = h'.lastPage) ∧
    (∀ r0 rec0, w.holds s.filePtr r0 rec0 → x.2.2.2.holds s.filePtr r0 rec0) := by
  have hpd : s.curPageData w = some p := by
    simp only [HeapFile.curPageData, hcp]; exact hp
  have hkH : k ≠ s.headerPageNo := World.page?_hdr?_ne w _ _ _ p h hp hh
  have hkS := World.img?_isSome_of_page? w _ _ p hp
  have hh0 : (w.setImg s.filePtr k (PageImage.data (p.insertRecord L rec).2.2)).hdr?
      s.filePtr s.headerPageNo = some h := by
    rw [World.hdr?_setImg_ne _ _ _ _ _ _ (fun hc => hkH hc.2.symm)]; exact hh
  have hp0 : (w.setImg s.filePtr k (PageImage.data (p.insertRecord L rec).2.2)).page?
      s.filePtr k = some (p.insertRecord L rec).2.2 := World.page?_setImg_same w _ _ _ hkS
  have hnf0 := World.noFaults_setImg w s.filePtr k (PageImage.data (p.insertRecord L rec).2.2) hnf
  have hnotH : ∀ (r0 : RID) (q : Page), w.page? s.filePtr r0.pageNo = some q →
      r0.pageNo ≠ s.headerPageNo := fun r0 q hq => World.page?_hdr?_ne w _ _ _ q h hq hh
  unfold InsertFileScan.insertTail at hx
  simp only [hcp, hpd] at hx
  cases hs : L.hasSpace p rec with
  | false =>
    obtain ⟨i1, i2⟩ := Page.insertRecord_full L p rec hs
    rw [if_pos i1] at hx
    rw [i2] at hh0 hp0 hnf0 hx
    have himg0 : ∀ F' k', (w.setImg s.filePtr k (PageImage.data p)).img? F' k' = w.img? F' k' :=
      World.setImg_same_img? w _ _ _ (World.img?_of_page? w _ _ p hp)
    have hpin0 : (w.setImg s.filePtr k (PageImage.data p)).pinCnt s.filePtr k ≠ 0 := by
      rw [World.pinCnt_setImg]; exact hpin
    generalize hw0 : w.setImg s.filePtr k (PageImage.data p) = w0 at *
    have hkS0 : (w0.img? s.filePtr k).isSome := World.img?_isSome_of_page? w0 _ _ p hp0
    have ha := bufMgr.allocPage_ok w0 s.filePtr k hnf0 hkS0
    obtain ⟨_, hA⟩ := bufMgr.allocPage_spec w0 s.filePtr
    obtain ⟨_, hfresh, himgA⟩ := hA ha
    have hkn : k ≠ (bufMgr.allocPage w0 s.filePtr).2.1 := by
      intro e; rw [← e] at hfresh; rw [hfresh] at hkS0; cases hkS0
    have hu : (bufMgr.unPinPage ((bufMgr.allocPage w0 s.filePtr).2.2.2.setImg s.filePtr k
        (PageImage.data (p.setNextPage (bufMgr.allocPage w0 s.filePtr).2.1)))
        s.filePtr s.curPageNo s.curDirtyFlag).1 = Status.OK := by
      rw [hcn]
      apply bufMgr.unPinPage_ok
      · exact World.noFaults_setImg _ _ _ _ (bufMgr.allocPage_noFaults w0 s.filePtr hnf0)
      · rw [World.img?_setImg]
        split
        · rfl
        · rw [himgA, if_neg (fun hc => hkn hc.2)]; exact hkS0
      · rw [World.pinCnt_setImg, bufMgr.allocPage_pinCnt w0 s.filePtr s.filePtr k hkS0]
        exact hpin0
    obtain ⟨_, g2, g3, g4, g5, g6, g7, g8, g9, g10, _⟩ :=
      InsertFileScan.grow_ok L s w0 k rec h p x hh0 hp0 ha hu hx
    obtain ⟨gw1, gw2⟩ := InsertFileScan.grow_world L s w0 k rec h p x hh0 hp0 hcn ha hu hx
    obtain ⟨j1, _⟩ := Page.insertRecord_init L (bufMgr.allocPage w0 s.filePtr).2.1 rec
    generalize (bufMgr.allocPage w0 s.filePtr).2.1 = new at *
    refine ⟨g2, g3, by rw [g4, g5], gw1 hnf0, by rw [g5]; exact gw2,
      ⟨_, _, g7, g5.symm, g9, j1⟩, ?_⟩
    rintro r0 rec0 ⟨q, hq, hg⟩
    by_cases e : r0.pageNo = k
    · rw [e, hp] at hq
      have hqp : p = q := Option.some.inj hq
      subst hqp
      exact ⟨p.setNextPage new, by rw [e]; exact g8, hg⟩
    · refine ⟨q, ?_, hg⟩
      rw [← hq]
      apply World.page?_congr
      have hS := World.img?_isSome_of_page? w _ _ q hq
      have n2 : r0.pageNo ≠ new := by
        intro e2
        rw [e2, ← himg0, g6] at hS
        cases hS
      rw [g10 _ _ (fun hc => by
        rcases hc.2 with c | c | c
        · exact e c
        · exact n2 c
        · exact hnotH r0 q hq c), himg0]
  | true =>
    obtain ⟨i1, _⟩ := Page.insertRecord_room L p rec hs
    have hns : (p.insertRecord L rec).1 ≠ Status.NOSPACE := by rw [i1]; decide
    rw [if_neg hns] at hx
    obtain ⟨_, f2, f3, f4, f5, f6, f7, _⟩ := InsertFileScan.finish_hdr _ _ s _ h x hh0 hx
    obtain ⟨fw1, fw2⟩ := InsertFileScan.finish_world _ _ s _ x hx
    obtain ⟨_, k2, _⟩ := Page.insertRecord_ok L p rec i1
    have hpk : x.2.2.2.page? s.filePtr k = some (p.insertRecord L rec).2.2 := by
      rw [World.page?_congr _ _ _ _ (f7 _ _ (fun hc => hkH hc.2))]; exact hp0
    refine ⟨f2, f3, by rw [f4, f5, hcp, hcn], fw1 hnf0, ?_,
      ⟨_, (p.insertRecord L rec).2.2, f6, ?_, ?_, ?_⟩, ?_⟩
    · rw [f5, hcn, fw2, World.pinCnt_setImg]; exact hpin
    · rw [f5, hcn]; exact hlp
    · show x.2.2.2.page? s.filePtr h.lastPage = some (p.insertRecord L rec).2.2
      rw [hlp]; exact hpk
    · show (p.insertRecord L rec).2.2.curPage = h.lastPage
      rw [k2, hlp]; exact hid
    · rintro r0 rec0 ⟨q, hq, hg⟩
      by_cases e : r0.pageNo = k
      · rw [e, hp] at hq
        have hqp : p = q := Option.some.inj hq
        subst hqp
        refine ⟨(p.insertRecord L rec).2.2, by rw [e]; exact hpk, ?_⟩
        rw [k2]
        exact Page.getRecord_append p _ r0 rec0 hg
      · refine ⟨q, ?_, hg⟩
        rw [← hq]
        apply World.page?_congr
        rw [f7 _ _ (fun hc => hnotH r0 q hq hc.2),
          World.img?_setImg_ne _ _ _ _ _ _ (fun hc => e hc.2)]

/-- One `insertRecord` call keeps an insert session ready, and every record
that was stored in the file stays stored under its RID, whatever the call
returns. -/
theorem InsertFileScan.insertRecord_keeps (L : PageLayout) (s : InsertFileScan) (w : World)
    (rec : Record) (x : Status × Option RID × InsertFileScan × World)
    (hr : s.ready w) (hx : s.insertRecord L w rec = some x) :
    x.2.2.1.ready x.2.2.2 ∧ x.2.2.1.filePtr = s.filePtr ∧
    (∀ r0 rec0, w.holds s.filePtr r0 rec0 → x.2.2.2.holds s.filePtr r0 rec0) := by
  obtain ⟨hcp, hnf, hpin, h, p, hh, hlast, hid⟩ := hr
  have hh' : w.hdr? s.filePtr s.headerPageNo = some h := hh
  have post : ∀ (s1 : InsertFileScan) (w1 : World), s1.filePtr = s.filePtr →
      s1.headerPageNo = s.headerPageNo → s1.curPage = some h.lastPage →
      s1.curPageNo = h.lastPage → (∀ F k, w1.img? F k = w.img? F k) → w1.noFaults →
      w1.pinCnt s.filePtr h.lastPage ≠ 0 → InsertFileScan.insertTail L s1 w1 rec = some x →
      x.2.2.1.ready x.2.2.2 ∧ x.2.2.1.filePtr = s.filePtr ∧
      (∀ r0 rec0, w.holds s.filePtr r0 rec0 → x.2.2.2.holds s.filePtr r0 rec0) := by
    intro s1 w1 e1 e2 e3 e4 himg hnf1 hpin1 hx1
    have hp1 : w1.page? s1.filePtr h.lastPage = some p := by
      rw [e1, World.page?_congr _ _ _ _ (himg _ _)]; exact hlast
    have hh1 : w1.hdr? s1.filePtr s1.headerPageNo = some h := by
      rw [e1, e2, World.hdr?_congr _ _ _ _ (himg _ _)]; exact hh'
    have hpin1' : w1.pinCnt s1.filePtr h.lastPage ≠ 0 := by rw [e1]; exact hpin1
    obtain ⟨c1, c2, c3, c4, c5, ⟨h', p', c6, c7, c8, c9⟩, c10⟩ :=
      InsertFileScan.insertTail_keeps L s1 w1 rec h.lastPage h p x e3 e4 hp1 hid hh1 rfl
        hnf1 hpin1' hx1
    rw [e1] at c1 c5 c6 c8 c10
    rw [e2] at c6
    refine ⟨⟨c3, c4, by rw [c1]; exact c5, h', p', ?_, ?_, c9⟩, c1, ?_⟩
    · show x.2.2.2.hdr? x.2.2.1.filePtr x.2.2.1.headerPageNo = some h'
      rw [c1, c2, e2]; exact c6
    · rw [c1]; exact c8
    · rintro r0 rec0 ⟨q, hq, hg⟩
      exact c10 r0 rec0 ⟨q, by rw [World.page?_congr _ _ _ _ (himg _ _)]; exact hq, hg⟩
  unfold InsertFileScan.insertRecord at hx
  by_cases hlen : rec.length > (L.PAGESIZE : Int) - (L.DPFIXED : Int)
  · rw [if_pos hlen] at hx
    simp only [Option.some.injEq] at hx
    subst hx
    exact ⟨⟨hcp, hnf, hpin, h, p, hh, hlast, hid⟩, rfl, fun _ _ hs => hs⟩
  · rw [if_neg hlen] at hx
    simp only [hh] at hx
    by_cases hl : h.lastPage ≠ s.curPageNo
    · rw [if_pos hl] at hx
      have hcur := World.img?_isSome_of_pinCnt w _ _ hpin
      have hu := bufMgr.unPinPage_ok w s.filePtr s.curPageNo s.curDirtyFlag hnf hcur hpin
      have hnfu := bufMgr.unPinPage_noFaults w s.filePtr s.curPageNo s.curDirtyFlag hnf
      have himgu : ∀ F k, (bufMgr.unPinPage w s.filePtr s.curPageNo s.curDirtyFlag).2.img? F k
          = w.img? F k := fun F k => bufMgr.unPinPage_img? _ _ _ _ _ _
      have hhu : (bufMgr.unPinPage w s.filePtr s.curPageNo s.curDirtyFlag).2.hdr?
          s.filePtr s.headerPageNo = some h := by
        rw [← hh']; exact World.hdr?_congr _ _ _ _ (himgu _ _)
      have hex : ((bufMgr.unPinPage w s.filePtr s.curPageNo s.curDirtyFlag).2.img?
          s.filePtr h.lastPage).isSome := by
        rw [himgu]; exact World.img?_isSome_of_page? w _ _ p hlast
      obtain ⟨hr, hptr⟩ := bufMgr.readPage_ok _ s.filePtr h.lastPage s.curPage hnfu hex
      have hnfr := bufMgr.readPage_noFaults _ s.filePtr h.lastPage s.curPage hnfu
      have hpinr := bufMgr.readPage_pinCnt _ s.filePtr h.lastPage s.curPage hr
      have himgr : ∀ F k, (bufMgr.readPage (bufMgr.unPinPage w s.filePtr s.curPageNo
          s.curDirtyFlag).2 s.filePtr h.lastPage s.curPage).2.2.img? F k = w.img? F k := by
        intro F k; rw [bufMgr.readPage_img?, himgu]
      have hhr : (bufMgr.readPage (bufMgr.unPinPage w s.filePtr s.curPageNo
          s.curDirtyFlag).2 s.filePtr h.lastPage s.curPage).2.2.hdr? s.filePtr
          s.headerPageNo = some h := by
        rw [← hh']; exact World.hdr?_congr _ _ _ _ (himgr _ _)
      simp only [hu, ne_eq, not_true_eq_false, if_false, HeapFile.headerPage, hhu, hr, hhr] at hx
      exact post ⟨⟨s.filePtr, s.headerPageNo, s.hdrDirtyFlag,
          (bufMgr.readPage (bufMgr.unPinPage w s.filePtr s.curPageNo s.curDirtyFlag).2
            s.filePtr h.lastPage s.curPage).2.1, h.lastPage, false, s.curRec⟩⟩ _
        rfl rfl hptr rfl himgr hnfr hpinr hx
    · rw [if_neg hl] at hx
      have e : s.curPageNo = h.lastPage := (not_not.mp hl).symm
      exact post s w rfl rfl (by rw [hcp, e]) e (fun _ _ => rfl) hnf (by rw [← e]; exact hpin) hx

/-- Any sequence of `insertRecord` calls keeps an insert session ready and
every stored record stored. -/
theorem InsertFileScan.insertAll_keeps (L : PageLayout) :
    ∀ (more : List Record) (s : InsertFileScan) (w : World)
      (y : List (Status × Option RID) × InsertFileScan × World),
      s.ready w → InsertFileScan.insertAll L more s w = some y →
      y.2.1.ready y.2.2 ∧ y.2.1.filePtr = s.filePtr ∧
      (∀ r0 rec0, w.holds s.filePtr r0 rec0 → y.2.2.holds s.filePtr r0 rec0)
  | [], s, w, y, hr, hy => by
    simp only [InsertFileScan.insertAll, Option.some.injEq] at hy
    subst hy
    exact ⟨hr, rfl, fun _ _ hs => hs⟩
  | rec :: recs, s, w, y, hr, hy => by
    unfold InsertFileScan.insertAll at hy
    cases hins : InsertFileScan.insertRecord L s w rec with
    | none => rw [hins] at hy; cases hy
    | some x =>
      rw [hins] at hy
      simp only [] at hy
      obtain ⟨a1, a2, a3⟩ := InsertFileScan.insertRecord_keeps L s w rec x hr hins
      cases hrest : InsertFileScan.insertAll L recs x.2.2.1 x.2.2.2 with
      | none => rw [hrest] at hy; cases hy
      | some z =>
        rw [hrest] at hy
        simp only [Option.map_some', Option.some.injEq] at hy
        subst hy
        obtain ⟨b1, b2, b3⟩ := InsertFileScan.insertAll_keeps L recs x.2.2.1 x.2.2.2 z a1 hrest
        refine ⟨b1, b2.trans a2, fun r0 rec0 hs => ?_⟩
        have := b3 r0 rec0 (by rw [a2]; exact a3 r0 rec0 hs)
        rw [a2] at this
        exact this

/-- C5: in a session whose page pointer addresses the page `curPageNo`, over a
file whose data pages are stored under their own numbers, if `insertRecord`
returns `OK` with the RID `r` (the record went into the existing last page or
into a newly allocated one), then
* `HeapFile::getRecord(r)` called next on the same session returns `OK` with a
  record equal to the inserted one (same bytes, hence same length), without
  changing the session or the world; and
* when the session held its current page pinned and no failure is imposed on
  the buffer pool: after any further `insertRecord` calls on the session
  (which may fill pages, grow the chain and move the session to another page),
  `getRecord(r)` returns `OK` with a record equal to the inserted one, called
  on the inserting session itself or on any other session on the file that
  holds its current page pinned; when the record's page is not the session's
  current page, `getRecord` unpins the current page and reads the record's
  page. -/
theorem insertRecord_then_getRecord (L : PageLayout) (s : InsertFileScan) (w : World)
    (rec : Record) (r : RID) (s' : InsertFileScan) (w' : World)
    (h : FileHdrPage) (p : Page)
    (hcp : s.curPage = some s.curPageNo)
    (hh : s.headerPage w = some h) (hlast : w.page? s.filePtr h.lastPage = some p)
    (hid : p.curPage = h.lastPage)
    (hx : s.insertRecord L w rec = some (Status.OK, some r, s', w')) :
    s'.toHeapFile.getRecord w' r = some (Status.OK, some rec, s'.toHeapFile, w') ∧
    (w.noFaults → w.pinCnt s.filePtr s.curPageNo ≠ 0 →
      ∀ (more : List Record) (out : List (Status × Option RID)) (sN : InsertFileScan)
        (wN : World), InsertFileScan.insertAll L more s' w' = some (out, sN, wN) →
        (∃ t' w'', sN.toHeapFile.getRecord wN r = some (Status.OK, some rec, t', w'')) ∧
        ∀ t : HeapFile, t.filePtr = s.filePtr → t.curPage = some t.curPageNo →
          wN.pinCnt t.filePtr t.curPageNo ≠ 0 →
          ∃ t' w'', t.getRecord wN r = some (Status.OK, some rec, t', w'')) := by
  have key : r.pageNo = s'.curPageNo ∧
      ∃ p', s'.curPageData w' = some p' ∧ p'.getRecord r = (Status.OK, some rec) := by
    have hx := hx
    unfold InsertFileScan.insertRecord at hx
    by_cases hlen : rec.length > (L.PAGESIZE : Int) - (L.DPFIXED : Int)
    · rw [if_pos hlen] at hx
      simp at hx
    · rw [if_neg hlen] at hx
      have hh' : w.hdr? s.filePtr s.headerPageNo = some h := hh
      simp only [hh] at hx
      have hid' : ∀ (w1 : World), (∀ k, w1.img? s.filePtr k = w.img? s.filePtr k) →
          ∀ q, w1.page? s.filePtr h.lastPage = some q → q.curPage = h.lastPage := by
        intro w1 hw1 q hq
        rw [World.page?_congr _ _ _ _ (hw1 _), hlast] at hq
        rw [← Option.some.inj hq]; exact hid
      by_cases hl : h.lastPage ≠ s.curPageNo
      · rw [if_pos hl] at hx
        have hhu : (bufMgr.unPinPage w s.filePtr s.curPageNo s.curDirtyFlag).2.hdr?
            s.filePtr s.headerPageNo = some h := by
          rw [← hh']; exact World.hdr?_congr _ _ _ _ (bufMgr.unPinPage_img? _ _ _ _ _ _)
        by_cases hu : (bufMgr.unPinPage w s.filePtr s.curPageNo s.curDirtyFlag).1 ≠ Status.OK
        · rw [if_pos hu] at hx
          simp only [Option.some.injEq, Prod.mk.injEq] at hx
          exact absurd hx.1 hu
        · rw [if_neg hu] at hx
          simp only [HeapFile.headerPage, hhu] at hx
          have hhr : (bufMgr.readPage (bufMgr.unPinPage w s.filePtr s.curPageNo
              s.curDirtyFlag).2 s.filePtr h.lastPage s.curPage).2.2.hdr? s.filePtr
              s.headerPageNo = some h := by
            rw [← hhu]; exact World.hdr?_congr _ _ _ _ (bufMgr.readPage_img? _ _ _ _ _ _)
          by_cases hr : (bufMgr.readPage (bufMgr.unPinPage w s.filePtr s.curPageNo
              s.curDirtyFlag).2 s.filePtr h.lastPage s.curPage).1 ≠ Status.OK
          · rw [if_pos hr] at hx
            simp only [Option.some.injEq, Prod.mk.injEq] at hx
            exact absurd hx.1 hr
          · rw [if_neg hr] at hx
            simp only [hhr] at hx
            have hptr := bufMgr.readPage_ptr _ _ _ _ (not_not.mp hr)
            exact InsertFileScan.insertTail_get L
              ⟨⟨s.filePtr, s.headerPageNo, s.hdrDirtyFlag,
                (bufMgr.readPage (bufMgr.unPinPage w s.filePtr s.curPageNo s.curDirtyFlag).2
                  s.filePtr h.lastPage s.curPage).2.1, h.lastPage, false, s.curRec⟩⟩
              _ rec h r s' w' hhr hptr
              (hid' _ (fun k => by rw [bufMgr.readPage_img?, bufMgr.unPinPage_img?]))
              hx
      · rw [if_neg hl] at hx
        have e : s.curPageNo = h.lastPage := (not_not.mp hl).symm
        exact InsertFileScan.insertTail_get L s w rec h r s' w' hh' hcp
          (by rw [e]; exact hid' w (fun _ => rfl)) hx
  obtain ⟨k1, p', k2, k3⟩ := key
  refine ⟨?_, ?_⟩
  · unfold HeapFile.getRecord
    rw [if_pos k1]
    simp only [k2, k3]
  · intro hnf hpin more out sN wN hrun
    obtain ⟨a1, a2, _⟩ := InsertFileScan.insertRecord_keeps L s w rec _
      ⟨hcp, hnf, hpin, h, p, hh, hlast, hid⟩ hx
    have a2' : s'.filePtr = s.filePtr := a2
    have a1' : s'.ready w' := a1
    have hst : w'.holds s'.filePtr r rec := by
      refine ⟨p', ?_, k3⟩
      have := k2
      simp only [HeapFile.curPageData, a1'.1] at this
      rw [k1]; exact this
    obtain ⟨b1, b2, b3⟩ := InsertFileScan.insertAll_keeps L more s' w' _ a1' hrun
    have b1' : sN.ready wN := b1
    have b2' : sN.filePtr = s'.filePtr := b2
    have hsN : wN.holds s.filePtr r rec := by
      rw [← a2']; exact b3 r rec hst
    refine ⟨?_, fun t e1 e2 e3 => ?_⟩
    · exact HeapFile.getRecord_stored sN.toHeapFile wN r rec
        (by rw [b2', a2']; exact hsN) b1'.1 b1'.2.1 b1'.2.2.1
    · exact HeapFile.getRecord_stored t wN r rec (by rw [e1]; exact hsN) e2 b1'.2.1 e3

/-- Witness of C5: in the world where the example's insert session and scan
session are both open, page 3 is full and the insertion of a record with the
key 9 grows the chain: the record goes to the new page 4, RID (4,0), and is
read back at once.  Two more insertions then fill page 4 and move the insert
session to page 5; `getRecord` with the RID (4,0) on this session unpins page
5, reads page 4 and returns the record with the key 9, and so does `getRecord`
on the scan session, whose current page is page 1. -/
theorem insertRecord_then_getRecord_witness :
    exShared7.2.2.2.page? "T1" 3 = some ⟨3, -1, [some [5, 0, 0, 0], some [7, 0, 0, 0]]⟩ ∧
    exShared7.2.2.1.insertRecord exLayout exShared7.2.2.2 (exKey 9) =
      some (Status.OK, some ⟨4, 0⟩, exShared9.2.2.1, exShared9.2.2.2) ∧
    exShared9.2.2.1.toHeapFile.getRecord exShared9.2.2.2 ⟨4, 0⟩ =
      some (Status.OK, some (exKey 9), exShared9.2.2.1.toHeapFile, exShared9.2.2.2) ∧
    InsertFileScan.insertAll exLayout [exKey 2, exKey 6] exShared9.2.2.1 exShared9.2.2.2 =
      some (exSharedMore.1, exSharedMore.2.1, exSharedMore.2.2) ∧
    exSharedMore.1 = [(Status.OK, some ⟨4, 1⟩), (Status.OK, some ⟨5, 0⟩)] ∧
    exSharedMore.2.1.curPageNo = 5 ∧
    (∃ t' w'', exSharedMore.2.1.toHeapFile.getRecord exSharedMore.2.2 ⟨4, 0⟩ =
      some (Status.OK, some (exKey 9), t', w'')) ∧
    exScan.curPageNo = 1 ∧
    (∃ t' w'', exScan.toHeapFile.getRecord exSharedMore.2.2 ⟨4, 0⟩ =
      some (Status.OK, some (exKey 9), t', w'')) :=
  ⟨by decide, rfl,
    (insertRecord_then_getRecord exLayout exShared7.2.2.1 exShared7.2.2.2 (exKey 9) ⟨4, 0⟩
      exShared9.2.2.1 exShared9.2.2.2 ⟨"T1", 1, 3, 3, 6⟩
      ⟨3, -1, [some [5, 0, 0, 0], some [7, 0, 0, 0]]⟩
      (by decide) (by decide) (by decide) rfl rfl).1,
    rfl, by decide, by decide,
    ((insertRecord_then_getRecord exLayout exShared7.2.2.1 exShared7.2.2.2 (exKey 9) ⟨4, 0⟩
      exShared9.2.2.1 exShared9.2.2.2 ⟨"T1", 1, 3, 3, 6⟩
      ⟨3, -1, [some [5, 0, 0, 0], some [7, 0, 0, 0]]⟩
      (by decide) (by decide) (by decide) rfl rfl).2 (by intro st hst; cases hst) (by decide)
      [exKey 2, exKey 6] exSharedMore.1 exSharedMore.2.1 exSharedMore.2.2 rfl).1,
    by decide,
    ((insertRecord_then_getRecord exLayout exShared7.2.2.1 exShared7.2.2.2 (exKey 9) ⟨4, 0⟩
      exShared9.2.2.1 exShared9.2.2.2 ⟨"T1", 1, 3, 3, 6⟩
      ⟨3, -1, [some [5, 0, 0, 0], some [7, 0, 0, 0]]⟩
      (by decide) (by decide) (by decide) rfl rfl).2 (by intro st hst; cases hst) (by decide)
      [exKey 2, exKey 6] exSharedMore.1 exSharedMore.2.1 exSharedMore.2.2 rfl).2
      exScan.toHeapFile (by decide) (by decide) (by decide)⟩

end HeapFileModel
